import Mathlib

/-!
# Hunyadi chess engine: bitboards, attack sets and the board

A shallow embedding of `src/Main.cpp`.  A `uint64_t` is a natural number below
`2 ^ 64`; every operation that can leave that range in C++ (left shift,
complement) is truncated explicitly.  A `Square` is a natural number, `0 .. 63`
for the squares `A1 .. H8` and `255` for `Square::NONE`.  The `NONE` members of
`Color` and `PieceType` only ever mark the absence of a piece, and are embedded
as `Option`.
-/

namespace Hunyadi

/-! ## Machine words -/

/-- The `uint64_t` value `~0ULL`. -/
def U64_MAX : Nat := 0xFFFFFFFFFFFFFFFF

/-- The `uint64_t` complement `~x`. -/
def not64 (x : Nat) : Nat := U64_MAX ^^^ x

/-- The `uint64_t` left shift `x << n` (bits shifted past bit 63 are lost). -/
def shl64 (x n : Nat) : Nat := (x <<< n) % 2 ^ 64

/-- The `uint64_t` right shift `x >> n`. -/
def shr64 (x n : Nat) : Nat := x >>> n

/-- The single-bit mask `1ULL << s`. -/
def bit (s : Nat) : Nat := shl64 1 s

/-- Whether `x & mask` is non-zero, the truth value C++ gives `x & mask`. -/
def anyBit (x mask : Nat) : Bool := x &&& mask != 0

/-- The squares of the set bits of `x`, lowest first: the order in which the loops
`while (bb) { sq = lsbIndex(bb); ...; bb &= bb - 1; }` visit them. -/
def squaresOf (x : Nat) : List Nat := (List.range 64).filter (fun i => x.testBit i)

/-- The number of set bits, `__builtin_popcountll`. -/
def popcount (x : Nat) : Nat := (squaresOf x).length

/-- The index of the lowest set bit, `__builtin_ctzll`; `64` for the input `0`,
on which the builtin is undefined. -/
def lsbIndex (x : Nat) : Nat := (squaresOf x).headD 64

/-- The value `std::abs(a - b)` for non-negative `int`s `a` and `b`. -/
def absDiff (a b : Nat) : Nat := (a - b) + (b - a)

/-- The value an `int` holds after the arithmetic result `x` is stored in it: `x` itself
when it fits in 32 bits; outside that range, where signed arithmetic is undefined in the
source, the two's-complement value. -/
def wrapInt32 (x : Int) : Int := (x + 2147483648) % 4294967296 - 2147483648

/-- File of a square, `sq % 8`. -/
def fileOf (s : Nat) : Nat := s % 8

/-- Rank of a square, `sq / 8`. -/
def rankOf (s : Nat) : Nat := s / 8

/-! ## Colours, pieces, moves -/

inductive Color where
  | WHITE
  | BLACK
  deriving DecidableEq, Repr

inductive PieceType where
  | PAWN
  | KNIGHT
  | BISHOP
  | ROOK
  | QUEEN
  | KING
  deriving DecidableEq, Repr

/-- The opposite colour, `(us == Color::WHITE) ? Color::BLACK : Color::WHITE`. -/
def Color.other : Color → Color
  | .WHITE => .BLACK
  | .BLACK => .WHITE

/-- The value `Square::NONE`. -/
def SQ_NONE : Nat := 255

/-! ## Attack tables (`namespace Attacks`) -/

namespace Attacks

/-- The source's `pawnAttacks`, with the masks exactly as written there. -/
def pawnAttacks (color : Color) (pawns : Nat) : Nat :=
  match color with
  | .WHITE =>
      (shl64 pawns 7 &&& not64 0x0101010101010101) |||
        (shl64 pawns 9 &&& not64 0x8080808080808080)
  | .BLACK =>
      (shr64 pawns 7 &&& not64 0x8080808080808080) |||
        (shr64 pawns 9 &&& not64 0x0101010101010101)

/-- The source's `knightAttacks`: eight guarded single-bit updates. -/
def knightAttacks (sq : Nat) : Nat :=
  let s := sq
  let bb := 0
  let bb := if s % 8 > 0 ∧ s / 8 > 1 then bb ||| bit (s - 17) else bb
  let bb := if s % 8 < 7 ∧ s / 8 > 1 then bb ||| bit (s - 15) else bb
  let bb := if s % 8 > 1 ∧ s / 8 > 0 then bb ||| bit (s - 10) else bb
  let bb := if s % 8 < 6 ∧ s / 8 > 0 then bb ||| bit (s - 6) else bb
  let bb := if s % 8 > 1 ∧ s / 8 < 7 then bb ||| bit (s + 6) else bb
  let bb := if s % 8 < 6 ∧ s / 8 < 7 then bb ||| bit (s + 10) else bb
  let bb := if s % 8 > 0 ∧ s / 8 < 6 then bb ||| bit (s + 15) else bb
  let bb := if s % 8 < 7 ∧ s / 8 < 6 then bb ||| bit (s + 17) else bb
  bb

/-- The source's `kingAttacks`: eight guarded single-bit updates. -/
def kingAttacks (sq : Nat) : Nat :=
  let s := sq
  let bb := 0
  let bb := if s % 8 > 0 ∧ s / 8 > 0 then bb ||| bit (s - 9) else bb
  let bb := if s / 8 > 0 then bb ||| bit (s - 8) else bb
  let bb := if s % 8 < 7 ∧ s / 8 > 0 then bb ||| bit (s - 7) else bb
  let bb := if s % 8 > 0 then bb ||| bit (s - 1) else bb
  let bb := if s % 8 < 7 then bb ||| bit (s + 1) else bb
  let bb := if s % 8 > 0 ∧ s / 8 < 7 then bb ||| bit (s + 7) else bb
  let bb := if s / 8 < 7 then bb ||| bit (s + 8) else bb
  let bb := if s % 8 < 7 ∧ s / 8 < 7 then bb ||| bit (s + 9) else bb
  bb

/-- One ray loop of the sliders,
`for (i = ..; i < 8; ++i) { if (edge i) break; attacks |= bit (target i);
if (occupied & bit (target i)) break; }`, with `n` iterations left. -/
def rayLoop (edge : Nat → Bool) (target : Nat → Nat) (occupied : Nat) :
    Nat → Nat → Nat → Nat
  | 0, _, attacks => attacks
  | n + 1, i, attacks =>
      if edge i then attacks
      else
        let attacks := attacks ||| bit (target i)
        if anyBit occupied (bit (target i)) then attacks
        else rayLoop edge target occupied n (i + 1) attacks

/-- The source's `rookAttacks`: four ray loops, `i` from 1 to 7.  The signed tests
`f - i < 0` and `r - i < 0` are written `f < i` and `r < i`. -/
def rookAttacks (sq : Nat) (occupied : Nat) : Nat :=
  let s := sq
  let attacks := 0
  let r := s / 8
  let f := s % 8
  let attacks := rayLoop (fun i => decide (f + i ≥ 8)) (fun i => s + i) occupied 7 1 attacks
  let attacks := rayLoop (fun i => decide (f < i)) (fun i => s - i) occupied 7 1 attacks
  let attacks := rayLoop (fun i => decide (r + i ≥ 8)) (fun i => s + i * 8) occupied 7 1 attacks
  let attacks := rayLoop (fun i => decide (r < i)) (fun i => s - i * 8) occupied 7 1 attacks
  attacks

/-- The source's `bishopAttacks`: four diagonal ray loops. -/
def bishopAttacks (sq : Nat) (occupied : Nat) : Nat :=
  let s := sq
  let attacks := 0
  let r := s / 8
  let f := s % 8
  let attacks :=
    rayLoop (fun i => decide (f + i ≥ 8) || decide (r + i ≥ 8)) (fun i => s + i * 9)
      occupied 7 1 attacks
  let attacks :=
    rayLoop (fun i => decide (f < i) || decide (r + i ≥ 8)) (fun i => s + i * 7)
      occupied 7 1 attacks
  let attacks :=
    rayLoop (fun i => decide (f + i ≥ 8) || decide (r < i)) (fun i => s - i * 7)
      occupied 7 1 attacks
  let attacks :=
    rayLoop (fun i => decide (f < i) || decide (r < i)) (fun i => s - i * 9)
      occupied 7 1 attacks
  attacks

/-- The source's `queenAttacks`. -/
def queenAttacks (sq : Nat) (occupied : Nat) : Nat :=
  rookAttacks sq occupied ||| bishopAttacks sq occupied

end Attacks

/-! ## Board state -/

/-- The source's `Piece`; an absent piece (`{PieceType::NONE, Color::NONE}`) is `none`
of `Option Piece`. -/
structure Piece where
  type : PieceType
  color : Color
  deriving DecidableEq, Repr

/-- The source's `Move`; `promotion = none` is `PieceType::NONE`. -/
structure Move where
  from_ : Nat
  to_ : Nat
  promotion : Option PieceType
  score : Int
  deriving DecidableEq, Repr

/-- The constructor `Move(f, t, p)`: the score starts at 0. -/
def Move.mk3 (f t : Nat) (p : Option PieceType) : Move := ⟨f, t, p, 0⟩

/-- The constructor `Move(f, t)`. -/
def Move.mk2 (f t : Nat) : Move := ⟨f, t, none, 0⟩

/-- One row `pieces_[c]` of the bitmap table: six `uint64_t`, indexed by piece kind. -/
structure Bitboards6 where
  pawn : Nat
  knight : Nat
  bishop : Nat
  rook : Nat
  queen : Nat
  king : Nat
  deriving DecidableEq, Repr

/-- The table `pieces_[2][6]`. -/
structure Pieces where
  white : Bitboards6
  black : Bitboards6
  deriving DecidableEq, Repr

/-- The read `row[p]`. -/
def Bitboards6.get (r : Bitboards6) : PieceType → Nat
  | .PAWN => r.pawn
  | .KNIGHT => r.knight
  | .BISHOP => r.bishop
  | .ROOK => r.rook
  | .QUEEN => r.queen
  | .KING => r.king

/-- The assignment `row[p] = v`. -/
def Bitboards6.set (r : Bitboards6) (p : PieceType) (v : Nat) : Bitboards6 :=
  match p with
  | .PAWN => { r with pawn := v }
  | .KNIGHT => { r with knight := v }
  | .BISHOP => { r with bishop := v }
  | .ROOK => { r with rook := v }
  | .QUEEN => { r with queen := v }
  | .KING => { r with king := v }

/-- The same function applied to each of the six bitmaps of a row. -/
def Bitboards6.map (f : Nat → Nat) (r : Bitboards6) : Bitboards6 :=
  ⟨f r.pawn, f r.knight, f r.bishop, f r.rook, f r.queen, f r.king⟩

/-- The read `pieces_[c][p]`. -/
def Pieces.get (pcs : Pieces) (c : Color) (p : PieceType) : Nat :=
  match c with
  | .WHITE => pcs.white.get p
  | .BLACK => pcs.black.get p

/-- The assignment `pieces_[c][p] = v`. -/
def Pieces.set (pcs : Pieces) (c : Color) (p : PieceType) (v : Nat) : Pieces :=
  match c with
  | .WHITE => { pcs with white := pcs.white.set p v }
  | .BLACK => { pcs with black := pcs.black.set p v }

/-- The loop `for c, for p: pieces_[c][p] = f (pieces_[c][p])`. -/
def Pieces.map (f : Nat → Nat) (pcs : Pieces) : Pieces :=
  ⟨pcs.white.map f, pcs.black.map f⟩

/-- The table `castlingRights_[2][2]`; the second index is `0` for the king side and
`1` for the queen side. -/
structure CastlingRights where
  whiteKingSide : Bool
  whiteQueenSide : Bool
  blackKingSide : Bool
  blackQueenSide : Bool
  deriving DecidableEq, Repr

/-- The read `castlingRights_[c][i]`. -/
def CastlingRights.get (cr : CastlingRights) (c : Color) (i : Fin 2) : Bool :=
  match c, i with
  | .WHITE, 0 => cr.whiteKingSide
  | .WHITE, 1 => cr.whiteQueenSide
  | .BLACK, 0 => cr.blackKingSide
  | .BLACK, 1 => cr.blackQueenSide

/-- The assignment `castlingRights_[c][i] = false`. -/
def CastlingRights.clear (cr : CastlingRights) (c : Color) (i : Fin 2) : CastlingRights :=
  match c, i with
  | .WHITE, 0 => { cr with whiteKingSide := false }
  | .WHITE, 1 => { cr with whiteQueenSide := false }
  | .BLACK, 0 => { cr with blackKingSide := false }
  | .BLACK, 1 => { cr with blackQueenSide := false }

/-- The source's `BoardState`, the frame pushed on the undo stack. -/
structure BoardState where
  pieces : Pieces
  occupied : Nat
  empty : Nat
  sideToMove : Color
  enPassant : Nat
  castlingRights : CastlingRights
  halfmoveClock : Int
  fullmoveNumber : Int
  deriving DecidableEq, Repr

/-- The data members of the source's `Board`. -/
structure Board where
  pieces_ : Pieces
  occupied_ : Nat
  empty_ : Nat
  sideToMove_ : Color
  enPassant_ : Nat
  castlingRights_ : CastlingRights
  halfmoveClock_ : Int
  fullmoveNumber_ : Int
  moveStack_ : List Move
  stateStack_ : List BoardState
  deriving DecidableEq, Repr

/-- The twelve (colour, kind) indices in the order of the loops
`for c in 0..1, for p in 0..5`. -/
def allKinds : List (Color × PieceType) :=
  [(.WHITE, .PAWN), (.WHITE, .KNIGHT), (.WHITE, .BISHOP), (.WHITE, .ROOK), (.WHITE, .QUEEN),
   (.WHITE, .KING), (.BLACK, .PAWN), (.BLACK, .KNIGHT), (.BLACK, .BISHOP), (.BLACK, .ROOK),
   (.BLACK, .QUEEN), (.BLACK, .KING)]

/-- The six kinds in the order of the loops `for p in 0..5`. -/
def allTypes : List PieceType := [.PAWN, .KNIGHT, .BISHOP, .ROOK, .QUEEN, .KING]

/-- The bitwise OR of the twelve bitmaps, the loop of `updateBitboards`. -/
def unionAll (pcs : Pieces) : Nat :=
  allKinds.foldl (fun acc cp => acc ||| pcs.get cp.1 cp.2) 0

/-- The bitwise OR of the six bitmaps of one colour,
`for (p = 0; p < 6; ++p) enemy |= pieces_[them][p]`. -/
def unionOf (pcs : Pieces) (c : Color) : Nat :=
  allTypes.foldl (fun acc p => acc ||| pcs.get c p) 0

namespace Board

/-- The source's `updateBitboards`. -/
def updateBitboards (b : Board) : Board :=
  let occ := unionAll b.pieces_
  { b with occupied_ := occ, empty_ := not64 occ }

/-- The source's `isSquareAttacked`. -/
def isSquareAttacked (b : Board) (sq : Nat) (attacker : Color) : Bool :=
  let occ := b.occupied_
  let s := sq
  if anyBit (Attacks.pawnAttacks attacker (b.pieces_.get attacker .PAWN)) (bit s) then true
  else if (squaresOf (b.pieces_.get attacker .KNIGHT)).any
      (fun ksq => anyBit (Attacks.knightAttacks ksq) (bit s)) then true
  else if (squaresOf (b.pieces_.get attacker .BISHOP)).any
      (fun bsq => anyBit (Attacks.bishopAttacks bsq occ) (bit s)) then true
  else if (squaresOf (b.pieces_.get attacker .ROOK)).any
      (fun rsq => anyBit (Attacks.rookAttacks rsq occ) (bit s)) then true
  else if (squaresOf (b.pieces_.get attacker .QUEEN)).any
      (fun qsq => anyBit (Attacks.queenAttacks qsq occ) (bit s)) then true
  else
    let ksq := lsbIndex (b.pieces_.get attacker .KING)
    if anyBit (Attacks.kingAttacks ksq) (bit s) then true else false

/-- The source's `isInCheck`. -/
def isInCheck (b : Board) (color : Color) : Bool :=
  let kingSq := lsbIndex (b.pieces_.get color .KING)
  b.isSquareAttacked kingSq color.other

/-- The source's `reset`: every member is overwritten. -/
def reset (b : Board) : Board :=
  let pcs : Pieces :=
    { white :=
        { pawn := 0x000000000000FF00
          knight := 0x0000000000000042
          bishop := 0x0000000000000024
          rook := 0x0000000000000081
          queen := 0x0000000000000008
          king := 0x0000000000000010 }
      black :=
        { pawn := 0x00FF000000000000
          knight := 0x4200000000000000
          bishop := 0x2400000000000000
          rook := 0x8100000000000000
          queen := 0x0800000000000000
          king := 0x1000000000000000 } }
  let b := updateBitboards { b with pieces_ := pcs }
  { b with
    sideToMove_ := .WHITE
    enPassant_ := SQ_NONE
    castlingRights_ := ⟨true, true, true, true⟩
    halfmoveClock_ := 0
    fullmoveNumber_ := 1
    moveStack_ := []
    stateStack_ := [] }

/-- The source's `pieceAt`: the first of the twelve bitmaps, in loop order, with the bit
of `sq` set. -/
def pieceAt (b : Board) (sq : Nat) : Option Piece :=
  if sq = SQ_NONE then none
  else
    let mask := bit sq
    (allKinds.find? (fun cp => anyBit (b.pieces_.get cp.1 cp.2) mask)).map
      (fun cp => { type := cp.2, color := cp.1 })

/-- The source's `isCapture`. -/
def isCapture (b : Board) (move : Move) : Bool :=
  (b.pieceAt move.to_).isSome

/-- The frame `makeMove` and `makeNullMove` push: a copy of the eight state members. -/
def snapshot (b : Board) : BoardState :=
  { pieces := b.pieces_
    occupied := b.occupied_
    empty := b.empty_
    sideToMove := b.sideToMove_
    enPassant := b.enPassant_
    castlingRights := b.castlingRights_
    halfmoveClock := b.halfmoveClock_
    fullmoveNumber := b.fullmoveNumber_ }

/-- The eight assignments by which `unmakeMove` and `unmakeNullMove` copy a frame
back. -/
def restore (b : Board) (state : BoardState) : Board :=
  { b with
    pieces_ := state.pieces
    occupied_ := state.occupied
    empty_ := state.empty
    sideToMove_ := state.sideToMove
    enPassant_ := state.enPassant
    castlingRights_ := state.castlingRights
    halfmoveClock_ := state.halfmoveClock
    fullmoveNumber_ := state.fullmoveNumber }

/-- The statements `pieces_[us][moved.type] &= ~fromMask; pieces_[us][moved.type] |= toMask`.
Where `pieceAt(from)` finds no piece the source indexes `pieces_[us][6]`, outside the
array; the embedding leaves the bitmaps untouched there. -/
def stepMove (pcs : Pieces) (us : Color) (moved : Option Piece) (from_ to_ : Nat) : Pieces :=
  match moved with
  | some m =>
      let pcs := pcs.set us m.type (pcs.get us m.type &&& not64 (bit from_))
      pcs.set us m.type (pcs.get us m.type ||| bit to_)
  | none => pcs

/-- The statement `if (captured.type != NONE) pieces_[them][captured.type] &= ~toMask`. -/
def stepCapture (pcs : Pieces) (them : Color) (captured : Option Piece) (to_ : Nat) :
    Pieces :=
  match captured with
  | some c => pcs.set them c.type (pcs.get them c.type &&& not64 (bit to_))
  | none => pcs

/-- The statement `if (move.to == enPassant_) pieces_[them][0] &= ~(1ULL << epPawn)` of the
pawn branch, `enPassant` being the member's value at that point. -/
def stepEnPassant (pcs : Pieces) (us : Color) (to_ enPassant : Nat) : Pieces :=
  if to_ = enPassant then
    let epPawn := if us = .WHITE then to_ - 8 else to_ + 8
    pcs.set us.other .PAWN (pcs.get us.other .PAWN &&& not64 (bit epPawn))
  else pcs

/-- The promotion statements of the pawn branch. -/
def stepPromotion (pcs : Pieces) (us : Color) (promotion : Option PieceType) (to_ : Nat) :
    Pieces :=
  match promotion with
  | some promo =>
      let pcs := pcs.set us .PAWN (pcs.get us .PAWN &&& not64 (bit to_))
      pcs.set us promo (pcs.get us promo ||| bit to_)
  | none => pcs

/-- The rook relocation of the king branch,
`if (std::abs(to - from) == 2 && from % 8 == 4) { ... }`. -/
def stepCastle (pcs : Pieces) (us : Color) (from_ to_ : Nat) : Pieces :=
  if absDiff to_ from_ = 2 ∧ from_ % 8 = 4 then
    let kingSide := decide (to_ > from_)
    let rookFrom := if kingSide then from_ + 3 else from_ - 4
    let rookTo := if kingSide then from_ + 1 else from_ - 1
    let rookToMask := bit rookTo
    let pcs := pcs.map (fun bb => bb &&& not64 rookToMask)
    let pcs := pcs.set us .ROOK (pcs.get us .ROOK &&& not64 (bit rookFrom))
    pcs.set us .ROOK (pcs.get us .ROOK ||| rookToMask)
  else pcs

/-- The piece bitmaps after `makeMove`, statement by statement. -/
def makeMovePieces (b : Board) (move : Move) : Pieces :=
  let from_ := move.from_
  let to_ := move.to_
  let us := b.sideToMove_
  let them := us.other
  let moved := b.pieceAt move.from_
  let captured := b.pieceAt move.to_
  let pcs := stepMove b.pieces_ us moved from_ to_
  let pcs := stepCapture pcs them captured to_
  let movedType : Option PieceType := moved.map (fun m => m.type)
  let pcs :=
    if movedType = some .PAWN then
      let enPassant := if absDiff to_ from_ = 16 then (from_ + to_) / 2 else b.enPassant_
      stepPromotion (stepEnPassant pcs us move.to_ enPassant) us move.promotion to_
    else pcs
  let pcs := if movedType = some .KING then stepCastle pcs us from_ to_ else pcs
  pcs

/-- The rook branch of `makeMove`:
`if (from == 0 || from == 56) castlingRights_[us][1] = false;
if (from == 7 || from == 63) castlingRights_[us][0] = false`. -/
def stepRookRights (cr : CastlingRights) (us : Color) (from_ : Nat) : CastlingRights :=
  let cr := if from_ = 0 ∨ from_ = 56 then cr.clear us 1 else cr
  if from_ = 7 ∨ from_ = 63 then cr.clear us 0 else cr

/-- The castling rights after `makeMove`. -/
def makeMoveCastling (b : Board) (move : Move) : CastlingRights :=
  let us := b.sideToMove_
  let movedType : Option PieceType := (b.pieceAt move.from_).map (fun m => m.type)
  let cr := b.castlingRights_
  let cr := if movedType = some .KING then (cr.clear us 0).clear us 1 else cr
  let cr := if movedType = some .ROOK then stepRookRights cr us move.from_ else cr
  cr

/-- The en-passant target after `makeMove`. -/
def makeMoveEnPassant (b : Board) (move : Move) : Nat :=
  let from_ := move.from_
  let to_ := move.to_
  let movedType : Option PieceType := (b.pieceAt move.from_).map (fun m => m.type)
  let enPassant :=
    if movedType = some .PAWN ∧ absDiff to_ from_ = 16 then (from_ + to_) / 2 else b.enPassant_
  if movedType ≠ some .PAWN ∨ absDiff to_ from_ ≠ 16 then SQ_NONE else enPassant

/-- The source's `makeMove`. -/
def makeMove (b : Board) (move : Move) : Board :=
  let state := b.snapshot
  let us := b.sideToMove_
  let them := us.other
  let moved := b.pieceAt move.from_
  let captured := b.pieceAt move.to_
  let b1 : Board := updateBitboards
    { b with
      pieces_ := b.makeMovePieces move
      castlingRights_ := b.makeMoveCastling move
      enPassant_ := b.makeMoveEnPassant move
      stateStack_ := b.stateStack_ ++ [state] }
  { b1 with
    sideToMove_ := them
    moveStack_ := b.moveStack_ ++ [move]
    halfmoveClock_ :=
      if moved.map (fun m => m.type) = some .PAWN ∨ captured.isSome then 0
      else wrapInt32 (b.halfmoveClock_ + 1)
    fullmoveNumber_ :=
      if us = .BLACK then wrapInt32 (b.fullmoveNumber_ + 1) else b.fullmoveNumber_ }

/-- The source's `unmakeMove`. -/
def unmakeMove (b : Board) : Board :=
  match b.stateStack_.getLast? with
  | some state =>
      if b.moveStack_ ≠ [] then
        { b.restore state with
          stateStack_ := b.stateStack_.dropLast
          moveStack_ := b.moveStack_.dropLast }
      else b
  | none => b

/-- The source's `makeNullMove`. -/
def makeNullMove (b : Board) : Board :=
  { b with
    stateStack_ := b.stateStack_ ++ [b.snapshot]
    enPassant_ := SQ_NONE
    sideToMove_ := b.sideToMove_.other
    halfmoveClock_ := wrapInt32 (b.halfmoveClock_ + 1) }

/-- The source's `unmakeNullMove`. -/
def unmakeNullMove (b : Board) : Board :=
  match b.stateStack_.getLast? with
  | some state => { b.restore state with stateStack_ := b.stateStack_.dropLast }
  | none => b

/-- The four promotion kinds in the order of `for (promo = 1; promo <= 4; ++promo)`. -/
def promoKinds : List PieceType := [.KNIGHT, .BISHOP, .ROOK, .QUEEN]

/-- The moves one pawn target adds: four promotions when `last` holds (`to >= 56` for
White, `to <= 7` for Black), one plain move otherwise. -/
def pawnTarget (from_ to_ : Nat) (last : Bool) : List Move :=
  if last then promoKinds.map (fun p => Move.mk3 from_ to_ (some p)) else [Move.mk2 from_ to_]

/-- The body of the pawn loop of `generateMoves` for a white pawn on `from_`. -/
def whitePawnMoves (emptySq enemy enPassant from_ : Nat) : List Move :=
  (let to_ := from_ + 8
   if to_ < 64 ∧ anyBit emptySq (bit to_) then
     if to_ ≥ 56 then pawnTarget from_ to_ true
     else
       Move.mk2 from_ to_ ::
         (if from_ ≥ 8 ∧ from_ < 16 then
            let to2 := from_ + 16
            if anyBit emptySq (bit to2) then [Move.mk2 from_ to2] else []
          else [])
   else []) ++
  (if from_ % 8 > 0 then
     let to_ := from_ + 7
     if to_ < 64 ∧ (anyBit enemy (bit to_) ∨ to_ = enPassant) then
       pawnTarget from_ to_ (decide (to_ ≥ 56))
     else []
   else []) ++
  (if from_ % 8 < 7 then
     let to_ := from_ + 9
     if to_ < 64 ∧ (anyBit enemy (bit to_) ∨ to_ = enPassant) then
       pawnTarget from_ to_ (decide (to_ ≥ 56))
     else []
   else [])

/-- The body of the pawn loop of `generateMoves` for a black pawn on `from_`.  The signed
tests `to >= 0` on `to = from - 8`, `from - 9`, `from - 7` are written `from_ ≥ 8`,
`from_ ≥ 9`, `from_ ≥ 7`. -/
def blackPawnMoves (emptySq enemy enPassant from_ : Nat) : List Move :=
  (let to_ := from_ - 8
   if from_ ≥ 8 ∧ anyBit emptySq (bit to_) then
     if to_ ≤ 7 then pawnTarget from_ to_ true
     else
       Move.mk2 from_ to_ ::
         (if from_ ≥ 48 ∧ from_ < 56 then
            let to2 := from_ - 16
            if anyBit emptySq (bit to2) then [Move.mk2 from_ to2] else []
          else [])
   else []) ++
  (if from_ % 8 > 0 then
     let to_ := from_ - 9
     if from_ ≥ 9 ∧ (anyBit enemy (bit to_) ∨ to_ = enPassant) then
       pawnTarget from_ to_ (decide (to_ ≤ 7))
     else []
   else []) ++
  (if from_ % 8 < 7 then
     let to_ := from_ - 7
     if from_ ≥ 7 ∧ (anyBit enemy (bit to_) ∨ to_ = enPassant) then
       pawnTarget from_ to_ (decide (to_ ≤ 7))
     else []
   else [])

/-- The loop shared by knights, bishops, rooks and queens: for each piece square, one
move per bit of `attacks & (emptySq | enemy)`. -/
def pieceMoves (bb : Nat) (attacks : Nat → Nat) (targets : Nat) : List Move :=
  (squaresOf bb).flatMap (fun from_ =>
    (squaresOf (attacks from_ &&& targets)).map (fun to_ => Move.mk2 from_ to_))

/-- The pseudo-legal list `moves` that `generateMoves` builds before its legality
filter. -/
def pseudoLegalMoves (b : Board) : List Move :=
  let us := b.sideToMove_
  let them := us.other
  let occ := b.occupied_
  let emptySq := b.empty_
  let enemy := unionOf b.pieces_ them
  let pawnMoves :=
    (squaresOf (b.pieces_.get us .PAWN)).flatMap (fun from_ =>
      if us = .WHITE then whitePawnMoves emptySq enemy b.enPassant_ from_
      else blackPawnMoves emptySq enemy b.enPassant_ from_)
  let targets := emptySq ||| enemy
  let knightMoves := pieceMoves (b.pieces_.get us .KNIGHT) Attacks.knightAttacks targets
  let bishopMoves :=
    pieceMoves (b.pieces_.get us .BISHOP) (fun s => Attacks.bishopAttacks s occ) targets
  let rookMoves := pieceMoves (b.pieces_.get us .ROOK) (fun s => Attacks.rookAttacks s occ) targets
  let queenMoves :=
    pieceMoves (b.pieces_.get us .QUEEN) (fun s => Attacks.queenAttacks s occ) targets
  let kingSq := lsbIndex (b.pieces_.get us .KING)
  let kingMoves :=
    (squaresOf (Attacks.kingAttacks kingSq &&& targets)).map (fun to_ => Move.mk2 kingSq to_)
  let backRank := if us = .WHITE then 0 else 7
  let castleKing :=
    if b.castlingRights_.get us 0 = true ∧ kingSq = backRank * 8 + 4 ∧
        anyBit occ (bit (kingSq + 1)) = false ∧ anyBit occ (bit (kingSq + 2)) = false ∧
        b.isSquareAttacked (kingSq + 1) them = false ∧
        b.isSquareAttacked (kingSq + 2) them = false then
      [Move.mk2 kingSq (kingSq + 2)]
    else []
  let castleQueen :=
    if b.castlingRights_.get us 1 = true ∧ kingSq = backRank * 8 + 4 ∧
        anyBit occ (bit (kingSq - 1)) = false ∧ anyBit occ (bit (kingSq - 2)) = false ∧
        anyBit occ (bit (kingSq - 3)) = false ∧
        b.isSquareAttacked (kingSq - 1) them = false ∧
        b.isSquareAttacked (kingSq - 2) them = false then
      [Move.mk2 kingSq (kingSq - 2)]
    else []
  pawnMoves ++ knightMoves ++ bishopMoves ++ rookMoves ++ queenMoves ++ kingMoves ++
    castleKing ++ castleQueen

/-- The source's `generateMoves`: the pseudo-legal moves after which, on a copy of the
board, the mover is not in check. -/
def generateMoves (b : Board) : List Move :=
  let us := b.sideToMove_
  b.pseudoLegalMoves.filter (fun move => !(b.makeMove move).isInCheck us)

end Board

/-! ## Positions used to evaluate the code -/

/-- The constructor `Board()`: the member initialisers, the zeroed bitmaps, then
`reset()`. -/
def Board.new : Board :=
  Board.reset
    { pieces_ := ⟨⟨0, 0, 0, 0, 0, 0⟩, ⟨0, 0, 0, 0, 0, 0⟩⟩
      occupied_ := 0
      empty_ := U64_MAX
      sideToMove_ := .WHITE
      enPassant_ := SQ_NONE
      castlingRights_ := ⟨true, true, true, true⟩
      halfmoveClock_ := 0
      fullmoveNumber_ := 1
      moveStack_ := []
      stateStack_ := [] }

/-- The board after the calls `makeMove(m)` for the moves `m` of a list, in order. -/
def Board.play (b : Board) (ms : List Move) : Board :=
  ms.foldl (fun b m => b.makeMove m) b

/-- Every move of the list is returned by `generateMoves()` for the position in which it
is made. -/
def Board.allGenerated (b : Board) : List Move → Bool
  | [] => true
  | m :: ms => decide (m ∈ b.generateMoves) && Board.allGenerated (b.makeMove m) ms

/-- The FEN of the initial position with the halfmove clock 2147483647, the largest
`int`. -/
def fullClockFen : String :=
  "rnbqkbnr/pppppppp/8/8/8/8/PPPPPPPP/RNBQKBNR w KQkq - 2147483647 1"

/-- The game 1. f3 g5 2. Kf2 g4 3. Kg3 a6 4. Kh3 gxh3, as `from`/`to` squares. -/
def kingCaptureGame : List Move :=
  [Move.mk2 13 21, Move.mk2 54 38, Move.mk2 4 13, Move.mk2 38 30, Move.mk2 13 22,
   Move.mk2 48 40, Move.mk2 22 23, Move.mk2 30 23]

/-! ## Properties of positions -/

/-- Every one of the twelve bitmaps is a `uint64_t` value. -/
def Pieces.WF (pcs : Pieces) : Prop := ∀ c p, pcs.get c p < 2 ^ 64

/-- No square has its bit set in two different piece bitmaps. -/
def Pieces.Disjoint (pcs : Pieces) : Prop :=
  ∀ sq c1 p1 c2 p2, (pcs.get c1 p1).testBit sq = true → (pcs.get c2 p2).testBit sq = true →
    c1 = c2 ∧ p1 = p2

/-- A checker for `Pieces.Disjoint`: the bitwise AND of any two different bitmaps is 0. -/
def Pieces.disjointB (pcs : Pieces) : Bool :=
  allKinds.all (fun a => allKinds.all (fun b =>
    decide (a = b) || (pcs.get a.1 a.2 &&& pcs.get b.1 b.2 == 0)))

/-- The derived members agree with the bitmaps: `occ` is their union, `emp` its
complement. -/
def occupancyConsistent (pcs : Pieces) (occ emp : Nat) : Prop :=
  pcs.WF ∧ occ = unionAll pcs ∧ emp = not64 occ

/-- The occupancy members of the board agree with its bitmaps. -/
def Board.Consistent (b : Board) : Prop :=
  occupancyConsistent b.pieces_ b.occupied_ b.empty_

/-- The occupancy members of every frame of the undo stack agree with the frame's
bitmaps. -/
def Board.FramesConsistent (b : Board) : Prop :=
  ∀ s ∈ b.stateStack_, occupancyConsistent s.pieces s.occupied s.empty

/-- Both kings are on the board. -/
def Board.KingsPresent (b : Board) : Prop :=
  b.pieces_.get .WHITE .KING ≠ 0 ∧ b.pieces_.get .BLACK .KING ≠ 0

/-- Each colour has exactly one king. -/
def Board.OneKingEach (b : Board) : Prop :=
  popcount (b.pieces_.get .WHITE .KING) = 1 ∧ popcount (b.pieces_.get .BLACK .KING) = 1

/-- The en-passant target holds no piece of the side to move (in particular when it is
`Square::NONE`). -/
def Board.EpTargetFree (b : Board) : Prop :=
  ∀ p, (b.pieces_.get b.sideToMove_ p).testBit b.enPassant_ = false

/-- The two counters hold values of the type `int`. -/
def Board.CountersAreInts (b : Board) : Prop :=
  (-2147483648 ≤ b.halfmoveClock_ ∧ b.halfmoveClock_ ≤ 2147483647) ∧
    (-2147483648 ≤ b.fullmoveNumber_ ∧ b.fullmoveNumber_ ≤ 2147483647)

instance (b : Board) : Decidable b.CountersAreInts := by
  unfold Board.CountersAreInts; infer_instance

/-- The from-square of the move holds a piece of the side to move. -/
def Board.MovesOwnPiece (b : Board) (m : Move) : Prop :=
  ∃ p, b.pieceAt m.from_ = some ⟨p, b.sideToMove_⟩

/-- Positions reached from the initial position by moves returned by `generateMoves()`,
each made in a position where both kings are present. -/
inductive Board.ReachableWithKings : Board → Prop where
  | init : Board.ReachableWithKings Board.new
  | step (b : Board) (m : Move) : Board.ReachableWithKings b → b.KingsPresent →
      m ∈ b.generateMoves → Board.ReachableWithKings (b.makeMove m)

instance (b : Board) : Decidable b.KingsPresent := by
  unfold Board.KingsPresent; infer_instance

instance (b : Board) : Decidable b.OneKingEach := by
  unfold Board.OneKingEach; infer_instance

/-- The position after 1. e4 e5 2. Ke2: White has moved the king. -/
def afterKingMove : Board :=
  Board.new.play [Move.mk2 12 28, Move.mk2 52 36, Move.mk2 4 12]

/-- The position after 1. e4. -/
def afterPawnMove : Board := Board.new.makeMove (Move.mk2 12 28)

/-- The initial position with one more white knight on d3 and d3 as en-passant target:
the board `setFen("rnbqkbnr/pppppppp/8/8/8/3N4/PPPPPPPP/RNBQKBNR w KQkq d3 0 1")`
describes. -/
def epOverlapPosition : Board :=
  Board.updateBitboards
    { Board.new with
      pieces_ := Board.new.pieces_.set .WHITE .KNIGHT (0x42 ||| bit 19)
      enPassant_ := 19 }

/-! ## FEN input, captures and the termination predicates -/

/-- The assignment `castlingRights_[c][i] = true`. -/
def CastlingRights.grant (cr : CastlingRights) (c : Color) (i : Fin 2) : CastlingRights :=
  match c, i with
  | .WHITE, 0 => { cr with whiteKingSide := true }
  | .WHITE, 1 => { cr with whiteQueenSide := true }
  | .BLACK, 0 => { cr with blackKingSide := true }
  | .BLACK, 1 => { cr with blackQueenSide := true }

/-- `isspace` of the C locale, on character codes. -/
def isSpaceCode (c : Nat) : Bool := decide (c = 32) || (decide (9 ≤ c) && decide (c ≤ 13))

/-- `isdigit`, on character codes. -/
def isDigitCode (c : Nat) : Bool := decide (48 ≤ c) && decide (c ≤ 57)

/-- `isupper` of the C locale, on character codes. -/
def isUpperCode (c : Nat) : Bool := decide (65 ≤ c) && decide (c ≤ 90)

/-- `tolower` of the C locale, on character codes. -/
def toLowerCode (c : Nat) : Nat := if isUpperCode c then c + 32 else c

/-- The state of a `std::istringstream` that matters here: the unread character codes
and the fail bit. -/
structure IStream where
  rest : List Nat
  fail : Bool
  deriving DecidableEq, Repr

/-- The extraction `iss >> token` into a default-constructed `std::string`: leading white
space is skipped and the characters up to the next white space are taken; at the end of
the input, or with the fail bit set, the string stays empty and the fail bit is set. -/
def IStream.getString (iss : IStream) : List Nat × IStream :=
  if iss.fail then ([], iss)
  else
    let r := iss.rest.dropWhile isSpaceCode
    if r.isEmpty then ([], { rest := [], fail := true })
    else (r.takeWhile (fun c => !isSpaceCode c),
      { rest := r.dropWhile (fun c => !isSpaceCode c), fail := false })

/-- The decimal value of a list of digit codes. -/
def digitsValue (ds : List Nat) : Nat := ds.foldl (fun v d => 10 * v + (d - 48)) 0

/-- The extraction `iss >> value` into an `int` holding `old`: with the fail bit set or at
the end of the input the value is left alone; otherwise an optional sign and the decimal
digits are read, a missing digit writes 0, an out-of-range value writes the nearest `int`,
and both set the fail bit. -/
def IStream.getInt (iss : IStream) (old : Int) : Int × IStream :=
  if iss.fail then (old, iss)
  else
    let r := iss.rest.dropWhile isSpaceCode
    if r.isEmpty then (old, { rest := [], fail := true })
    else
      let negative := decide (r.head? = some 45)
      let r := if r.head? = some 45 ∨ r.head? = some 43 then r.tail else r
      let ds := r.takeWhile isDigitCode
      let r := r.dropWhile isDigitCode
      if ds.isEmpty then (0, { rest := r, fail := true })
      else
        let v : Int := if negative then -(digitsValue ds : Int) else (digitsValue ds : Int)
        if v > 2147483647 then (2147483647, { rest := r, fail := true })
        else if v < -2147483648 then (-2147483648, { rest := r, fail := true })
        else (v, { rest := r, fail := false })

/-- The mask `1ULL << sq` for an `int` square; `0` for a negative `sq`, where the shift is
undefined. -/
def bitOfInt (sq : Int) : Nat := if 0 ≤ sq then bit sq.toNat else 0

/-- The `switch (tolower(ch))` of `setFen`: the kind a letter names, if any. -/
def fenPieceType (ch : Nat) : Option PieceType :=
  if toLowerCode ch = 112 then some .PAWN
  else if toLowerCode ch = 110 then some .KNIGHT
  else if toLowerCode ch = 98 then some .BISHOP
  else if toLowerCode ch = 114 then some .ROOK
  else if toLowerCode ch = 113 then some .QUEEN
  else if toLowerCode ch = 107 then some .KING
  else none

/-- The statement `if (pt != NONE) pieces_[col][pt] |= (1ULL << sq)` of `setFen`. -/
def fenPlace (pcs : Pieces) (col : Color) (pt : Option PieceType) (sq : Int) : Pieces :=
  match pt with
  | some t => pcs.set col t (pcs.get col t ||| bitOfInt sq)
  | none => pcs

/-- One round of the loop `for (char ch : boardPart)` of `setFen`, on the bitmaps and the
running square `sq`; `47` is `'/'`. -/
def fenBoardStep (acc : Pieces × Int) (ch : Nat) : Pieces × Int :=
  if ch = 47 then (acc.1, acc.2 - 16)
  else if isDigitCode ch then (acc.1, acc.2 + ((ch : Int) - 48))
  else
    let col := if isUpperCode ch then Color.WHITE else Color.BLACK
    (fenPlace acc.1 col (fenPieceType ch) acc.2, acc.2 + 1)

/-- One round of the loop `for (char ch : castlingPart)` of `setFen`; the codes are those
of `K`, `Q`, `k`, `q`. -/
def fenCastlingStep (cr : CastlingRights) (ch : Nat) : CastlingRights :=
  if ch = 75 then cr.grant .WHITE 0
  else if ch = 81 then cr.grant .WHITE 1
  else if ch = 107 then cr.grant .BLACK 0
  else if ch = 113 then cr.grant .BLACK 1
  else cr

/-- The en-passant member after the statement `if (epPart != "-") { ... }` of `setFen`:
`static_cast<Square>((epPart[1] - '1') * 8 + (epPart[0] - 'a'))`, a `uint8_t`.  A
character past the end of the token reads as `0`. -/
def fenEnPassant (epPart : List Nat) (old : Nat) : Nat :=
  if epPart = [45] then old
  else
    let file : Int := (epPart.getD 0 0 : Int) - 97
    let rank : Int := (epPart.getD 1 0 : Int) - 49
    ((rank * 8 + file) % 256).toNat

namespace Board

/-- The source's `setFen`.  It starts with `reset()` and then ORs the pieces of the board
field into the bitmaps `reset()` left. -/
def setFen (b : Board) (fen : String) : Board :=
  let b := b.reset
  let iss : IStream := { rest := fen.toList.map Char.toNat, fail := false }
  let r1 := iss.getString
  let r2 := r1.2.getString
  let r3 := r2.2.getString
  let r4 := r3.2.getString
  let boardPart := r1.1
  let colorPart := r2.1
  let castlingPart := r3.1
  let epPart := r4.1
  let pcs := (boardPart.foldl fenBoardStep (b.pieces_, 56)).1
  let b := updateBitboards { b with pieces_ := pcs }
  let r5 := r4.2.getInt b.halfmoveClock_
  let r6 := r5.2.getInt b.fullmoveNumber_
  { b with
    sideToMove_ := if colorPart = [119] then .WHITE else .BLACK
    castlingRights_ := castlingPart.foldl fenCastlingStep ⟨false, false, false, false⟩
    enPassant_ := fenEnPassant epPart b.enPassant_
    halfmoveClock_ := r5.1
    fullmoveNumber_ := r6.1 }

/-- The source's `isCheckmate`. -/
def isCheckmate (b : Board) : Bool :=
  b.isInCheck b.sideToMove_ && b.generateMoves.isEmpty

/-- The source's `isStalemate`. -/
def isStalemate (b : Board) : Bool :=
  !b.isInCheck b.sideToMove_ && b.generateMoves.isEmpty

/-- The bishop test inside `isInsufficientMaterial`: one bishop each, on squares of the
same colour. -/
def sameColouredBishops (whiteBishops blackBishops : Nat) : Bool :=
  if popcount whiteBishops = 1 ∧ popcount blackBishops = 1 then
    let whiteSq := lsbIndex whiteBishops
    let blackSq := lsbIndex blackBishops
    let whiteDark := decide ((whiteSq / 8 + whiteSq % 8) % 2 = 0)
    let blackDark := decide ((blackSq / 8 + blackSq % 8) % 2 = 0)
    whiteDark == blackDark
  else false

/-- The source's `isInsufficientMaterial`. -/
def isInsufficientMaterial (b : Board) : Bool :=
  if popcount b.occupied_ = 2 then true
  else
    let whitePieces := b.pieces_.get .WHITE .PAWN ||| b.pieces_.get .WHITE .KNIGHT |||
      b.pieces_.get .WHITE .BISHOP ||| b.pieces_.get .WHITE .ROOK |||
      b.pieces_.get .WHITE .QUEEN
    let blackPieces := b.pieces_.get .BLACK .PAWN ||| b.pieces_.get .BLACK .KNIGHT |||
      b.pieces_.get .BLACK .BISHOP ||| b.pieces_.get .BLACK .ROOK |||
      b.pieces_.get .BLACK .QUEEN
    if whitePieces = 0 ∧ popcount blackPieces = 1 then true
    else if blackPieces = 0 ∧ popcount whitePieces = 1 then true
    else if whitePieces = 0 ∧ blackPieces = 0 then
      sameColouredBishops (b.pieces_.get .WHITE .BISHOP) (b.pieces_.get .BLACK .BISHOP)
    else false

/-- The source's `generateCaptures`. -/
def generateCaptures (b : Board) : List Move :=
  b.generateMoves.filter (fun move => b.isCapture move)

end Board

/-- A board with the given bitmaps, side to move, castling rights and en-passant target,
the occupancy members computed from the bitmaps, the counters and stacks as after
`reset()`. -/
def positionOf (pcs : Pieces) (stm : Color) (cr : CastlingRights) (ep : Nat) : Board :=
  Board.updateBitboards
    { Board.new with
      pieces_ := pcs
      sideToMove_ := stm
      castlingRights_ := cr
      enPassant_ := ep }

/-- Kings on e1 and e8, a white bishop on c1 and a black bishop on f8 (both on dark
squares), White to move. -/
def bishopsPosition : Board :=
  positionOf ⟨⟨0, 0, bit 2, 0, 0, bit 4⟩, ⟨0, 0, bit 61, 0, 0, bit 60⟩⟩ .WHITE
    ⟨false, false, false, false⟩ SQ_NONE

/-- Kings on e1 and e8 and a black queen on d8, White to move. -/
def loneQueenPosition : Board :=
  positionOf ⟨⟨0, 0, 0, 0, 0, bit 4⟩, ⟨0, 0, 0, 0, bit 59, bit 60⟩⟩ .WHITE
    ⟨false, false, false, false⟩ SQ_NONE

/-- Kings on e1 and e8 and a white pawn on e2, Black to move. -/
def lonePawnPosition : Board :=
  positionOf ⟨⟨bit 12, 0, 0, 0, 0, bit 4⟩, ⟨0, 0, 0, 0, 0, bit 60⟩⟩ .BLACK
    ⟨false, false, false, false⟩ SQ_NONE

/-- Kings on e1 and e8 and a black rook on a8, White to move. -/
def loneRookPosition : Board :=
  positionOf ⟨⟨0, 0, 0, 0, 0, bit 4⟩, ⟨0, 0, 0, bit 56, 0, bit 60⟩⟩ .WHITE
    ⟨false, false, false, false⟩ SQ_NONE

/-- The game 1. e4 a6 2. e5 d5: Black's last move sets the en-passant target d6. -/
def enPassantGame : List Move :=
  [Move.mk2 12 28, Move.mk2 48 40, Move.mk2 28 36, Move.mk2 51 35]

/-- The game 1. e4 d5 2. exd5 Qxd5 3. Nf3 a6 4. Bc4 Qe4+: White is in check on the
e-file with f1 and g1 empty and both castling rights. -/
def castleFromCheckGame : List Move :=
  [Move.mk2 12 28, Move.mk2 51 35, Move.mk2 28 35, Move.mk2 59 35, Move.mk2 6 21,
   Move.mk2 48 40, Move.mk2 5 26, Move.mk2 35 28]

/-- The test `generateMoves()` applies to one move: it is in the pseudo-legal list and
the mover is not in check after it. -/
def Board.isGenerated (b : Board) (m : Move) : Bool :=
  decide (m ∈ b.pseudoLegalMoves) && !(b.makeMove m).isInCheck b.sideToMove_

/-- The check of `Board.allGenerated`, move by move with `Board.isGenerated`. -/
def Board.allGeneratedBy (b : Board) : List Move → Bool
  | [] => true
  | m :: ms => b.isGenerated m && Board.allGeneratedBy (b.makeMove m) ms

/-! ## UCI move text -/

/-- The value of `static_cast<int>(type)` for a piece kind. -/
def PieceType.index : PieceType → Nat
  | .PAWN => 0
  | .KNIGHT => 1
  | .BISHOP => 2
  | .ROOK => 3
  | .QUEEN => 4
  | .KING => 5

/-- The value of `static_cast<int>(color)`. -/
def Color.index : Color → Nat
  | .WHITE => 0
  | .BLACK => 1

/-- The source's `operator==` of `Move`: the score is not compared. -/
def Move.same (a b : Move) : Bool :=
  decide (a.from_ = b.from_) && decide (a.to_ = b.to_) && decide (a.promotion = b.promotion)

/-- The character `s[i]` of a string literal `s` of ASCII text (one character per byte);
the index `s.length` reads the terminating NUL. -/
def literalAt (s : String) (i : Nat) : Char := s.toList.getD i (Char.ofNat 0)

/-- The source's `Move::toUci`.  A promotion kind outside knight..queen appends what
`promos[static_cast<int>(promotion)]` reads from the literal: a blank for the pawn, the
terminating NUL for the king. -/
def Move.toUci (m : Move) : String :=
  if m.from_ = SQ_NONE ∨ m.to_ = SQ_NONE then "0000"
  else
    let uci : List Char :=
      [literalAt "abcdefgh" (m.from_ % 8), literalAt "12345678" (m.from_ / 8),
       literalAt "abcdefgh" (m.to_ % 8), literalAt "12345678" (m.to_ / 8)]
    match m.promotion with
    | none => String.mk uci
    | some p => String.mk (uci ++ [literalAt " nbrq" p.index])

/-- The difference `a - b` of two `char` values, an `int`. -/
def charDiff (a b : Char) : Int := (a.toNat : Int) - (b.toNat : Int)

/-- The `switch (token[4])` of `handlePosition`. -/
def promotionOfLetter (c : Char) : Option PieceType :=
  if c = 'n' then some .KNIGHT
  else if c = 'b' then some .BISHOP
  else if c = 'r' then some .ROOK
  else if c = 'q' then some .QUEEN
  else none

/-- The move that `handlePosition` reads from one token of the move list (lines
`if (token.length() >= 4)` to `Move move(from, to, promo)`); `none` when the token is
skipped.  The token is ASCII text, one character per byte. -/
def moveOfToken (token : String) : Option Move :=
  let t := token.toList
  if 4 ≤ t.length then
    let fromFile := charDiff (t.getD 0 ' ') 'a'
    let fromRank := charDiff (t.getD 1 ' ') '1'
    let toFile := charDiff (t.getD 2 ' ') 'a'
    let toRank := charDiff (t.getD 3 ' ') '1'
    if 0 ≤ fromFile ∧ fromFile < 8 ∧ 0 ≤ fromRank ∧ fromRank < 8 ∧
        0 ≤ toFile ∧ toFile < 8 ∧ 0 ≤ toRank ∧ toRank < 8 then
      let from_ := (fromRank * 8 + fromFile).toNat
      let to_ := (toRank * 8 + toFile).toNat
      let promo := if t.length = 5 then promotionOfLetter (t.getD 4 ' ') else none
      some (Move.mk3 from_ to_ promo)
    else none
  else none

/-- What `handlePosition` does with one token of the move list: the move is made if it is
among `generateMoves()` (compared with `operator==`). -/
def Board.applyToken (b : Board) (token : String) : Board :=
  match moveOfToken token with
  | some move => if b.generateMoves.any (fun m => m.same move) then b.makeMove move else b
  | none => b

/-- The letter of file `f`, in the words of the specification: `a` for file 0 up to `h`
for file 7. -/
def fileLetter (f : Nat) : Char := Char.ofNat (97 + f)

/-- The digit of rank `r`: `1` for rank 0 up to `8` for rank 7. -/
def rankDigit (r : Nat) : Char := Char.ofNat (49 + r)

/-- The promotion suffix of the UCI encoding: one of the letters n, b, r, q, or
nothing. -/
def promotionSuffix : Option PieceType → List Char
  | some .KNIGHT => ['n']
  | some .BISHOP => ['b']
  | some .ROOK => ['r']
  | some .QUEEN => ['q']
  | _ => []

/-! ## Evaluation -/

namespace Board

/-- The source's `getBitboard`. -/
def getBitboard (b : Board) (type : PieceType) (color : Color) : Nat := b.pieces_.get color type

/-- The source's `pieceList`: the occupied squares in ascending order, each with the
piece `pieceAt` reports. -/
def pieceList (b : Board) : List (Nat × Piece) :=
  (List.range 64).filterMap (fun sq => (b.pieceAt sq).map (fun piece => (sq, piece)))

/-- The source's `hasNonPawnMaterial`. -/
def hasNonPawnMaterial (b : Board) (color : Color) : Bool :=
  (b.pieces_.get color .KNIGHT ||| b.pieces_.get color .BISHOP |||
    b.pieces_.get color .ROOK ||| b.pieces_.get color .QUEEN) != 0

/-- The source's `computeHash`, with the arithmetic of `uint64_t`. -/
def computeHash (b : Board) : Nat :=
  let hash := allKinds.foldl (fun hash cp =>
    (squaresOf (b.pieces_.get cp.1 cp.2)).foldl (fun hash sq =>
      hash ^^^ ((((cp.1.index * 6 + cp.2.index + 1) * 0x123456789abcdef0) % 2 ^ 64) ^^^
        ((sq * 0xbf58476d1ce4e5b9) % 2 ^ 64))) hash) 0x9e3779b97f4a7c15
  hash ^^^ ((b.sideToMove_.index * 0xabcdef0123456789) % 2 ^ 64)

end Board

namespace Evaluator

def CENTER_BONUS : Int := 20

def BISHOP_PAIR_BONUS : Int := 30

def ROOK_OPEN_FILE_BONUS : Int := 25

def DOUBLED_PAWN_PENALTY : Int := 15

def ISOLATED_PAWN_PENALTY : Int := 20

/-- The source's `pieceValues`, indexed by piece kind. -/
def pieceValues : PieceType → Int
  | .PAWN => 100
  | .KNIGHT => 320
  | .BISHOP => 330
  | .ROOK => 500
  | .QUEEN => 900
  | .KING => 20000

/-- The source's `pawnTable`; entry 0 is the square a1. -/
def pawnTable : List Int :=
  [ 0,  0,  0,  0,  0,  0,  0,  0,
    5,  5,  5,  5,  5,  5,  5,  5,
    2,  2,  3,  3,  3,  3,  2,  2,
    0,  0,  0,  5,  5,  0,  0,  0,
    0,  0,  0, -5, -5,  0,  0,  0,
   -2, -2, -3, -10, -10, -3, -2, -2,
   -5, -5, -5, -15, -15, -5, -5, -5,
    0,  0,  0,  0,  0,  0,  0,  0]

/-- The mask `blockMask` that `isPassedPawn` builds: the squares of the pawn's file and
the neighbouring files on the ranks ahead of the pawn. -/
def blockMask (sq : Nat) (color : Color) : Nat :=
  let rank := sq / 8
  let file := sq % 8
  let ranks : List Nat :=
    match color with
    | .WHITE => (List.range 8).filter (fun r => decide (rank + 1 ≤ r))
    | .BLACK => (List.range rank).reverse
  let files : List Nat :=
    (List.range 8).filter (fun f => decide (file - 1 ≤ f) && decide (f ≤ min 7 (file + 1)))
  ranks.foldl (fun mask r => files.foldl (fun mask f => mask ||| bit (r * 8 + f)) mask) 0

/-- The source's `isPassedPawn`. -/
def isPassedPawn (board : Board) (sq : Nat) (color : Color) : Bool :=
  let enemyPawns := board.getBitboard .PAWN color.other
  enemyPawns &&& blockMask sq color == 0

/-- The mask `shieldMask` of `evaluateKingSafety`.  A shift count outside 0..63 (king
on the last rank of its colour) is undefined in the source; such a term adds no bit
here. -/
def shieldMask (color : Color) (kingSq : Nat) : Nat :=
  let rank : Int := (kingSq / 8 : Nat)
  let file : Int := (kingSq % 8 : Nat)
  let row : Int := match color with
    | .WHITE => (rank + 1) * 8
    | .BLACK => (rank - 1) * 8
  (if file > 0 then bitOfInt (row + (file - 1)) else 0) ||| bitOfInt (row + file) |||
    (if file < 7 then bitOfInt (row + (file + 1)) else 0)

/-- The source's `evaluateKingSafety`. -/
def evaluateKingSafety (board : Board) (color : Color) (kingSq : Nat) : Int :=
  let ownPawns := board.getBitboard .PAWN color
  let shieldPawns := popcount (ownPawns &&& shieldMask color kingSq)
  let kingArea := Attacks.kingAttacks kingSq
  let attacks := popcount (kingArea &&& board.getBitboard .PAWN color.other)
  (shieldPawns : Int) * 20 - (attacks : Int) * 15

/-- One of the four loops of `evaluateMobility`: the empty squares attacked from each
square of `bb`, added up. -/
def mobilityOf (bb : Nat) (attacks : Nat → Nat) (occ : Nat) : Nat :=
  (squaresOf bb).foldl (fun mobility sq => mobility + popcount (attacks sq &&& not64 occ)) 0

/-- The source's `evaluateMobility`. -/
def evaluateMobility (board : Board) (color : Color) : Nat :=
  let occ := board.occupied_
  mobilityOf (board.getBitboard .KNIGHT color) Attacks.knightAttacks occ +
    mobilityOf (board.getBitboard .BISHOP color) (fun sq => Attacks.bishopAttacks sq occ) occ +
    mobilityOf (board.getBitboard .ROOK color) (fun sq => Attacks.rookAttacks sq occ) occ +
    mobilityOf (board.getBitboard .QUEEN color) (fun sq => Attacks.queenAttacks sq occ) occ

/-- The pawn terms of `evaluate` for a pawn of `color` on `sq`: table value, passed-pawn
bonus, doubled and isolated penalties. -/
def pawnTerms (board : Board) (sq : Nat) (color : Color) : Int :=
  let file := sq % 8
  let rank : Int := (sq / 8 : Nat)
  let tableValue : Int :=
    match color with
    | .WHITE => pawnTable.getD sq 0
    | .BLACK => -(pawnTable.getD (63 - sq) 0)
  let passed : Int :=
    if isPassedPawn board sq color then
      (match color with
       | .WHITE => (rank - 1) * 20
       | .BLACK => (6 - rank) * 20)
    else 0
  let ownPawns := board.getBitboard .PAWN color
  let fileMask := shl64 0x0101010101010101 file
  let doubled : Int := if popcount (ownPawns &&& fileMask) > 1 then DOUBLED_PAWN_PENALTY else 0
  let adjacentFiles :=
    (if file > 0 then shl64 0x0101010101010101 (file - 1) else 0) |||
      (if file < 7 then shl64 0x0101010101010101 (file + 1) else 0)
  let isolated : Int := if ownPawns &&& adjacentFiles = 0 then ISOLATED_PAWN_PENALTY else 0
  tableValue + passed - doubled - isolated

/-- The rook term of `evaluate`: the open-file bonus. -/
def rookTerms (board : Board) (sq : Nat) (color : Color) : Int :=
  let fileMask := shl64 0x0101010101010101 (sq % 8)
  if board.getBitboard .PAWN color &&& fileMask = 0 then ROOK_OPEN_FILE_BONUS else 0

/-- The `value` that the piece loop of `evaluate` computes for one entry of the piece
list. -/
def pieceValueAt (board : Board) (sq : Nat) (piece : Piece) : Int :=
  pieceValues piece.type +
    (if sq ∈ [27, 28, 35, 36] then CENTER_BONUS else 0) +
    (if piece.type = .PAWN then pawnTerms board sq piece.color else 0) +
    (if piece.type = .ROOK then rookTerms board sq piece.color else 0)

/-- The sign with which White's and Black's terms enter the score. -/
def signed (color : Color) (value : Int) : Int :=
  match color with
  | .WHITE => value
  | .BLACK => -value

/-- The score of `evaluate` before the final change of sign: bishop pairs, the piece
loop, then king safety and mobility of both colours. -/
def whiteScore (board : Board) : Int :=
  let pairs : Int := [Color.WHITE, Color.BLACK].foldl (fun score c =>
    if popcount (board.getBitboard .BISHOP c) ≥ 2 then score + signed c BISHOP_PAIR_BONUS
    else score) 0
  let material : Int := board.pieceList.foldl (fun score e =>
    score + signed e.2.color (pieceValueAt board e.1 e.2)) pairs
  [Color.WHITE, Color.BLACK].foldl (fun score color =>
    let kingSq := lsbIndex (board.getBitboard .KING color)
    let kingSafety := evaluateKingSafety board color kingSq
    let mobility : Int := (evaluateMobility board color / 4 : Nat)
    score + signed color (kingSafety + mobility)) material

/-- The source's `evaluate`. -/
def evaluate (board : Board) : Int :=
  match board.sideToMove_ with
  | .WHITE => whiteScore board
  | .BLACK => -whiteScore board

end Evaluator

/-- The bitmap with every square `s` moved to `s XOR 56`: the board flipped top to
bottom. -/
def flipVertical (bb : Nat) : Nat :=
  (List.range 64).foldl (fun acc s => if bb.testBit s then acc ||| bit (s ^^^ 56) else acc) 0

/-- The mirrored position, in the words of the specification: every piece changes
colour, every square `s` moves to `s XOR 56`, the side to move is swapped. -/
def Board.mirrored (b : Board) : Board :=
  Board.updateBitboards
    { b with
      pieces_ := ⟨b.pieces_.black.map flipVertical, b.pieces_.white.map flipVertical⟩
      sideToMove_ := b.sideToMove_.other
      enPassant_ := if b.enPassant_ < 64 then b.enPassant_ ^^^ 56 else b.enPassant_
      castlingRights_ := ⟨b.castlingRights_.blackKingSide, b.castlingRights_.blackQueenSide,
        b.castlingRights_.whiteKingSide, b.castlingRights_.whiteQueenSide⟩ }

/-- Kings on e1 and e8 and a white pawn on a2, White to move. -/
def rookPawnPosition : Board :=
  positionOf ⟨⟨bit 8, 0, 0, 0, 0, bit 4⟩, ⟨0, 0, 0, 0, 0, bit 60⟩⟩ .WHITE
    ⟨false, false, false, false⟩ SQ_NONE

/-! ## Search -/

def INFINITY_SCORE : Int := 30000

def MAX_KILLER_DEPTH : Int := 30

def MAX_QUIESCENCE_PLY : Int := 30

def INT64_MAX : Int := 9223372036854775807

/-- The source's `SearchStats`.  The steady clock is an input of the search: `elapsed k`
is what the `k`-th reading of `timeMs()` returns, and `clockReads` counts the readings
made so far.  The counters are `int64_t` and `int` in the source and unbounded here. -/
structure SearchStats where
  nodes : Int
  qNodes : Int
  depth : Int
  seldepth : Int
  maxTimeMs : Int
  stopSearch : Bool
  elapsed : Nat → Int
  clockReads : Nat

namespace SearchStats

/-- The source's `start`. -/
def start (st : SearchStats) (maxTime : Int) : SearchStats :=
  { st with nodes := 0, qNodes := 0, seldepth := 0, maxTimeMs := maxTime, stopSearch := false }

/-- The source's `addNode`. -/
def addNode (st : SearchStats) (quiescence : Bool) : SearchStats :=
  if quiescence then { st with qNodes := st.qNodes + 1 } else { st with nodes := st.nodes + 1 }

/-- The last step of `checkTime`: read the clock and latch the stop flag when the budget
is used up. -/
def readClock (st : SearchStats) : Bool × SearchStats :=
  let now := st.elapsed st.clockReads
  let st1 : SearchStats := { st with clockReads := st.clockReads + 1 }
  if now ≥ st.maxTimeMs then (true, { st1 with stopSearch := true }) else (false, st1)

/-- The source's `checkTime`: the answer and the statistics afterwards. -/
def checkTime (st : SearchStats) : Bool × SearchStats :=
  if st.stopSearch then (true, st)
  else if st.maxTimeMs = INT64_MAX then (false, st)
  else if (st.nodes + st.qNodes) % 2048 ≠ 0 then (false, st)
  else st.readClock

end SearchStats

/-- The source's `TTEntry`; the flag is 1 for Exact, 2 for LowerBound, 3 for
UpperBound. -/
structure TTEntry where
  key : Nat
  move : Move
  score : Int
  depth : Int
  flag : Nat
  deriving DecidableEq, Repr

/-- The value `TTEntry()`: key 0 marks an empty slot. -/
def TTEntry.empty : TTEntry := ⟨0, Move.mk3 SQ_NONE SQ_NONE none, 0, 0, 0⟩

/-- The answer of the probe at the head of `negamax`, `none` when the search goes on. -/
def TTEntry.probe (entry : TTEntry) (hash : Nat) (depth alpha beta : Int) :
    Option (Int × Option Move) :=
  if entry.key = hash ∧ entry.depth ≥ depth then
    if entry.flag = 1 then some (entry.score, some entry.move)
    else if entry.flag = 2 ∧ entry.score ≥ beta then some (beta, some entry.move)
    else if entry.flag = 3 ∧ entry.score ≤ alpha then some (alpha, some entry.move)
    else none
  else none

/-- The data members of the source's `Searcher`, the board it refers to included.  The
table `tt` is the map from slot index to entry, `ttLen` is `tt.size()`; `history_` is the
map from (from, to) to the counter. -/
structure Searcher where
  board : Board
  killers_ : List (Option Move × Option Move)
  history_ : Nat → Nat → Int
  stats : SearchStats
  tt : Nat → TTEntry
  ttLen : Nat

/-- The loop variables of the move loop of `negamax`. -/
structure MoveLoop where
  alpha : Int
  bestScore : Int
  bestMove : Option Move
  moveCount : Int
  deriving DecidableEq, Repr

/-- The updates of `moveCount`, `bestScore`, `bestMove` and `alpha` after one move. -/
def MoveLoop.record (v : MoveLoop) (score : Int) (move : Move) : MoveLoop :=
  { alpha := if score > v.alpha then score else v.alpha
    bestScore := if score > v.bestScore then score else v.bestScore
    bestMove := if score > v.bestScore then some move else v.bestMove
    moveCount := v.moveCount + 1 }

/-- The loop variables of `iterativeDeepening`. -/
structure Iteration where
  bestMove : Option Move
  prevScore : Int
  finalDepth : Int
  deriving DecidableEq, Repr

namespace Searcher

/-- The state after the constructor `Searcher(board)`, with the given clock. -/
def new (board : Board) (elapsed : Nat → Int) : Searcher :=
  { board := board
    killers_ := List.replicate 30 (none, none)
    history_ := fun _ _ => 0
    stats := ⟨0, 0, 0, 0, INT64_MAX, false, elapsed, 0⟩
    tt := fun _ => TTEntry.empty
    ttLen := 2 ^ 21 }

/-- The source's `clearTT`. -/
def clearTT (s : Searcher) : Searcher := { s with tt := fun _ => TTEntry.empty }

/-- The source's `storeTT`. -/
def storeTT (s : Searcher) (key : Nat) (move : Move) (score depth : Int) (flag : Nat) :
    Searcher :=
  let idx := key % s.ttLen
  let entry := s.tt idx
  if depth ≥ entry.depth ∨ entry.key = 0 then
    { s with tt := Function.update s.tt idx ⟨key, move, score, depth, flag⟩ }
  else s

/-- The source's `mvvLvaScore`. -/
def mvvLvaScore (s : Searcher) (move : Move) : Int :=
  if s.board.isCapture move then
    match s.board.pieceAt move.to_, s.board.pieceAt move.from_ with
    | some victim, some aggressor =>
        Evaluator.pieceValues victim.type * 10 - Evaluator.pieceValues aggressor.type
    | _, _ => 0
  else 0

/-- The killer and history part of `scoreMove`. -/
def quietScore (s : Searcher) (move : Move) (ply : Int) : Int :=
  let k := s.killers_.getD ply.toNat (none, none)
  if ply < MAX_KILLER_DEPTH ∧ (k.1.map (fun m => m.same move)) = some true then 50000
  else if ply < MAX_KILLER_DEPTH ∧ (k.2.map (fun m => m.same move)) = some true then 40000
  else s.history_ move.from_ move.to_

/-- The source's `scoreMove`.  It makes the move, asks `isCheckmate()` and takes the move
back, which leaves the board as it was. -/
def scoreMove (s : Searcher) (move : Move) (ply : Int) (hash : Nat) : Int :=
  if (s.board.makeMove move).isCheckmate then 300000
  else
    let entry := s.tt (hash % s.ttLen)
    if entry.key = hash ∧ entry.move.same move = true then 200000
    else
      let captureScore := s.mvvLvaScore move
      if captureScore ≠ 0 then 100000 + captureScore
      else
        match move.promotion with
        | some p => 90000 + Evaluator.pieceValues p
        | none => s.quietScore move ply

/-- The source's `orderMoves`: the moves sorted by descending score.  `std::sort` leaves
the order of moves with equal scores open; here they keep the order of the input. -/
def orderMoves (s : Searcher) (moves : List Move) (ply : Int) (hash : Nat) : List Move :=
  ((moves.map (fun move => (s.scoreMove move ply hash, move))).insertionSort
    (fun a b => a.1 ≥ b.1)).map (fun p => p.2)

/-- The first two statements of `negamax` and `quiescence`: count the node, track
`seldepth`. -/
def enter (s : Searcher) (quiescence : Bool) (ply : Int) : Searcher :=
  let st := s.stats.addNode quiescence
  { s with stats := { st with seldepth := max st.seldepth ply } }

/-- The move loop of `quiescence`; `child s a b` is the call `quiescence(a, b, ply + 1)`
in state `s`, `none` when it does not return. -/
def quiescenceLoop (child : Searcher → Int → Int → Option (Int × Searcher)) (beta : Int) :
    List Move → Searcher → Int → Option (Int × Searcher)
  | [], s, alpha => some (alpha, s)
  | move :: rest, s, alpha =>
    if s.stats.stopSearch then some (alpha, s)
    else
      match child { s with board := s.board.makeMove move } (-beta) (-alpha) with
      | none => none
      | some (v, s1) =>
        let s2 : Searcher := { s1 with board := s1.board.unmakeMove }
        if -v ≥ beta then some (beta, s2)
        else quiescenceLoop child beta rest s2 (if -v > alpha then -v else alpha)

/-- The source's `quiescence`.  The first argument bounds the depth of nested calls:
`none` when it is used up. -/
def quiescence : Nat → Searcher → Int → Int → Int → Option (Int × Searcher)
  | 0, _, _, _, _ => none
  | fuel + 1, s, alpha, beta, ply =>
    let s0 := s.enter true ply
    let ct := s0.stats.checkTime
    let s1 : Searcher := { s0 with stats := ct.2 }
    if ct.1 then some (alpha, s1)
    else
      let inCheck := s1.board.isInCheck s1.board.sideToMove_
      let standPat := Evaluator.evaluate s1.board
      if inCheck = false ∧ standPat ≥ beta then some (beta, s1)
      else
        let alpha1 := if inCheck = false ∧ alpha < standPat then standPat else alpha
        if ply ≥ MAX_QUIESCENCE_PLY then some (alpha1, s1)
        else
          let moves := if inCheck then s1.board.generateMoves else s1.board.generateCaptures
          if moves.isEmpty then
            some (if inCheck then -INFINITY_SCORE + ply else standPat, s1)
          else
            quiescenceLoop (fun s a b => quiescence fuel s a b (ply + 1)) beta
              (s1.orderMoves moves ply s1.board.computeHash) s1 alpha1

/-- The search of one move in the move loop of `negamax`, on the board after the move:
reduced first when `reduction > 0`, then at full depth if that raised alpha.  `child s d
a b` is the call `negamax(d, a, b, ply + 1)` in state `s`. -/
def searchMove (child : Searcher → Int → Int → Int → Option ((Int × Option Move) × Searcher))
    (s : Searcher) (depth reduction alpha beta : Int) : Option (Int × Searcher) :=
  if reduction > 0 then
    match child s (depth - reduction - 1) (-beta) (-alpha) with
    | none => none
    | some (r, s1) =>
      if -r.1 > alpha then
        match child s1 (depth - 1) (-beta) (-alpha) with
        | none => none
        | some (r2, s2) => some (-r2.1, s2)
      else some (-r.1, s1)
  else
    match child s (depth - 1) (-beta) (-alpha) with
    | none => none
    | some (r, s1) => some (-r.1, s1)

/-- The killer update of the move loop. -/
def pushKiller (s : Searcher) (ply : Int) (move : Move) : Searcher :=
  let k := s.killers_.getD ply.toNat (none, none)
  if (k.1.map (fun m => m.same move)) = some true then s
  else { s with killers_ := s.killers_.set ply.toNat (some move, k.1) }

/-- The statement `history_[from][to] += depth * depth`. -/
def addHistory (s : Searcher) (move : Move) (depth : Int) : Searcher :=
  { s with history_ := fun a b =>
      if a = move.from_ ∧ b = move.to_ then s.history_ a b + depth * depth
      else s.history_ a b }

/-- The move loop of `negamax`: the loop variables and the state when the loop is
left. -/
def negamaxLoop (child : Searcher → Int → Int → Int → Option ((Int × Option Move) × Searcher))
    (depth beta ply : Int) : List Move → Searcher → MoveLoop → Option (MoveLoop × Searcher)
  | [], s, v => some (v, s)
  | move :: rest, s, v =>
    if s.stats.stopSearch then some (v, s)
    else
      let isCapture := s.board.isCapture move
      let reduction : Int :=
        if depth ≥ 3 ∧ v.moveCount ≥ 3 ∧ isCapture = false ∧ move.promotion = none ∧
            s.board.isInCheck s.board.sideToMove_ = false then 1 else 0
      match searchMove child { s with board := s.board.makeMove move } depth reduction
          v.alpha beta with
      | none => none
      | some (score, s1) =>
        let s2 : Searcher := { s1 with board := s1.board.unmakeMove }
        let v1 := v.record score move
        let s3 := if score > v.alpha ∧ isCapture = false ∧ ply < MAX_KILLER_DEPTH then
          s2.pushKiller ply move else s2
        if v1.alpha ≥ beta then
          some (v1, if isCapture = false then s3.addHistory move depth else s3)
        else negamaxLoop child depth beta ply rest s3 v1

/-- The part of `negamax` from the mate and draw tests to the end. -/
def negamaxMoves (child : Searcher → Int → Int → Int → Option ((Int × Option Move) × Searcher))
    (s : Searcher) (depth alpha beta ply : Int) (hash : Nat) :
    Option ((Int × Option Move) × Searcher) :=
  if s.board.isCheckmate then some ((-INFINITY_SCORE + ply, none), s)
  else if s.board.isStalemate || s.board.isInsufficientMaterial then some ((0, none), s)
  else
    let moves := s.board.generateMoves
    if moves.isEmpty then
      some ((if s.board.isInCheck s.board.sideToMove_ then -INFINITY_SCORE + ply else 0, none),
        s)
    else
      match negamaxLoop child depth beta ply (s.orderMoves moves ply hash) s
          ⟨alpha, -INFINITY_SCORE, none, 0⟩ with
      | none => none
      | some (v, s1) =>
        let flag := if v.bestScore ≤ alpha then 3 else if v.bestScore ≥ beta then 2 else 1
        some ((v.bestScore, v.bestMove),
          s1.storeTT hash (v.bestMove.getD (Move.mk3 SQ_NONE SQ_NONE none)) v.bestScore depth
            flag)

/-- The null-move step of `negamax`, followed by the rest of the function. -/
def negamaxNull (child : Searcher → Int → Int → Int → Option ((Int × Option Move) × Searcher))
    (s : Searcher) (depth alpha beta ply : Int) (hash : Nat) :
    Option ((Int × Option Move) × Searcher) :=
  if depth ≥ 3 ∧ s.board.isInCheck s.board.sideToMove_ = false ∧
      s.board.hasNonPawnMaterial s.board.sideToMove_ = true then
    match child { s with board := s.board.makeNullMove } (depth - 3) (-beta) (-beta + 1) with
    | none => none
    | some (r, s1) =>
      let s2 : Searcher := { s1 with board := s1.board.unmakeNullMove }
      if -r.1 ≥ beta then some ((beta, none), s2)
      else negamaxMoves child s2 depth alpha beta ply hash
  else negamaxMoves child s depth alpha beta ply hash

/-- The source's `negamax`.  The first argument bounds the depth of nested calls of
`negamax` and `quiescence`: `none` when it is used up. -/
def negamax : Nat → Searcher → Int → Int → Int → Int →
    Option ((Int × Option Move) × Searcher)
  | 0, _, _, _, _, _ => none
  | fuel + 1, s, depth, alpha, beta, ply =>
    let s0 := s.enter false ply
    let ct := s0.stats.checkTime
    let s1 : Searcher := { s0 with stats := ct.2 }
    if ct.1 then some ((alpha, none), s1)
    else if depth ≤ 0 then
      match quiescence fuel s1 alpha beta ply with
      | none => none
      | some (v, s2) => some ((v, none), s2)
    else
      let depth1 := if s1.board.isInCheck s1.board.sideToMove_ then depth + 1 else depth
      let hash := s1.board.computeHash
      match (s1.tt (hash % s1.ttLen)).probe hash depth1 alpha beta with
      | some r => some (r, s1)
      | none =>
        negamaxNull (fun s d a b => negamax fuel s d a b (ply + 1)) s1 depth1 alpha beta ply hash

/-- The loop of `iterativeDeepening`: `n` iterations are left, the next one at depth
`currentDepth`. -/
def deepen (fuel : Nat) : Nat → Int → Searcher → Iteration → Option (Iteration × Searcher)
  | 0, _, s, it => some (it, s)
  | n + 1, currentDepth, s, it =>
    let ct := s.stats.checkTime
    if ct.1 then some (it, { s with stats := ct.2 })
    else
      let s1 : Searcher :=
        { s with stats := { ct.2 with depth := currentDepth, seldepth := 0 } }
      let alpha := if currentDepth ≥ 5 then it.prevScore - 50 else -INFINITY_SCORE
      let beta := if currentDepth ≥ 5 then it.prevScore + 50 else INFINITY_SCORE
      match negamax fuel s1 currentDepth alpha beta 0 with
      | none => none
      | some (r, s2) =>
        if s2.stats.stopSearch then some (it, s2)
        else
          match (if r.1 ≤ alpha ∨ r.1 ≥ beta then
              negamax fuel s2 currentDepth (-INFINITY_SCORE) INFINITY_SCORE 0
            else some (r, s2)) with
          | none => none
          | some (r1, s3) =>
            let it1 : Iteration :=
              ⟨if r1.2.isSome then r1.2 else it.bestMove, r1.1, currentDepth⟩
            let read : SearchStats := { s3.stats with clockReads := s3.stats.clockReads + 2 }
            let ct1 := read.checkTime
            if ct1.1 then some (it1, { s3 with stats := ct1.2 })
            else deepen fuel n (currentDepth + 1) { s3 with stats := ct1.2 } it1

/-- The source's `iterativeDeepening`; the first argument is the bound on nested calls
given to every call of `negamax`. -/
def iterativeDeepening (fuel : Nat) (s : Searcher) (maxDepth maxTimeMs : Int) :
    Option ((Option Move × Int) × Searcher) :=
  let s1 : Searcher :=
    { s with
      stats := s.stats.start maxTimeMs
      tt := fun _ => TTEntry.empty
      killers_ := List.replicate 30 (none, none)
      history_ := fun _ _ => 0 }
  match deepen fuel maxDepth.toNat 1 s1 ⟨none, 0, 0⟩ with
  | none => none
  | some (it, s2) => some ((it.bestMove, it.finalDepth), s2)

end Searcher

/-- The game 1. f3 e5 2. g4 Qh4: White is checkmated. -/
def foolsMateGame : List Move :=
  [Move.mk2 13 21, Move.mk2 52 36, Move.mk2 14 30, Move.mk2 59 31]

/-- Kings on e1 and e8 and a white queen on d1, Black to move. -/
def queenEndgame : Board :=
  positionOf ⟨⟨0, 0, 0, 0, bit 3, bit 4⟩, ⟨0, 0, 0, 0, 0, bit 60⟩⟩ .BLACK
    ⟨false, false, false, false⟩ SQ_NONE

/-- White: king h1, pawns h2 and b5; Black: king f2, pawns h3 and c6; White to move.
White has two moves, b5-b6 and b5xc6. -/
def pawnRace : Board :=
  positionOf ⟨⟨bit 15 ||| bit 33, 0, 0, 0, 0, bit 7⟩, ⟨bit 23 ||| bit 42, 0, 0, 0, 0, bit 13⟩⟩
    .WHITE ⟨false, false, false, false⟩ SQ_NONE

/-- A searcher on `pawnRace` in the middle of a search with a time budget of 100 ms: 2040
nodes and 6 quiescence nodes counted so far, the stop flag clear, the table empty.  The
clock was read once, at 0 ms, and stands at 150 ms from then on. -/
def lateSearcher : Searcher :=
  { Searcher.new pawnRace (fun k => if k = 0 then 0 else 150) with
    stats := ⟨2040, 6, 3, 4, 100, false, fun k => if k = 0 then 0 else 150, 1⟩ }

/-- A searcher on the initial position whose table holds, in the slot of the position's
key, an Exact entry of depth 4 with score 35 and move e2-e4. -/
def hitSearcher : Searcher :=
  (Searcher.new Board.new (fun _ => 0)).storeTT Board.new.computeHash (Move.mk2 12 28) 35 4 1

/-- The searcher `hitSearcher`, met at ply 4 of a search with a time budget of 100 ms:
2047 nodes counted so far, the stop flag clear.  The clock was read once, at 0 ms, and
stands at 150 ms from then on. -/
def lateHitSearcher : Searcher :=
  { hitSearcher with
    stats := ⟨2047, 0, 4, 4, 100, false, fun k => if k = 0 then 0 else 150, 1⟩ }

/-- A searcher on the position after `foolsMateGame` whose table holds, in the slot of the
position's key, an Exact entry of depth 1 with score 0. -/
def matedSearcher : Searcher :=
  (Searcher.new (Board.new.play foolsMateGame) (fun _ => 0)).storeTT
    (Board.new.play foolsMateGame).computeHash (Move.mk3 SQ_NONE SQ_NONE none) 0 1 1

/-- The game 1. h4 h5 2. Rh3 g6 3. Ra3 Nf6 4. Rxa7 Nc6 5. Rxa8 Ne5: White's king's rook
stands on a8, the king and the rook on a1 have not moved. -/
def rookRaidGame : List Move :=
  [Move.mk2 15 31, Move.mk2 55 39, Move.mk2 7 23, Move.mk2 54 46, Move.mk2 23 16,
   Move.mk2 62 45, Move.mk2 16 48, Move.mk2 57 42, Move.mk2 48 56, Move.mk2 42 36]

/-- The shift counts `evaluateKingSafety` uses to build `shieldMask`, in the order of the
three statements: `(rank ± 1) * 8 + (file - 1)` when `file > 0`, `(rank ± 1) * 8 + file`,
`(rank ± 1) * 8 + (file + 1)` when `file < 7`, with `+` for White and `-` for Black. -/
def Evaluator.shieldShifts (color : Color) (kingSq : Nat) : List Int :=
  let rank : Int := (kingSq / 8 : Nat)
  let file : Int := (kingSq % 8 : Nat)
  let row : Int := match color with
    | .WHITE => (rank + 1) * 8
    | .BLACK => (rank - 1) * 8
  (if file > 0 then [row + (file - 1)] else []) ++ [row + file] ++
    (if file < 7 then [row + (file + 1)] else [])

/-- White king on g8, Black king on e6, White to move. -/
def kingOnLastRank : Board :=
  positionOf ⟨⟨0, 0, 0, 0, 0, bit 62⟩, ⟨0, 0, 0, 0, 0, bit 44⟩⟩ .WHITE
    ⟨false, false, false, false⟩ SQ_NONE

/-- The squares onto which the pawn loop of `generateMoves` lets a pawn of colour `c` on
`from_` capture: the to-squares of the moves the loop body adds when no square is empty
and every square holds an enemy piece. -/
def Board.pawnCaptureTargets (c : Color) (from_ : Nat) : List Nat :=
  let moves : List Move :=
    match c with
    | .WHITE => Board.whitePawnMoves 0 U64_MAX SQ_NONE from_
    | .BLACK => Board.blackPawnMoves 0 U64_MAX SQ_NONE from_
  (moves.map (fun m => m.to_)).dedup

/-- A checker: the capture targets of the generator for a pawn of colour `c` on `from_`
are exactly the bits of `pawnAttacks(c, 1 << from_)`. -/
def Board.pawnGeometryAgrees (c : Color) (from_ : Nat) : Bool :=
  (List.range 64).all (fun t =>
    decide (t ∈ Board.pawnCaptureTargets c from_) ==
      (Attacks.pawnAttacks c (bit from_)).testBit t)

/-- The game 1. g4 b6 2. Bh3 Bb7 3. Nf3 Bxf3 4. a3 Bxh1: Black has captured the rook on
h1, f1 and g1 are empty, the white king has not moved. -/
def rookLossGame : List Move :=
  [Move.mk2 14 30, Move.mk2 49 41, Move.mk2 5 23, Move.mk2 58 49, Move.mk2 6 21,
   Move.mk2 49 21, Move.mk2 8 16, Move.mk2 21 7]

/-- In the words of the specification: the terms of one colour, namely its bishop-pair
bonus, the value of each of its pieces, its king safety and (a quarter of) its
mobility. -/
def Evaluator.sideTerms (board : Board) (color : Color) : Int :=
  (if popcount (board.getBitboard .BISHOP color) ≥ 2 then Evaluator.BISHOP_PAIR_BONUS else 0) +
    ((board.pieceList.filter (fun e => decide (e.2.color = color))).map
      (fun e => Evaluator.pieceValueAt board e.1 e.2)).sum +
    (Evaluator.evaluateKingSafety board color (lsbIndex (board.getBitboard .KING color)) +
      ((Evaluator.evaluateMobility board color / 4 : Nat) : Int))

/-- The state after `scoreMove(move, ..)`: the function makes the move on the board and
takes it back, and writes nothing else. -/
def Searcher.afterScoreMove (s : Searcher) (move : Move) : Searcher :=
  { s with board := (s.board.makeMove move).unmakeMove }

/-- The state after `orderMoves(moves, ..)`, which calls `scoreMove` for each move in
turn. -/
def Searcher.afterOrderMoves (s : Searcher) (moves : List Move) : Searcher :=
  moves.foldl Searcher.afterScoreMove s

/-- White king e4 and pawn a7, Black king h6 and pawn d4, White to move: the king can take
the pawn on d4 and the pawn on a7 can promote on the empty square a8. -/
def kingCapturePosition : Board :=
  positionOf ⟨⟨bit 48, 0, 0, 0, 0, bit 28⟩, ⟨bit 27, 0, 0, 0, 0, bit 47⟩⟩ .WHITE
    ⟨false, false, false, false⟩ SQ_NONE

/-- A searcher on the position after `foolsMateGame`, met at ply 4 of a search with a time
budget of 100 ms: 2047 nodes counted so far, the stop flag clear, the table empty.  The
clock was read once, at 0 ms, and stands at 150 ms from then on. -/
def lateMatedSearcher : Searcher :=
  { Searcher.new (Board.new.play foolsMateGame) (fun k => if k = 0 then 0 else 150) with
    stats := ⟨2047, 0, 4, 4, 100, false, fun k => if k = 0 then 0 else 150, 1⟩ }

/-- The XOR of a list of words. -/
def xorAll (l : List Nat) : Nat := l.foldr (fun x acc => x ^^^ acc) 0

/-- The word `computeHash` folds in for a piece of the given colour and kind on `sq`. -/
def pieceWord (cp : Color × PieceType) (sq : Nat) : Nat :=
  (((cp.1.index * 6 + cp.2.index + 1) * 0x123456789abcdef0) % 2 ^ 64) ^^^
    ((sq * 0xbf58476d1ce4e5b9) % 2 ^ 64)

/-- The XOR of the words of the squares in one bitmap. -/
def bitmapWord (cp : Color × PieceType) (bb : Nat) : Nat :=
  xorAll ((List.range 64).map (fun i => if bb.testBit i then pieceWord cp i else 0))

/-- The bitmap with the bits of the squares `s` and `t` exchanged. -/
def swapBits (s t bb : Nat) : Nat :=
  if bb.testBit s = bb.testBit t then bb else bb ^^^ bit s ^^^ bit t

/-- The board with the pieces standing on `s` and `t` exchanged: in each of the twelve
bitmaps the bits of the two squares change places. -/
def Board.exchanged (b : Board) (s t : Nat) : Board :=
  Board.updateBitboards { b with pieces_ := b.pieces_.map (swapBits s t) }

/-! ## Geometry of the board, in the words of the specification -/

/-- `x` lies strictly between `a` and `b`. -/
def strictlyInside (a b x : Nat) : Prop := (a < x ∧ x < b) ∨ (b < x ∧ x < a)

instance (a b x : Nat) : Decidable (strictlyInside a b x) := by
  unfold strictlyInside; infer_instance

/-- Square `u` lies strictly between the squares `s` and `t` on the rank, the file,
the diagonal or the anti-diagonal they share. -/
def strictlyBetween (s t u : Nat) : Prop :=
  (rankOf s = rankOf t ∧ rankOf u = rankOf s ∧
      strictlyInside (fileOf s) (fileOf t) (fileOf u)) ∨
  (fileOf s = fileOf t ∧ fileOf u = fileOf s ∧
      strictlyInside (rankOf s) (rankOf t) (rankOf u)) ∨
  (fileOf s + rankOf t = fileOf t + rankOf s ∧ fileOf s + rankOf u = fileOf u + rankOf s ∧
      strictlyInside (fileOf s) (fileOf t) (fileOf u)) ∨
  (fileOf s + rankOf s = fileOf t + rankOf t ∧ fileOf u + rankOf u = fileOf s + rankOf s ∧
      strictlyInside (fileOf s) (fileOf t) (fileOf u))

instance (s t u : Nat) : Decidable (strictlyBetween s t u) := by
  unfold strictlyBetween; infer_instance

/-- Squares `s` and `t` share a diagonal: `|file difference| = |rank difference|`. -/
def onCommonDiagonal (s t : Nat) : Prop :=
  absDiff (fileOf s) (fileOf t) = absDiff (rankOf s) (rankOf t)

instance (s t : Nat) : Decidable (onCommonDiagonal s t) := by
  unfold onCommonDiagonal; infer_instance

/-- No square strictly between `s` and `t` is set in `occ`. -/
def clearBetween (occ s t : Nat) : Prop :=
  ∀ u, u < 64 → strictlyBetween s t u → occ.testBit u = false

/-- In the specification's words: `t` is a rook target from `s` under `occ`: another
square on the rank or file of `s` with nothing set strictly in between. -/
def rookSees (occ s t : Nat) : Prop :=
  t < 64 ∧ t ≠ s ∧ (rankOf t = rankOf s ∨ fileOf t = fileOf s) ∧ clearBetween occ s t

/-- In the specification's words: `t` is a bishop target from `s` under `occ`:
another square on a common diagonal with nothing set strictly in between. -/
def bishopSees (occ s t : Nat) : Prop :=
  t < 64 ∧ t ≠ s ∧ onCommonDiagonal s t ∧ clearBetween occ s t

/-- In the specification's words: the (file, rank) of `t` differs from that of `s` by
(±1, ±2) or (±2, ±1). -/
def knightStep (s t : Nat) : Prop :=
  (absDiff (fileOf s) (fileOf t) = 1 ∧ absDiff (rankOf s) (rankOf t) = 2) ∨
  (absDiff (fileOf s) (fileOf t) = 2 ∧ absDiff (rankOf s) (rankOf t) = 1)

instance (s t : Nat) : Decidable (knightStep s t) := by
  unfold knightStep; infer_instance

/-- In the specification's words: `t ≠ s` and file and rank each differ by at most 1. -/
def kingStep (s t : Nat) : Prop :=
  t ≠ s ∧ absDiff (fileOf s) (fileOf t) ≤ 1 ∧ absDiff (rankOf s) (rankOf t) ≤ 1

instance (s t : Nat) : Decidable (kingStep s t) := by
  unfold kingStep; infer_instance

/-- In the specification's words: the pawn attack set,
`((p << 7) & ~fileH) | ((p << 9) & ~fileA)` for White and
`((p >> 7) & ~fileA) | ((p >> 9) & ~fileH)` for Black, with
`fileA = 0x0101010101010101` and `fileH = 0x8080808080808080`. -/
def pawnAttacksSpec (color : Color) (p : Nat) : Nat :=
  match color with
  | .WHITE =>
      (shl64 p 7 &&& not64 0x8080808080808080) ||| (shl64 p 9 &&& not64 0x0101010101010101)
  | .BLACK =>
      (shr64 p 7 &&& not64 0x0101010101010101) ||| (shr64 p 9 &&& not64 0x8080808080808080)

/-- In the specification's words: the square `sq` is attacked by a piece of colour
`attacker`, the pawn attacks taken from the specification's formula `pawnAttacksSpec`
and every other attack as `isSquareAttacked` computes it. -/
def Board.isSquareAttackedSpec (b : Board) (sq : Nat) (attacker : Color) : Bool :=
  anyBit (pawnAttacksSpec attacker (b.pieces_.get attacker .PAWN)) (bit sq) ||
    (squaresOf (b.pieces_.get attacker .KNIGHT)).any
      (fun ksq => anyBit (Attacks.knightAttacks ksq) (bit sq)) ||
    (squaresOf (b.pieces_.get attacker .BISHOP)).any
      (fun bsq => anyBit (Attacks.bishopAttacks bsq b.occupied_) (bit sq)) ||
    (squaresOf (b.pieces_.get attacker .ROOK)).any
      (fun rsq => anyBit (Attacks.rookAttacks rsq b.occupied_) (bit sq)) ||
    (squaresOf (b.pieces_.get attacker .QUEEN)).any
      (fun qsq => anyBit (Attacks.queenAttacks qsq b.occupied_) (bit sq)) ||
    (squaresOf (b.pieces_.get attacker .KING)).any
      (fun ksq => anyBit (Attacks.kingAttacks ksq) (bit sq))

/-- In the specification's words: the king of `color` stands on a square attacked by the
other colour. -/
def Board.isInCheckSpec (b : Board) (color : Color) : Bool :=
  (squaresOf (b.pieces_.get color .KING)).any
    (fun kingSq => b.isSquareAttackedSpec kingSq color.other)

/-! # Lemmas and theorems -/

/-! ## Bit-level facts -/

theorem U64_MAX_eq : U64_MAX = 2 ^ 64 - 1 := by decide

theorem testBit_bit (s t : Nat) : (bit s).testBit t = (decide (t < 64) && decide (s = t)) := by
  unfold bit shl64
  rw [Nat.testBit_mod_two_pow, Nat.one_shiftLeft, Nat.testBit_two_pow]

theorem testBit_not64 (x i : Nat) :
    (not64 x).testBit i = (decide (i < 64) ^^ x.testBit i) := by
  unfold not64
  rw [U64_MAX_eq, Nat.testBit_xor, Nat.testBit_two_pow_sub_one]

theorem testBit_shl64 (x n i : Nat) :
    (shl64 x n).testBit i = (decide (i < 64) && (decide (n ≤ i) && x.testBit (i - n))) := by
  unfold shl64
  rw [Nat.testBit_mod_two_pow, Nat.testBit_shiftLeft]

theorem testBit_shr64 (x n i : Nat) : (shr64 x n).testBit i = x.testBit (n + i) := by
  simp [shr64, Nat.testBit_shiftRight]

theorem ne_zero_iff_testBit (x : Nat) : x ≠ 0 ↔ ∃ i, x.testBit i = true := by
  constructor
  · intro h
    exact Nat.ne_zero_implies_bit_true h
  · rintro ⟨i, hi⟩ rfl
    simp at hi

theorem anyBit_bit (x s : Nat) : anyBit x (bit s) = (decide (s < 64) && x.testBit s) := by
  unfold anyBit
  rw [Bool.eq_iff_iff]
  simp only [bne_iff_ne, ne_zero_iff_testBit, Nat.testBit_and, testBit_bit, Bool.and_eq_true,
    decide_eq_true_eq]
  constructor
  · rintro ⟨i, h1, h2, rfl⟩
    exact ⟨h2, h1⟩
  · rintro ⟨h1, h2⟩
    exact ⟨s, h2, h1, rfl⟩

/-! ## Attack sets -/

namespace Attacks

theorem testBit_rayLoop (edge : Nat → Bool) (target : Nat → Nat) (occ : Nat)
    (hT : ∀ k, edge k = false → target k < 64) :
    ∀ (n i acc t : Nat), (rayLoop edge target occ n i acc).testBit t = true ↔
      (acc.testBit t = true ∨
        ∃ j, i ≤ j ∧ j < i + n ∧ target j = t ∧ (∀ k, i ≤ k → k ≤ j → edge k = false) ∧
          (∀ k, i ≤ k → k < j → occ.testBit (target k) = false)) := by
  intro n
  induction n with
  | zero =>
      intro i acc t
      simp only [rayLoop]
      constructor
      · intro h; exact Or.inl h
      · rintro (h | ⟨j, h1, h2, _⟩)
        · exact h
        · omega
  | succ n ih =>
      intro i acc t
      simp only [rayLoop]
      by_cases he : edge i = true
      · simp only [he, if_true]
        constructor
        · intro h; exact Or.inl h
        · rintro (h | ⟨j, h1, _, _, h4, _⟩)
          · exact h
          · have := h4 i (le_refl _) h1
            simp [he] at this
      · have he' : edge i = false := by simpa using he
        have hlt := hT i he'
        simp only [he', Bool.false_eq_true, if_false, anyBit_bit, hlt, decide_True, Bool.true_and]
        by_cases ho : occ.testBit (target i) = true
        · simp only [ho, if_true, Nat.testBit_or, testBit_bit, Bool.or_eq_true, Bool.and_eq_true,
            decide_eq_true_eq]
          constructor
          · rintro (h | ⟨_, h⟩)
            · exact Or.inl h
            · refine Or.inr ⟨i, le_refl _, by omega, h, ?_, ?_⟩
              · intro k hk1 hk2
                have : k = i := by omega
                simpa [this] using he'
              · intro k hk1 hk2
                omega
          · rintro (h | ⟨j, h1, h2, h3, h4, h5⟩)
            · exact Or.inl h
            · by_cases hji : j = i
              · subst hji
                exact Or.inr ⟨by omega, h3⟩
              · have := h5 i (le_refl _) (by omega)
                simp [ho] at this
        · have ho' : occ.testBit (target i) = false := by simpa using ho
          simp only [ho', Bool.false_eq_true, if_false]
          rw [ih (i + 1)]
          simp only [Nat.testBit_or, testBit_bit, Bool.or_eq_true, Bool.and_eq_true,
            decide_eq_true_eq]
          constructor
          · rintro ((h | ⟨_, h⟩) | ⟨j, h1, h2, h3, h4, h5⟩)
            · exact Or.inl h
            · refine Or.inr ⟨i, le_refl _, by omega, h, ?_, ?_⟩
              · intro k hk1 hk2
                have : k = i := by omega
                simpa [this] using he'
              · intro k hk1 hk2
                omega
            · refine Or.inr ⟨j, by omega, by omega, h3, ?_, ?_⟩
              · intro k hk1 hk2
                by_cases hki : k = i
                · simpa [hki] using he'
                · exact h4 k (by omega) hk2
              · intro k hk1 hk2
                by_cases hki : k = i
                · simpa [hki] using ho'
                · exact h5 k (by omega) hk2
          · rintro (h | ⟨j, h1, h2, h3, h4, h5⟩)
            · exact Or.inl (Or.inl h)
            · by_cases hji : j = i
              · subst hji
                exact Or.inl (Or.inr ⟨by omega, h3⟩)
              · refine Or.inr ⟨j, by omega, by omega, h3, ?_, ?_⟩
                · intro k hk1 hk2
                  exact h4 k (by omega) hk2
                · intro k hk1 hk2
                  exact h5 k (by omega) hk2

theorem testBit_rookAttacks_raw (s occ t : Nat) (hs : s < 64) :
    (rookAttacks s occ).testBit t = true ↔
      ∃ j, 1 ≤ j ∧ j < 8 ∧
        ((s + j = t ∧ s % 8 + j < 8 ∧ ∀ k, 1 ≤ k → k < j → occ.testBit (s + k) = false) ∨
         (s - j = t ∧ j ≤ s % 8 ∧ ∀ k, 1 ≤ k → k < j → occ.testBit (s - k) = false) ∨
         (s + j * 8 = t ∧ s / 8 + j < 8 ∧ ∀ k, 1 ≤ k → k < j → occ.testBit (s + k * 8) = false) ∨
         (s - j * 8 = t ∧ j ≤ s / 8 ∧ ∀ k, 1 ≤ k → k < j → occ.testBit (s - k * 8) = false)) := by
  unfold rookAttacks
  simp only []
  rw [testBit_rayLoop _ _ _ (by intro k hk; simp at hk; omega),
    testBit_rayLoop _ _ _ (by intro k hk; simp at hk; omega),
    testBit_rayLoop _ _ _ (by intro k hk; simp at hk; omega),
    testBit_rayLoop _ _ _ (by intro k hk; simp at hk; omega)]
  simp only [Nat.zero_testBit, Bool.false_eq_true, false_or, decide_eq_false_iff_not, not_le,
    not_lt, ge_iff_le]
  constructor
  · rintro (((⟨j, h1, h2, h3, h4, h5⟩ | ⟨j, h1, h2, h3, h4, h5⟩) | ⟨j, h1, h2, h3, h4, h5⟩) |
      ⟨j, h1, h2, h3, h4, h5⟩)
    · exact ⟨j, h1, by omega, Or.inl ⟨h3, h4 j h1 (le_refl _), h5⟩⟩
    · exact ⟨j, h1, by omega, Or.inr (Or.inl ⟨h3, h4 j h1 (le_refl _), h5⟩)⟩
    · exact ⟨j, h1, by omega, Or.inr (Or.inr (Or.inl ⟨h3, h4 j h1 (le_refl _), h5⟩))⟩
    · exact ⟨j, h1, by omega, Or.inr (Or.inr (Or.inr ⟨h3, h4 j h1 (le_refl _), h5⟩))⟩
  · rintro ⟨j, h1, h2, (⟨h3, h4, h5⟩ | ⟨h3, h4, h5⟩ | ⟨h3, h4, h5⟩ | ⟨h3, h4, h5⟩)⟩
    · exact Or.inl (Or.inl (Or.inl ⟨j, h1, by omega, h3, fun k _ _ => by omega, h5⟩))
    · exact Or.inl (Or.inl (Or.inr ⟨j, h1, by omega, h3, fun k _ _ => by omega, h5⟩))
    · exact Or.inl (Or.inr ⟨j, h1, by omega, h3, fun k _ _ => by omega, h5⟩)
    · exact Or.inr ⟨j, h1, by omega, h3, fun k _ _ => by omega, h5⟩

theorem testBit_rookAttacks (s occ t : Nat) (hs : s < 64) :
    (rookAttacks s occ).testBit t = true ↔
      (t < 64 ∧ t ≠ s ∧ (rankOf t = rankOf s ∨ fileOf t = fileOf s) ∧ clearBetween occ s t) := by
  rw [testBit_rookAttacks_raw s occ t hs]
  unfold clearBetween strictlyBetween strictlyInside fileOf rankOf
  constructor
  · rintro ⟨j, h1, h2, (⟨h3, h4, h5⟩ | ⟨h3, h4, h5⟩ | ⟨h3, h4, h5⟩ | ⟨h3, h4, h5⟩)⟩
    · refine ⟨by omega, by omega, Or.inl (by omega), ?_⟩
      intro u hu hb
      have hk := h5 (u - s) (by omega) (by omega)
      have he : s + (u - s) = u := by omega
      rwa [he] at hk
    · refine ⟨by omega, by omega, Or.inl (by omega), ?_⟩
      intro u hu hb
      have hk := h5 (s - u) (by omega) (by omega)
      have he : s - (s - u) = u := by omega
      rwa [he] at hk
    · refine ⟨by omega, by omega, Or.inr (by omega), ?_⟩
      intro u hu hb
      have hk := h5 (u / 8 - s / 8) (by omega) (by omega)
      have he : s + (u / 8 - s / 8) * 8 = u := by omega
      rwa [he] at hk
    · refine ⟨by omega, by omega, Or.inr (by omega), ?_⟩
      intro u hu hb
      have hk := h5 (s / 8 - u / 8) (by omega) (by omega)
      have he : s - (s / 8 - u / 8) * 8 = u := by omega
      rwa [he] at hk
  · rintro ⟨h1, h2, h3, h4⟩
    rcases h3 with h3 | h3
    · rcases Nat.lt_or_gt_of_ne h2 with hlt | hgt
      · refine ⟨s - t, by omega, by omega, Or.inr (Or.inl ⟨by omega, by omega, ?_⟩)⟩
        intro k hk1 hk2
        exact h4 (s - k) (by omega) (Or.inl (by omega))
      · refine ⟨t - s, by omega, by omega, Or.inl ⟨by omega, by omega, ?_⟩⟩
        intro k hk1 hk2
        exact h4 (s + k) (by omega) (Or.inl (by omega))
    · rcases Nat.lt_or_gt_of_ne h2 with hlt | hgt
      · refine ⟨s / 8 - t / 8, by omega, by omega,
          Or.inr (Or.inr (Or.inr ⟨by omega, by omega, ?_⟩))⟩
        intro k hk1 hk2
        exact h4 (s - k * 8) (by omega) (Or.inr (Or.inl (by omega)))
      · refine ⟨t / 8 - s / 8, by omega, by omega,
          Or.inr (Or.inr (Or.inl ⟨by omega, by omega, ?_⟩))⟩
        intro k hk1 hk2
        exact h4 (s + k * 8) (by omega) (Or.inr (Or.inl (by omega)))

theorem testBit_bishopAttacks_raw (s occ t : Nat) (hs : s < 64) :
    (bishopAttacks s occ).testBit t = true ↔
      ∃ j, 1 ≤ j ∧ j < 8 ∧
        ((s + j * 9 = t ∧ (s % 8 + j < 8 ∧ s / 8 + j < 8) ∧
            ∀ k, 1 ≤ k → k < j → occ.testBit (s + k * 9) = false) ∨
         (s + j * 7 = t ∧ (j ≤ s % 8 ∧ s / 8 + j < 8) ∧
            ∀ k, 1 ≤ k → k < j → occ.testBit (s + k * 7) = false) ∨
         (s - j * 7 = t ∧ (s % 8 + j < 8 ∧ j ≤ s / 8) ∧
            ∀ k, 1 ≤ k → k < j → occ.testBit (s - k * 7) = false) ∨
         (s - j * 9 = t ∧ (j ≤ s % 8 ∧ j ≤ s / 8) ∧
            ∀ k, 1 ≤ k → k < j → occ.testBit (s - k * 9) = false)) := by
  unfold bishopAttacks
  simp only []
  rw [testBit_rayLoop _ _ _ (by intro k hk; simp at hk; omega),
    testBit_rayLoop _ _ _ (by intro k hk; simp at hk; omega),
    testBit_rayLoop _ _ _ (by intro k hk; simp at hk; omega),
    testBit_rayLoop _ _ _ (by intro k hk; simp at hk; omega)]
  simp only [Nat.zero_testBit, Bool.false_eq_true, false_or, decide_eq_false_iff_not, not_le,
    not_lt, ge_iff_le, Bool.or_eq_false_iff]
  constructor
  · rintro (((⟨j, h1, h2, h3, h4, h5⟩ | ⟨j, h1, h2, h3, h4, h5⟩) | ⟨j, h1, h2, h3, h4, h5⟩) |
      ⟨j, h1, h2, h3, h4, h5⟩)
    · exact ⟨j, h1, by omega, Or.inl ⟨h3, h4 j h1 (le_refl _), h5⟩⟩
    · exact ⟨j, h1, by omega, Or.inr (Or.inl ⟨h3, h4 j h1 (le_refl _), h5⟩)⟩
    · exact ⟨j, h1, by omega, Or.inr (Or.inr (Or.inl ⟨h3, h4 j h1 (le_refl _), h5⟩))⟩
    · exact ⟨j, h1, by omega, Or.inr (Or.inr (Or.inr ⟨h3, h4 j h1 (le_refl _), h5⟩))⟩
  · rintro ⟨j, h1, h2, (⟨h3, h4, h5⟩ | ⟨h3, h4, h5⟩ | ⟨h3, h4, h5⟩ | ⟨h3, h4, h5⟩)⟩
    · exact Or.inl (Or.inl (Or.inl
        ⟨j, h1, by omega, h3, fun k _ _ => ⟨by omega, by omega⟩, h5⟩))
    · exact Or.inl (Or.inl (Or.inr
        ⟨j, h1, by omega, h3, fun k _ _ => ⟨by omega, by omega⟩, h5⟩))
    · exact Or.inl (Or.inr ⟨j, h1, by omega, h3, fun k _ _ => ⟨by omega, by omega⟩, h5⟩)
    · exact Or.inr ⟨j, h1, by omega, h3, fun k _ _ => ⟨by omega, by omega⟩, h5⟩

theorem testBit_bishopAttacks (s occ t : Nat) (hs : s < 64) :
    (bishopAttacks s occ).testBit t = true ↔
      (t < 64 ∧ t ≠ s ∧ onCommonDiagonal s t ∧ clearBetween occ s t) := by
  rw [testBit_bishopAttacks_raw s occ t hs]
  unfold clearBetween strictlyBetween strictlyInside onCommonDiagonal absDiff fileOf rankOf
  constructor
  · rintro ⟨j, h1, h2, (⟨h3, h4, h5⟩ | ⟨h3, h4, h5⟩ | ⟨h3, h4, h5⟩ | ⟨h3, h4, h5⟩)⟩
    · have hf : t % 8 = s % 8 + j := by omega
      have hr : t / 8 = s / 8 + j := by omega
      clear h3
      refine ⟨by omega, by omega, by omega, ?_⟩
      intro u hu hb
      have hu1 : 1 ≤ u % 8 - s % 8 := by omega
      have hu2 : u % 8 - s % 8 < j := by omega
      have he : s + (u % 8 - s % 8) * 9 = u := by omega
      have hk := h5 (u % 8 - s % 8) hu1 hu2
      rwa [he] at hk
    · have hf : t % 8 + j = s % 8 := by omega
      have hr : t / 8 = s / 8 + j := by omega
      clear h3
      refine ⟨by omega, by omega, by omega, ?_⟩
      intro u hu hb
      have hu1 : 1 ≤ s % 8 - u % 8 := by omega
      have hu2 : s % 8 - u % 8 < j := by omega
      have he : s + (s % 8 - u % 8) * 7 = u := by omega
      have hk := h5 (s % 8 - u % 8) hu1 hu2
      rwa [he] at hk
    · have hf : t % 8 = s % 8 + j := by omega
      have hr : t / 8 + j = s / 8 := by omega
      clear h3
      refine ⟨by omega, by omega, by omega, ?_⟩
      intro u hu hb
      have hu1 : 1 ≤ u % 8 - s % 8 := by omega
      have hu2 : u % 8 - s % 8 < j := by omega
      have he : s - (u % 8 - s % 8) * 7 = u := by omega
      have hk := h5 (u % 8 - s % 8) hu1 hu2
      rwa [he] at hk
    · have hf : t % 8 + j = s % 8 := by omega
      have hr : t / 8 + j = s / 8 := by omega
      clear h3
      refine ⟨by omega, by omega, by omega, ?_⟩
      intro u hu hb
      have hu1 : 1 ≤ s % 8 - u % 8 := by omega
      have hu2 : s % 8 - u % 8 < j := by omega
      have he : s - (s % 8 - u % 8) * 9 = u := by omega
      have hk := h5 (s % 8 - u % 8) hu1 hu2
      rwa [he] at hk
  · rintro ⟨h1, h2, h3a, h4⟩
    have h3 : s % 8 + t / 8 = t % 8 + s / 8 ∨ s % 8 + s / 8 = t % 8 + t / 8 := by omega
    clear h3a
    rcases h3 with h3 | h3
    · rcases Nat.lt_or_gt_of_ne h2 with hlt | hgt
      · refine ⟨s % 8 - t % 8, by omega, by omega,
          Or.inr (Or.inr (Or.inr ⟨by omega, by omega, ?_⟩))⟩
        intro k hk1 hk2
        have hf : (s - k * 9) % 8 + k = s % 8 := by omega
        have hr : (s - k * 9) / 8 + k = s / 8 := by omega
        exact h4 (s - k * 9) (by omega) (Or.inr (Or.inr (Or.inl (by omega))))
      · refine ⟨t % 8 - s % 8, by omega, by omega, Or.inl ⟨by omega, by omega, ?_⟩⟩
        intro k hk1 hk2
        have hf : (s + k * 9) % 8 = s % 8 + k := by omega
        have hr : (s + k * 9) / 8 = s / 8 + k := by omega
        exact h4 (s + k * 9) (by omega) (Or.inr (Or.inr (Or.inl (by omega))))
    · rcases Nat.lt_or_gt_of_ne h2 with hlt | hgt
      · refine ⟨t % 8 - s % 8, by omega, by omega,
          Or.inr (Or.inr (Or.inl ⟨by omega, by omega, ?_⟩))⟩
        intro k hk1 hk2
        have hf : (s - k * 7) % 8 = s % 8 + k := by omega
        have hr : (s - k * 7) / 8 + k = s / 8 := by omega
        exact h4 (s - k * 7) (by omega) (Or.inr (Or.inr (Or.inr (by omega))))
      · refine ⟨s % 8 - t % 8, by omega, by omega,
          Or.inr (Or.inl ⟨by omega, by omega, ?_⟩)⟩
        intro k hk1 hk2
        have hf : (s + k * 7) % 8 + k = s % 8 := by omega
        have hr : (s + k * 7) / 8 = s / 8 + k := by omega
        exact h4 (s + k * 7) (by omega) (Or.inr (Or.inr (Or.inr (by omega))))

theorem strictlyBetween_ne (s t u : Nat) (h : strictlyBetween s t u) : u ≠ s := by
  unfold strictlyBetween strictlyInside fileOf rankOf at h
  omega

theorem clearBetween_congr (occ occ1 s t : Nat)
    (h : ∀ u, u ≠ s → occ1.testBit u = occ.testBit u) :
    clearBetween occ1 s t ↔ clearBetween occ s t := by
  unfold clearBetween
  constructor
  · intro h1 u hu hb
    rw [← h u (strictlyBetween_ne s t u hb)]
    exact h1 u hu hb
  · intro h1 u hu hb
    rw [h u (strictlyBetween_ne s t u hb)]
    exact h1 u hu hb

theorem testBit_ite_or_bit (c : Prop) [Decidable c] (a k t : Nat) :
    (if c then a ||| bit k else a).testBit t =
      (a.testBit t || (decide c && (decide (t < 64) && decide (k = t)))) := by
  by_cases h : c <;> simp [h, Nat.testBit_or, testBit_bit]

theorem testBit_knightAttacks (s t : Nat) (hs : s < 64) :
    (knightAttacks s).testBit t = true ↔ (t < 64 ∧ knightStep s t) := by
  unfold knightAttacks knightStep absDiff fileOf rankOf
  simp only [testBit_ite_or_bit, Nat.zero_testBit, Bool.or_eq_true, Bool.and_eq_true,
    decide_eq_true_eq, Bool.false_eq_true, false_or]
  constructor
  · rintro (((((((h | h) | h) | h) | h) | h) | h) | h) <;> omega
  · rintro ⟨h1, h2⟩
    have h3 : t + 17 = s ∨ t + 15 = s ∨ t + 10 = s ∨ t + 6 = s ∨ t = s + 6 ∨ t = s + 10 ∨
        t = s + 15 ∨ t = s + 17 := by omega
    rcases h3 with h | h | h | h | h | h | h | h
    · exact Or.inl (Or.inl (Or.inl (Or.inl (Or.inl (Or.inl (Or.inl (⟨by omega, by omega, by omega⟩)))))))
    · exact Or.inl (Or.inl (Or.inl (Or.inl (Or.inl (Or.inl (Or.inr ⟨by omega, by omega, by omega⟩))))))
    · exact Or.inl (Or.inl (Or.inl (Or.inl (Or.inl (Or.inr ⟨by omega, by omega, by omega⟩)))))
    · exact Or.inl (Or.inl (Or.inl (Or.inl (Or.inr ⟨by omega, by omega, by omega⟩))))
    · exact Or.inl (Or.inl (Or.inl (Or.inr ⟨by omega, by omega, by omega⟩)))
    · exact Or.inl (Or.inl (Or.inr ⟨by omega, by omega, by omega⟩))
    · exact Or.inl (Or.inr ⟨by omega, by omega, by omega⟩)
    · exact Or.inr ⟨by omega, by omega, by omega⟩

theorem testBit_kingAttacks (s t : Nat) (hs : s < 64) :
    (kingAttacks s).testBit t = true ↔ (t < 64 ∧ kingStep s t) := by
  unfold kingAttacks kingStep absDiff fileOf rankOf
  simp only [testBit_ite_or_bit, Nat.zero_testBit, Bool.or_eq_true, Bool.and_eq_true,
    decide_eq_true_eq, Bool.false_eq_true, false_or]
  constructor
  · rintro (((((((h | h) | h) | h) | h) | h) | h) | h) <;> omega
  · rintro ⟨h1, h2⟩
    have h3 : t + 9 = s ∨ t + 8 = s ∨ t + 7 = s ∨ t + 1 = s ∨ t = s + 1 ∨ t = s + 7 ∨
        t = s + 8 ∨ t = s + 9 := by omega
    rcases h3 with h | h | h | h | h | h | h | h
    · exact Or.inl (Or.inl (Or.inl (Or.inl (Or.inl (Or.inl (Or.inl (⟨by omega, by omega, by omega⟩)))))))
    · exact Or.inl (Or.inl (Or.inl (Or.inl (Or.inl (Or.inl (Or.inr ⟨by omega, by omega, by omega⟩))))))
    · exact Or.inl (Or.inl (Or.inl (Or.inl (Or.inl (Or.inr ⟨by omega, by omega, by omega⟩)))))
    · exact Or.inl (Or.inl (Or.inl (Or.inl (Or.inr ⟨by omega, by omega, by omega⟩))))
    · exact Or.inl (Or.inl (Or.inl (Or.inr ⟨by omega, by omega, by omega⟩)))
    · exact Or.inl (Or.inl (Or.inr ⟨by omega, by omega, by omega⟩))
    · exact Or.inl (Or.inr ⟨by omega, by omega, by omega⟩)
    · exact Or.inr ⟨by omega, by omega, by omega⟩

/-- C7 (evaluation at the failing input): for a lone white pawn on a2 (`0x100`) the
source's `pawnAttacks` returns b3 and h2, the wrapped square on the pawn's own rank, where
the specified formula returns b3 alone; for a lone white pawn on b2 (`0x200`) it returns
c3 but not a3; the file masks of the two shifts are exchanged, for Black as well
(pawn on h7, `1 <<< 55`: the source returns g6 and a7, the specification g6). -/
theorem C7_pawnAttacks_masks_exchanged :
    pawnAttacks .WHITE 0x100 = bit 17 ||| bit 15 ∧
    pawnAttacksSpec .WHITE 0x100 = bit 17 ∧
    pawnAttacks .WHITE 0x200 = bit 18 ∧
    pawnAttacksSpec .WHITE 0x200 = bit 18 ||| bit 16 ∧
    pawnAttacks .BLACK (bit 55) = bit 46 ||| bit 48 ∧
    pawnAttacksSpec .BLACK (bit 55) = bit 46 ∧
    pawnAttacks .WHITE 0x100 ≠ pawnAttacksSpec .WHITE 0x100 ∧
    pawnAttacks .BLACK (bit 55) ≠ pawnAttacksSpec .BLACK (bit 55) := by
  decide

/-- C8: for every square `s` in 0..63, `knightAttacks s` is exactly the set of squares
`t` in 0..63 whose (file, rank) differs from that of `s` by (±1, ±2) or (±2, ±1), and
`kingAttacks s` is exactly the set of squares `t ≠ s` in 0..63 whose file and rank each
differ from those of `s` by at most 1. -/
theorem C8_knight_king_attacks (s : Nat) (hs : s < 64) :
    (∀ t, (knightAttacks s).testBit t = true ↔ (t < 64 ∧ knightStep s t)) ∧
    (∀ t, (kingAttacks s).testBit t = true ↔ (t < 64 ∧ kingStep s t)) :=
  ⟨fun t => testBit_knightAttacks s t hs, fun t => testBit_kingAttacks s t hs⟩

theorem C8_knight_king_attacks_witness :
    (0 : Nat) < 64 ∧
    ((∀ t, (knightAttacks 0).testBit t = true ↔ (t < 64 ∧ knightStep 0 t)) ∧
     (∀ t, (kingAttacks 0).testBit t = true ↔ (t < 64 ∧ kingStep 0 t))) :=
  ⟨by decide, C8_knight_king_attacks 0 (by decide)⟩

/-- C9: for every square `s` and occupancy `occ`, `rookAttacks s occ` contains `t` iff
`t ≠ s` lies on the rank or file of `s` and no square strictly between `s` and `t` is set
in `occ`; and the result is the same for any two occupancies that differ at most in the
bit of `s` itself. -/
theorem C9_rookAttacks_spec (s occ : Nat) (hs : s < 64) :
    (∀ t, (rookAttacks s occ).testBit t = true ↔ rookSees occ s t) ∧
    (∀ occ1, (∀ u, u ≠ s → occ1.testBit u = occ.testBit u) →
      rookAttacks s occ1 = rookAttacks s occ) := by
  refine ⟨fun t => testBit_rookAttacks s occ t hs, ?_⟩
  intro occ1 h
  apply Nat.eq_of_testBit_eq
  intro t
  rw [Bool.eq_iff_iff, testBit_rookAttacks s occ1 t hs, testBit_rookAttacks s occ t hs,
    clearBetween_congr occ occ1 s t h]

theorem C9_rookAttacks_spec_witness :
    (27 : Nat) < 64 ∧
    ((∀ t, (rookAttacks 27 (bit 29)).testBit t = true ↔ rookSees (bit 29) 27 t) ∧
     (∀ occ1, (∀ u, u ≠ 27 → occ1.testBit u = (bit 29).testBit u) →
       rookAttacks 27 occ1 = rookAttacks 27 (bit 29))) :=
  ⟨by decide, C9_rookAttacks_spec 27 (bit 29) (by decide)⟩

/-- C10: for every square `s` and occupancy `occ`, `bishopAttacks s occ` contains `t` iff
`t ≠ s` lies on a common diagonal with `s` and no square strictly between them on that
diagonal is set in `occ`; and `queenAttacks s occ = rookAttacks s occ ||| bishopAttacks s
occ`, so the queen's set is the union of the rook's and the bishop's. -/
theorem C10_bishop_queen_attacks_spec (s occ : Nat) (hs : s < 64) :
    (∀ t, (bishopAttacks s occ).testBit t = true ↔ bishopSees occ s t) ∧
    queenAttacks s occ = rookAttacks s occ ||| bishopAttacks s occ ∧
    (∀ t, (queenAttacks s occ).testBit t = true ↔ (rookSees occ s t ∨ bishopSees occ s t)) := by
  refine ⟨fun t => testBit_bishopAttacks s occ t hs, rfl, ?_⟩
  intro t
  unfold queenAttacks
  rw [Nat.testBit_or, Bool.or_eq_true, testBit_rookAttacks s occ t hs,
    testBit_bishopAttacks s occ t hs]
  rfl

theorem C10_bishop_queen_attacks_spec_witness :
    (27 : Nat) < 64 ∧
    ((∀ t, (bishopAttacks 27 (bit 45)).testBit t = true ↔ bishopSees (bit 45) 27 t) ∧
     queenAttacks 27 (bit 45) = rookAttacks 27 (bit 45) ||| bishopAttacks 27 (bit 45) ∧
     (∀ t, (queenAttacks 27 (bit 45)).testBit t = true ↔
       (rookSees (bit 45) 27 t ∨ bishopSees (bit 45) 27 t))) :=
  ⟨by decide, C10_bishop_queen_attacks_spec 27 (bit 45) (by decide)⟩

end Attacks

/-! ## Make and unmake -/

namespace Board

theorem reset_eq_new (b : Board) : b.reset = Board.new := rfl

theorem getLast?_append_singleton {α : Type} (l : List α) (a : α) :
    (l ++ [a]).getLast? = some a := by
  simp

theorem restore_snapshot (b c : Board) :
    ({ c.restore b.snapshot with stateStack_ := b.stateStack_, moveStack_ := b.moveStack_ } :
      Board) = b := by
  cases b
  rfl

/-- C1: for every board `b` (undo and move stacks included) and every move `m` whose
from-square holds a piece of the side to move, `makeMove(m)` followed by `unmakeMove()`
yields a board equal to `b` in every member. -/
theorem C1_unmakeMove_makeMove (b : Board) (m : Move) (_h : b.MovesOwnPiece m) :
    (b.makeMove m).unmakeMove = b := by
  have hs : (b.makeMove m).stateStack_ = b.stateStack_ ++ [b.snapshot] := rfl
  have hm : (b.makeMove m).moveStack_ = b.moveStack_ ++ [m] := rfl
  unfold unmakeMove
  rw [hs, hm, getLast?_append_singleton]
  simp only [ne_eq, List.append_eq_nil, List.cons_ne_self, and_false, not_false_eq_true,
    if_true, List.dropLast_concat]
  exact restore_snapshot b _

theorem C1_unmakeMove_makeMove_witness :
    Board.new.MovesOwnPiece (Move.mk2 12 28) ∧
      (Board.new.makeMove (Move.mk2 12 28)).unmakeMove = Board.new :=
  ⟨⟨.PAWN, by decide⟩, C1_unmakeMove_makeMove Board.new (Move.mk2 12 28) ⟨.PAWN, by decide⟩⟩

end Board

/-! ## The bitmap table -/

theorem Pieces.get_set (pcs : Pieces) (c c1 : Color) (p p1 : PieceType) (v : Nat) :
    (pcs.set c p v).get c1 p1 = if c1 = c ∧ p1 = p then v else pcs.get c1 p1 := by
  cases c <;> cases c1 <;> cases p <;> cases p1 <;> rfl

theorem Pieces.get_map (f : Nat → Nat) (pcs : Pieces) (c : Color) (p : PieceType) :
    (pcs.map f).get c p = f (pcs.get c p) := by
  cases c <;> cases p <;> rfl

theorem CastlingRights.get_clear (cr : CastlingRights) (c c1 : Color) (i i1 : Fin 2) :
    (cr.clear c i).get c1 i1 = if c1 = c ∧ i1 = i then false else cr.get c1 i1 := by
  cases c <;> cases c1 <;> fin_cases i <;> fin_cases i1 <;> rfl

theorem CastlingRights.get_clear_of_false (cr : CastlingRights) (c c1 : Color) (i i1 : Fin 2)
    (h : cr.get c1 i1 = false) : (cr.clear c i).get c1 i1 = false := by
  rw [CastlingRights.get_clear]
  split <;> simp [h]

theorem bit_lt (s : Nat) : bit s < 2 ^ 64 := Nat.mod_lt _ (by decide)

theorem and_not64_lt (x m : Nat) (h : x < 2 ^ 64) : x &&& not64 m < 2 ^ 64 :=
  Nat.lt_of_le_of_lt Nat.and_le_left h

theorem or_bit_lt (x s : Nat) (h : x < 2 ^ 64) : x ||| bit s < 2 ^ 64 :=
  Nat.or_lt_two_pow h (bit_lt s)

theorem Pieces.WF_set (pcs : Pieces) (c : Color) (p : PieceType) (v : Nat) (h : pcs.WF)
    (hv : v < 2 ^ 64) : (pcs.set c p v).WF := by
  intro c1 p1
  rw [Pieces.get_set]
  split
  · exact hv
  · exact h c1 p1

theorem Pieces.WF_map_clear (pcs : Pieces) (m : Nat) (h : pcs.WF) :
    (pcs.map (fun bb => bb &&& not64 m)).WF := by
  intro c p
  rw [Pieces.get_map]
  exact and_not64_lt _ _ (h c p)

namespace Board

theorem WF_stepMove (pcs : Pieces) (us : Color) (moved : Option Piece) (f t : Nat)
    (h : pcs.WF) : (stepMove pcs us moved f t).WF := by
  unfold stepMove
  cases moved with
  | none => exact h
  | some m =>
      have h1 := Pieces.WF_set pcs us m.type _ h (and_not64_lt _ (bit f) (h us m.type))
      exact Pieces.WF_set _ us m.type _ h1 (or_bit_lt _ t (h1 us m.type))

theorem WF_stepCapture (pcs : Pieces) (them : Color) (captured : Option Piece) (t : Nat)
    (h : pcs.WF) : (stepCapture pcs them captured t).WF := by
  unfold stepCapture
  cases captured with
  | none => exact h
  | some c => exact Pieces.WF_set pcs them c.type _ h (and_not64_lt _ (bit t) (h them c.type))

theorem WF_stepEnPassant (pcs : Pieces) (us : Color) (t ep : Nat) (h : pcs.WF) :
    (stepEnPassant pcs us t ep).WF := by
  unfold stepEnPassant
  split
  · exact Pieces.WF_set pcs _ _ _ h (and_not64_lt _ _ (h _ _))
  · exact h

theorem WF_stepPromotion (pcs : Pieces) (us : Color) (promotion : Option PieceType) (t : Nat)
    (h : pcs.WF) : (stepPromotion pcs us promotion t).WF := by
  unfold stepPromotion
  cases promotion with
  | none => exact h
  | some promo =>
      have h1 := Pieces.WF_set pcs us .PAWN _ h (and_not64_lt _ (bit t) (h us .PAWN))
      exact Pieces.WF_set _ us promo _ h1 (or_bit_lt _ t (h1 us promo))

theorem WF_stepCastle (pcs : Pieces) (us : Color) (f t : Nat) (h : pcs.WF) :
    (stepCastle pcs us f t).WF := by
  unfold stepCastle
  split
  · have h0 := Pieces.WF_map_clear pcs
      (bit (if decide (t > f) = true then f + 1 else f - 1)) h
    have h1 := Pieces.WF_set _ us .ROOK _ h0 (and_not64_lt _
      (bit (if decide (t > f) = true then f + 3 else f - 4)) (h0 us .ROOK))
    exact Pieces.WF_set _ us .ROOK _ h1 (or_bit_lt _ _ (h1 us .ROOK))
  · exact h

theorem WF_makeMovePieces (b : Board) (m : Move) (h : b.pieces_.WF) :
    (b.makeMovePieces m).WF := by
  unfold makeMovePieces
  have h2 := WF_stepCapture _ b.sideToMove_.other (b.pieceAt m.to_) m.to_
    (WF_stepMove b.pieces_ b.sideToMove_ (b.pieceAt m.from_) m.from_ m.to_ h)
  simp only []
  repeat' split
  all_goals
    first
    | exact h2
    | exact WF_stepCastle _ _ _ _ h2
    | exact WF_stepPromotion _ _ _ _ (WF_stepEnPassant _ _ _ _ h2)
    | exact WF_stepCastle _ _ _ _ (WF_stepPromotion _ _ _ _ (WF_stepEnPassant _ _ _ _ h2))

/-! ### Testing single moves -/

theorem mem_generateMoves_iff (b : Board) (m : Move) :
    m ∈ b.generateMoves ↔ b.isGenerated m = true := by
  unfold generateMoves isGenerated
  simp only [List.mem_filter, Bool.and_eq_true, decide_eq_true_eq]

theorem allGenerated_eq (b : Board) (ms : List Move) :
    Board.allGenerated b ms = Board.allGeneratedBy b ms := by
  induction ms generalizing b with
  | nil => rfl
  | cons m ms ih =>
      unfold Board.allGenerated Board.allGeneratedBy
      rw [ih]
      congr 1
      rw [Bool.eq_iff_iff, decide_eq_true_eq]
      exact mem_generateMoves_iff b m

theorem kingPawnMove_generated : Move.mk2 12 28 ∈ Board.new.generateMoves := by
  rw [mem_generateMoves_iff]
  decide!

/-! ### Castling rights and the legality filter -/

/-- C6: castling rights never increase: for every board and every move `m`, each of the
four `castlingRights_` flags that is false before `makeMove(m)` (or `makeNullMove()`) is
still false afterwards. -/
theorem C6_castling_rights_never_increase (b : Board) (m : Move) (c : Color) (i : Fin 2)
    (h : b.castlingRights_.get c i = false) :
    (b.makeMove m).castlingRights_.get c i = false ∧
      b.makeNullMove.castlingRights_.get c i = false := by
  refine ⟨?_, h⟩
  show (b.makeMoveCastling m).get c i = false
  unfold makeMoveCastling stepRookRights
  simp only []
  repeat' split
  all_goals simp [CastlingRights.get_clear, h]

theorem C6_castling_rights_never_increase_witness :
    afterKingMove.castlingRights_.get .WHITE 0 = false ∧
    ((afterKingMove.makeMove (Move.mk2 60 52)).castlingRights_.get .WHITE 0 = false ∧
      afterKingMove.makeNullMove.castlingRights_.get .WHITE 0 = false) :=
  ⟨by decide,
    C6_castling_rights_never_increase afterKingMove (Move.mk2 60 52) .WHITE 0 (by decide)⟩

/-- The legality filter of `generateMoves()`: after `makeMove(m)` of a returned move the
verdict of `isInCheck` for the side that moved is false. -/
theorem isInCheck_false_of_generated (b : Board) (m : Move)
    (hm : m ∈ b.generateMoves) : (b.makeMove m).isInCheck b.sideToMove_ = false := by
  unfold generateMoves at hm
  simp only [List.mem_filter, Bool.not_eq_true'] at hm
  exact hm.2

theorem isInCheck_false_after_e2e4 :
    Board.new.OneKingEach ∧ Move.mk2 12 28 ∈ Board.new.generateMoves ∧
      (Board.new.makeMove (Move.mk2 12 28)).isInCheck Board.new.sideToMove_ = false :=
  ⟨by decide, kingPawnMove_generated,
    isInCheck_false_of_generated Board.new (Move.mk2 12 28) kingPawnMove_generated⟩

/-- C5 (evaluation at the failing input): every move of 1. f3 g5 2. Kf2 g4 3. Kg3 a6 is
returned by `generateMoves()` for the position in which it is made, and in the position
reached each colour has exactly one king.  There `generateMoves()` returns the king move
g3-h3.  After `makeMove` of it the white king stands on h3 and the black pawn on g4
attacks h3: the bit of h3 is in the specification's pawn attack set, White is in check in
the specification's sense, and `generateMoves()` returns the capture g4xh3 of the king.
`isInCheck(WHITE)` is false all the same, because the bit of h3 is missing from
`pawnAttacks(BLACK, ...)`. -/
theorem C5_mover_left_in_check :
    Board.allGenerated Board.new (kingCaptureGame.take 6) = true ∧
    (Board.new.play (kingCaptureGame.take 6)).OneKingEach ∧
    (Board.new.play (kingCaptureGame.take 6)).sideToMove_ = .WHITE ∧
    Move.mk2 22 23 ∈ (Board.new.play (kingCaptureGame.take 6)).generateMoves ∧
    ((Board.new.play (kingCaptureGame.take 6)).makeMove (Move.mk2 22 23)).pieceAt 23 =
      some ⟨.KING, .WHITE⟩ ∧
    ((Board.new.play (kingCaptureGame.take 6)).makeMove (Move.mk2 22 23)).pieceAt 30 =
      some ⟨.PAWN, .BLACK⟩ ∧
    (pawnAttacksSpec .BLACK (((Board.new.play (kingCaptureGame.take 6)).makeMove
      (Move.mk2 22 23)).pieces_.get .BLACK .PAWN)).testBit 23 = true ∧
    ((Board.new.play (kingCaptureGame.take 6)).makeMove (Move.mk2 22 23)).isInCheckSpec
      .WHITE = true ∧
    Move.mk2 30 23 ∈
      ((Board.new.play (kingCaptureGame.take 6)).makeMove (Move.mk2 22 23)).generateMoves ∧
    (Attacks.pawnAttacks .BLACK (((Board.new.play (kingCaptureGame.take 6)).makeMove
      (Move.mk2 22 23)).pieces_.get .BLACK .PAWN)).testBit 23 = false ∧
    ((Board.new.play (kingCaptureGame.take 6)).makeMove (Move.mk2 22 23)).isInCheck
      .WHITE = false := by
  refine ⟨?_, by decide!, by decide!, ?_, by decide!, by decide!, by decide!, by decide!, ?_,
    by decide!, by decide!⟩
  · rw [allGenerated_eq]
    decide!
  · rw [mem_generateMoves_iff]
    decide!
  · rw [mem_generateMoves_iff]
    decide!

end Board

/-! ## Occupancy -/

theorem testBit_unionAll (pcs : Pieces) (sq : Nat) :
    (unionAll pcs).testBit sq = true ↔ ∃ c p, (pcs.get c p).testBit sq = true := by
  simp only [unionAll, allKinds, List.foldl, Nat.testBit_or, Nat.zero_testBit, Bool.or_eq_true,
    Bool.false_eq_true, false_or]
  constructor
  · intro h
    rcases h with ((((((((((h | h) | h) | h) | h) | h) | h) | h) | h) | h) | h) | h
    all_goals exact ⟨_, _, h⟩
  · rintro ⟨c, p, h⟩
    cases c <;> cases p <;> simp [h]

theorem testBit_unionOf (pcs : Pieces) (c : Color) (sq : Nat) :
    (unionOf pcs c).testBit sq = true ↔ ∃ p, (pcs.get c p).testBit sq = true := by
  simp only [unionOf, allTypes, List.foldl, Nat.testBit_or, Nat.zero_testBit, Bool.or_eq_true,
    Bool.false_eq_true, false_or]
  constructor
  · intro h
    rcases h with ((((h | h) | h) | h) | h) | h
    all_goals exact ⟨_, h⟩
  · rintro ⟨p, h⟩
    cases p <;> simp [h]

theorem testBit_of_WF (pcs : Pieces) (h : pcs.WF) (c : Color) (p : PieceType) (sq : Nat)
    (hb : (pcs.get c p).testBit sq = true) : sq < 64 := by
  by_contra hlt
  have h1 : pcs.get c p < 2 ^ sq :=
    Nat.lt_of_lt_of_le (h c p) (Nat.pow_le_pow_right (by decide) (by omega))
  rw [Nat.testBit_lt_two_pow h1] at hb
  exact Bool.false_ne_true hb

theorem unionAll_lt (pcs : Pieces) (h : pcs.WF) : unionAll pcs < 2 ^ 64 := by
  apply Nat.lt_pow_two_of_testBit
  intro i hi
  by_contra hb
  have hb1 : (unionAll pcs).testBit i = true := by simpa using hb
  obtain ⟨c, p, hcp⟩ := (testBit_unionAll pcs i).1 hb1
  have := testBit_of_WF pcs h c p i hcp
  omega

theorem and_not64_self (x : Nat) (h : x < 2 ^ 64) : x &&& not64 x = 0 := by
  apply Nat.eq_of_testBit_eq
  intro i
  rw [Nat.testBit_and, testBit_not64, Nat.zero_testBit]
  by_cases hi : i < 64
  · cases hx : x.testBit i <;> simp [hi]
  · have : x.testBit i = false :=
      Nat.testBit_lt_two_pow (Nat.lt_of_lt_of_le h (Nat.pow_le_pow_right (by decide) (by omega)))
    simp [this]

theorem or_not64_self (x : Nat) (h : x < 2 ^ 64) : x ||| not64 x = U64_MAX := by
  apply Nat.eq_of_testBit_eq
  intro i
  rw [Nat.testBit_or, testBit_not64, U64_MAX_eq, Nat.testBit_two_pow_sub_one]
  by_cases hi : i < 64
  · cases hx : x.testBit i <;> simp [hi]
  · have : x.testBit i = false :=
      Nat.testBit_lt_two_pow (Nat.lt_of_lt_of_le h (Nat.pow_le_pow_right (by decide) (by omega)))
    simp [this, hi]

namespace Board

theorem consistent_new : Board.new.Consistent := by
  refine ⟨?_, rfl, rfl⟩
  intro c p
  cases c <;> cases p <;> decide

theorem consistent_makeMove (b : Board) (m : Move) (h : b.pieces_.WF) :
    (b.makeMove m).Consistent :=
  ⟨WF_makeMovePieces b m h, rfl, rfl⟩

/-- C4: after `reset()`, and after every `makeMove`, `unmakeMove`, `makeNullMove` and
`unmakeNullMove` applied to a board that satisfies it (its undo frames included),
`occupied` equals the bitwise OR of the twelve piece bitmaps and `empty` equals the
bitwise complement of `occupied`; and whenever that holds, `occupied & empty = 0` and
`occupied | empty` is all 64 bits. -/
theorem C4_occupancy_consistent (b : Board) (m : Move) (hc : b.Consistent)
    (hf : b.FramesConsistent) :
    (b.reset.Consistent ∧ b.reset.FramesConsistent) ∧
    ((b.makeMove m).Consistent ∧ (b.makeMove m).FramesConsistent) ∧
    (b.unmakeMove.Consistent ∧ b.unmakeMove.FramesConsistent) ∧
    (b.makeNullMove.Consistent ∧ b.makeNullMove.FramesConsistent) ∧
    (b.unmakeNullMove.Consistent ∧ b.unmakeNullMove.FramesConsistent) ∧
    (∀ b1 : Board, b1.Consistent →
      b1.occupied_ &&& b1.empty_ = 0 ∧ b1.occupied_ ||| b1.empty_ = U64_MAX) := by
  have hpush : ∀ s ∈ b.stateStack_ ++ [b.snapshot],
      occupancyConsistent s.pieces s.occupied s.empty := by
    intro s hs
    rcases List.mem_append.1 hs with h | h
    · exact hf s h
    · have : s = b.snapshot := by simpa using h
      subst this
      exact hc
  refine ⟨⟨consistent_new, ?_⟩, ⟨consistent_makeMove b m hc.1, hpush⟩, ?_, ⟨hc, hpush⟩, ?_, ?_⟩
  · intro s hs
    exact absurd hs (List.not_mem_nil s)
  · unfold unmakeMove
    cases hl : b.stateStack_.getLast? with
    | none => exact ⟨hc, hf⟩
    | some state =>
        simp only []
        split
        · exact ⟨hf state (List.mem_of_getLast?_eq_some hl),
            fun s hs => hf s (List.mem_of_mem_dropLast hs)⟩
        · exact ⟨hc, hf⟩
  · unfold unmakeNullMove
    cases hl : b.stateStack_.getLast? with
    | none => exact ⟨hc, hf⟩
    | some state =>
        exact ⟨hf state (List.mem_of_getLast?_eq_some hl),
          fun s hs => hf s (List.mem_of_mem_dropLast hs)⟩
  · intro b1 h1
    obtain ⟨hw, ho, he⟩ := h1
    have hlt : b1.occupied_ < 2 ^ 64 := ho ▸ unionAll_lt _ hw
    rw [he]
    exact ⟨and_not64_self _ hlt, or_not64_self _ hlt⟩

theorem consistent_afterPawnMove : afterPawnMove.Consistent :=
  consistent_makeMove Board.new (Move.mk2 12 28) consistent_new.1

theorem framesConsistent_afterPawnMove : afterPawnMove.FramesConsistent := by
  intro s hs
  have h : s = Board.new.snapshot := by
    simpa [afterPawnMove, Board.play, makeMove, updateBitboards, Board.new, reset] using hs
  subst h
  exact consistent_new

theorem C4_occupancy_consistent_witness :
    afterPawnMove.Consistent ∧ afterPawnMove.FramesConsistent ∧
    ((afterPawnMove.reset.Consistent ∧ afterPawnMove.reset.FramesConsistent) ∧
    ((afterPawnMove.makeMove (Move.mk2 52 36)).Consistent ∧
      (afterPawnMove.makeMove (Move.mk2 52 36)).FramesConsistent) ∧
    (afterPawnMove.unmakeMove.Consistent ∧ afterPawnMove.unmakeMove.FramesConsistent) ∧
    (afterPawnMove.makeNullMove.Consistent ∧ afterPawnMove.makeNullMove.FramesConsistent) ∧
    (afterPawnMove.unmakeNullMove.Consistent ∧
      afterPawnMove.unmakeNullMove.FramesConsistent) ∧
    (∀ b1 : Board, b1.Consistent →
      b1.occupied_ &&& b1.empty_ = 0 ∧ b1.occupied_ ||| b1.empty_ = U64_MAX)) :=
  ⟨consistent_afterPawnMove, framesConsistent_afterPawnMove,
    C4_occupancy_consistent afterPawnMove (Move.mk2 52 36) consistent_afterPawnMove
      framesConsistent_afterPawnMove⟩

end Board

/-! ## `pieceAt` -/

theorem mem_allKinds (cp : Color × PieceType) : cp ∈ allKinds := by
  obtain ⟨c, p⟩ := cp
  cases c <;> cases p <;> decide

theorem anyBit_bit_eq_true (x s : Nat) : anyBit x (bit s) = true ↔ s < 64 ∧ x.testBit s = true := by
  rw [anyBit_bit]
  simp

theorem anyBit_bit_eq_false (x s : Nat) (hs : s < 64) :
    anyBit x (bit s) = false ↔ x.testBit s = false := by
  rw [anyBit_bit]
  simp [hs]

namespace Board

theorem pieceAt_some (b : Board) (sq : Nat) (pc : Piece) (h : b.pieceAt sq = some pc) :
    sq < 64 ∧ (b.pieces_.get pc.color pc.type).testBit sq = true := by
  unfold pieceAt at h
  split at h
  · exact absurd h (by simp)
  · simp only [Option.map_eq_some'] at h
    obtain ⟨cp, hf, rfl⟩ := h
    have := List.find?_some hf
    exact (anyBit_bit_eq_true _ _).1 this

theorem pieceAt_none (b : Board) (sq : Nat) (hs : sq < 64) (h : b.pieceAt sq = none)
    (c : Color) (p : PieceType) : (b.pieces_.get c p).testBit sq = false := by
  unfold pieceAt at h
  have hne : sq ≠ SQ_NONE := by unfold SQ_NONE; omega
  simp only [hne, if_false, Option.map_eq_none', List.find?_eq_none] at h
  have := h (c, p) (mem_allKinds _)
  simpa [anyBit_bit, hs] using this

theorem pieceAt_of_testBit (b : Board) (hd : b.pieces_.Disjoint) (sq : Nat) (hs : sq < 64)
    (c : Color) (p : PieceType) (h : (b.pieces_.get c p).testBit sq = true) :
    b.pieceAt sq = some ⟨p, c⟩ := by
  cases hp : b.pieceAt sq with
  | none =>
      have := pieceAt_none b sq hs hp c p
      rw [h] at this
      exact absurd this (by simp)
  | some pc =>
      obtain ⟨_, h2⟩ := pieceAt_some b sq pc hp
      obtain ⟨h3, h4⟩ := hd sq _ _ _ _ h2 h
      cases pc
      simp only at h3 h4
      subst h3 h4
      rfl

end Board

/-! ## The bitmaps after `makeMove` -/

theorem testBit_clearBit (x s i : Nat) :
    (x &&& not64 (bit s)).testBit i = (x.testBit i && (decide (i < 64) && !decide (s = i))) := by
  rw [Nat.testBit_and, testBit_not64, testBit_bit]
  by_cases h1 : i < 64 <;> by_cases h2 : s = i <;> simp [h1, h2]

theorem testBit_setBit (x s i : Nat) :
    (x ||| bit s).testBit i = (x.testBit i || (decide (i < 64) && decide (s = i))) := by
  rw [Nat.testBit_or, testBit_bit]

theorem Color.other_ne (c : Color) : c.other ≠ c := by
  cases c <;> decide

theorem Color.eq_other_of_ne (c d : Color) (h : d ≠ c) : d = c.other := by
  cases c <;> cases d <;> first | rfl | exact absurd rfl h

namespace Board

theorem testBit_afterCapture (b : Board) (hw : b.pieces_.WF) (hd : b.pieces_.Disjoint)
    (p : PieceType) (f t : Nat) (hf : f < 64) (ht : t < 64)
    (h1 : (b.pieces_.get b.sideToMove_ p).testBit f = true)
    (h2 : ∀ q, (b.pieces_.get b.sideToMove_ q).testBit t = false)
    (c : Color) (q : PieceType) (sq : Nat) :
    ((stepCapture (stepMove b.pieces_ b.sideToMove_ (b.pieceAt f) f t) b.sideToMove_.other
        (b.pieceAt t) t).get c q).testBit sq = true ↔
      ((c = b.sideToMove_ ∧ q = p ∧ sq = t) ∨
        ((b.pieces_.get c q).testBit sq = true ∧ sq ≠ t ∧
          ¬(c = b.sideToMove_ ∧ q = p ∧ sq = f))) := by
  have hsq : (b.pieces_.get c q).testBit sq = true → sq < 64 :=
    testBit_of_WF b.pieces_ hw c q sq
  rw [pieceAt_of_testBit b hd f hf _ p h1]
  cases hcap : b.pieceAt t with
  | none =>
      have hnone := pieceAt_none b t ht hcap
      simp only [stepCapture, stepMove, Pieces.get_set, and_self, if_true]
      by_cases hc : c = b.sideToMove_ ∧ q = p
      · obtain ⟨rfl, rfl⟩ := hc
        simp only [and_self, if_true, testBit_setBit, testBit_clearBit, Bool.or_eq_true,
          Bool.and_eq_true, decide_eq_true_eq, Bool.not_eq_true', decide_eq_false_iff_not,
          true_and]
        constructor
        · rintro (⟨h3, _, h5⟩ | ⟨_, h4⟩)
          · refine Or.inr ⟨h3, ?_, fun h => h5 h.symm⟩
            rintro rfl
            rw [h2] at h3
            exact absurd h3 (by simp)
          · exact Or.inl h4.symm
        · rintro (h3 | ⟨h3, h4, h5⟩)
          · exact Or.inr ⟨by omega, h3.symm⟩
          · exact Or.inl ⟨h3, hsq h3, fun h => h5 h.symm⟩
      · simp only [hc, if_false]
        constructor
        · intro h3
          refine Or.inr ⟨h3, ?_, fun h => hc ⟨h.1, h.2.1⟩⟩
          rintro rfl
          rw [hnone] at h3
          exact absurd h3 (by simp)
        · rintro (h | h)
          · exact absurd ⟨h.1, h.2.1⟩ hc
          · exact h.1
  | some pc =>
      obtain ⟨_, hpc⟩ := pieceAt_some b t pc hcap
      have hcol : pc.color = b.sideToMove_.other := by
        apply Color.eq_other_of_ne
        intro h
        rw [h, h2] at hpc
        exact absurd hpc (by simp)
      have hne : ¬(b.sideToMove_.other = b.sideToMove_) := Color.other_ne _
      simp only [stepCapture, stepMove, Pieces.get_set, and_self, if_true, hne, false_and,
        if_false]
      by_cases hc : c = b.sideToMove_ ∧ q = p
      · obtain ⟨rfl, rfl⟩ := hc
        have hne2 : ¬(b.sideToMove_ = b.sideToMove_.other) := fun h => hne h.symm
        simp only [and_self, if_true, hne2, false_and, if_false, testBit_setBit,
          testBit_clearBit, Bool.or_eq_true, Bool.and_eq_true, decide_eq_true_eq,
          Bool.not_eq_true', decide_eq_false_iff_not, true_and]
        constructor
        · rintro (⟨h3, _, h5⟩ | ⟨_, h4⟩)
          · refine Or.inr ⟨h3, ?_, fun h => h5 h.symm⟩
            rintro rfl
            rw [h2] at h3
            exact absurd h3 (by simp)
          · exact Or.inl h4.symm
        · rintro (h3 | ⟨h3, h4, h5⟩)
          · exact Or.inr ⟨by omega, h3.symm⟩
          · exact Or.inl ⟨h3, hsq h3, fun h => h5 h.symm⟩
      · simp only [hc, if_false]
        by_cases hc2 : c = b.sideToMove_.other ∧ q = pc.type
        · obtain ⟨rfl, rfl⟩ := hc2
          simp only [and_self, if_true, testBit_clearBit, Bool.and_eq_true, decide_eq_true_eq,
            Bool.not_eq_true', decide_eq_false_iff_not]
          constructor
          · rintro ⟨h3, _, h5⟩
            exact Or.inr ⟨h3, fun h => h5 h.symm, fun h => hc ⟨h.1, h.2.1⟩⟩
          · rintro (h | ⟨h3, h4, _⟩)
            · exact absurd ⟨h.1, h.2.1⟩ hc
            · exact ⟨h3, hsq h3, fun h => h4 h.symm⟩
        · simp only [hc2, if_false]
          constructor
          · intro h3
            refine Or.inr ⟨h3, ?_, fun h => hc ⟨h.1, h.2.1⟩⟩
            rintro rfl
            obtain ⟨h5, h6⟩ := hd sq _ _ _ _ h3 hpc
            exact hc2 ⟨h5.trans hcol, h6⟩
          · rintro (h | h)
            · exact absurd ⟨h.1, h.2.1⟩ hc
            · exact h.1

end Board

/-! ## Disjointness through the steps of `makeMove` -/

theorem Pieces.Disjoint_mono (pcs pcs1 : Pieces)
    (h : ∀ c q sq, (pcs1.get c q).testBit sq = true → (pcs.get c q).testBit sq = true)
    (hd : pcs.Disjoint) : pcs1.Disjoint :=
  fun sq c1 p1 c2 p2 h1 h2 => hd sq c1 p1 c2 p2 (h _ _ _ h1) (h _ _ _ h2)

theorem Pieces.testBit_set_clear (pcs : Pieces) (c : Color) (p : PieceType) (s : Nat)
    (c1 : Color) (q : PieceType) (sq : Nat)
    (h : ((pcs.set c p (pcs.get c p &&& not64 (bit s))).get c1 q).testBit sq = true) :
    (pcs.get c1 q).testBit sq = true := by
  rw [Pieces.get_set] at h
  split at h
  · rename_i hc
    obtain ⟨rfl, rfl⟩ := hc
    rw [testBit_clearBit] at h
    simp only [Bool.and_eq_true] at h
    exact h.1
  · exact h

/-- Setting the bit of a square no other bitmap holds keeps the bitmaps disjoint. -/
theorem Pieces.Disjoint_set_bit (pcs : Pieces) (c : Color) (p : PieceType) (t : Nat)
    (hd : pcs.Disjoint)
    (h : ∀ c1 q, (pcs.get c1 q).testBit t = true → c1 = c ∧ q = p) :
    (pcs.set c p (pcs.get c p ||| bit t)).Disjoint := by
  have key : ∀ c1 q sq, ((pcs.set c p (pcs.get c p ||| bit t)).get c1 q).testBit sq = true →
      (pcs.get c1 q).testBit sq = true ∨ (c1 = c ∧ q = p ∧ sq = t) := by
    intro c1 q sq hb
    rw [Pieces.get_set] at hb
    split at hb
    · rename_i hc
      rw [testBit_setBit] at hb
      simp only [Bool.or_eq_true, Bool.and_eq_true, decide_eq_true_eq] at hb
      rcases hb with hb | hb
      · obtain ⟨rfl, rfl⟩ := hc
        exact Or.inl hb
      · exact Or.inr ⟨hc.1, hc.2, hb.2.symm⟩
    · exact Or.inl hb
  intro sq c1 p1 c2 p2 h1 h2
  rcases key _ _ _ h1 with a | ⟨rfl, rfl, rfl⟩
  · rcases key _ _ _ h2 with a2 | ⟨rfl, rfl, rfl⟩
    · exact hd sq _ _ _ _ a a2
    · exact h _ _ a
  · rcases key _ _ _ h2 with a2 | ⟨rfl, rfl, _⟩
    · obtain ⟨rfl, rfl⟩ := h _ _ a2
      exact ⟨rfl, rfl⟩
    · exact ⟨rfl, rfl⟩

namespace Board

theorem testBit_stepEnPassant (pcs : Pieces) (us : Color) (t ep : Nat) (c : Color)
    (q : PieceType) (sq : Nat) (h : ((stepEnPassant pcs us t ep).get c q).testBit sq = true) :
    (pcs.get c q).testBit sq = true := by
  unfold stepEnPassant at h
  split at h
  · exact Pieces.testBit_set_clear _ _ _ _ _ _ _ h
  · exact h

theorem disjoint_stepPromotion (pcs : Pieces) (us : Color) (promotion : Option PieceType)
    (t : Nat) (hd : pcs.Disjoint)
    (h : ∀ c q, (pcs.get c q).testBit t = true → c = us ∧ q = .PAWN) :
    (stepPromotion pcs us promotion t).Disjoint := by
  unfold stepPromotion
  cases promotion with
  | none => exact hd
  | some promo =>
      simp only []
      apply Pieces.Disjoint_set_bit
      · exact Pieces.Disjoint_mono pcs _ (Pieces.testBit_set_clear pcs us .PAWN t) hd
      · intro c1 q hb
        rw [Pieces.get_set] at hb
        split at hb
        · rw [testBit_clearBit] at hb
          simp at hb
        · rename_i hc
          exact absurd (h _ _ hb) hc

theorem disjoint_stepCastle (pcs : Pieces) (us : Color) (f t : Nat) (hd : pcs.Disjoint) :
    (stepCastle pcs us f t).Disjoint := by
  unfold stepCastle
  split
  · simp only []
    have hsub : ∀ c q sq,
        ((pcs.map (fun bb => bb &&& not64 (bit (if decide (t > f) = true then f + 1 else f - 1)))).get
          c q).testBit sq = true → (pcs.get c q).testBit sq = true := by
      intro c q sq hb
      rw [Pieces.get_map, testBit_clearBit] at hb
      simp only [Bool.and_eq_true] at hb
      exact hb.1
    apply Pieces.Disjoint_set_bit
    · exact Pieces.Disjoint_mono _ _ (Pieces.testBit_set_clear _ us .ROOK _)
        (Pieces.Disjoint_mono pcs _ hsub hd)
    · intro c1 q hb
      have hb2 := Pieces.testBit_set_clear _ _ _ _ _ _ _ hb
      rw [Pieces.get_map, testBit_clearBit] at hb2
      simp at hb2
  · exact hd

/-- The bitmaps stay pairwise disjoint through `makeMove` for a move that takes a piece of
the side to move to a square holding no piece of that side. -/
theorem disjoint_makeMovePieces (b : Board) (m : Move) (hw : b.pieces_.WF)
    (hd : b.pieces_.Disjoint) (p : PieceType) (hf : m.from_ < 64) (ht : m.to_ < 64)
    (h1 : (b.pieces_.get b.sideToMove_ p).testBit m.from_ = true)
    (h2 : ∀ q, (b.pieces_.get b.sideToMove_ q).testBit m.to_ = false) :
    (b.makeMovePieces m).Disjoint := by
  have hpa := pieceAt_of_testBit b hd m.from_ hf _ p h1
  have hcap := testBit_afterCapture b hw hd p m.from_ m.to_ hf ht h1 h2
  rw [hpa] at hcap
  unfold makeMovePieces
  simp only [hpa, Option.map_some', Option.some.injEq]
  generalize stepCapture (stepMove b.pieces_ b.sideToMove_
    (some { type := p, color := b.sideToMove_ }) m.from_ m.to_) b.sideToMove_.other
    (b.pieceAt m.to_) m.to_ = pcs2 at hcap ⊢
  have hd2 : pcs2.Disjoint := by
    intro sq c1 p1 c2 p2 a1 a2
    rcases (hcap _ _ _).1 a1 with ⟨rfl, rfl, rfl⟩ | ⟨b1, n1, _⟩
    · rcases (hcap _ _ _).1 a2 with ⟨rfl, rfl, _⟩ | ⟨_, n2, _⟩
      · exact ⟨rfl, rfl⟩
      · exact absurd rfl n2
    · rcases (hcap _ _ _).1 a2 with ⟨rfl, rfl, rfl⟩ | ⟨b2, _, _⟩
      · exact absurd rfl n1
      · exact hd sq _ _ _ _ b1 b2
  have honly : ∀ c q, (pcs2.get c q).testBit m.to_ = true → c = b.sideToMove_ ∧ q = p := by
    intro c q a
    rcases (hcap _ _ _).1 a with ⟨rfl, rfl, _⟩ | ⟨_, n, _⟩
    · exact ⟨rfl, rfl⟩
    · exact absurd rfl n
  by_cases hp : p = .PAWN
  · subst hp
    simp only [if_true, reduceCtorEq, if_false]
    apply disjoint_stepPromotion
    · exact Pieces.Disjoint_mono _ _ (testBit_stepEnPassant _ _ _ _) hd2
    · intro c q a
      exact honly c q (testBit_stepEnPassant _ _ _ _ _ _ _ a)
  · simp only [hp, if_false]
    split
    · exact disjoint_stepCastle _ _ _ _ hd2
    · exact hd2

end Board

/-! ## Pseudo-legal moves -/

theorem mem_squaresOf (x s : Nat) : s ∈ squaresOf x ↔ s < 64 ∧ x.testBit s = true := by
  simp [squaresOf, List.mem_filter]

theorem lsbIndex_spec (x : Nat) (h0 : x ≠ 0) (hx : x < 2 ^ 64) :
    lsbIndex x < 64 ∧ x.testBit (lsbIndex x) = true := by
  obtain ⟨i, hi⟩ := (ne_zero_iff_testBit x).1 h0
  have hi64 : i < 64 := by
    by_contra hlt
    have h1 : x < 2 ^ i := Nat.lt_of_lt_of_le hx (Nat.pow_le_pow_right (by decide) (by omega))
    rw [Nat.testBit_lt_two_pow h1] at hi
    exact Bool.false_ne_true hi
  have hmem : i ∈ squaresOf x := (mem_squaresOf x i).2 ⟨hi64, hi⟩
  unfold lsbIndex
  cases hl : squaresOf x with
  | nil => rw [hl] at hmem; exact absurd hmem (List.not_mem_nil i)
  | cons a l =>
      have : a ∈ squaresOf x := by rw [hl]; exact List.mem_cons_self a l
      exact (mem_squaresOf x a).1 this

namespace Board

theorem mem_pawnTarget (f t : Nat) (last : Bool) (m : Move) (h : m ∈ pawnTarget f t last) :
    m.from_ = f ∧ m.to_ = t := by
  unfold pawnTarget promoKinds at h
  split at h
  · simp only [List.map_cons, List.map_nil, List.mem_cons, List.mem_singleton,
      List.not_mem_nil, or_false] at h
    rcases h with rfl | rfl | rfl | rfl <;> exact ⟨rfl, rfl⟩
  · simp only [List.mem_singleton] at h
    subst h
    exact ⟨rfl, rfl⟩

/-- What a move of the white pawn loop is: a push onto an empty square (for the double
push also over one), or a diagonal step onto an enemy piece or the en-passant target. -/
theorem mem_whitePawnMoves (emptySq enemy ep f : Nat) (m : Move)
    (h : m ∈ whitePawnMoves emptySq enemy ep f) :
    m.from_ = f ∧ m.to_ < 64 ∧
      ((emptySq.testBit m.to_ = true ∧
          (absDiff m.to_ f = 16 → emptySq.testBit ((f + m.to_) / 2) = true)) ∨
        (absDiff m.to_ f ≠ 16 ∧ (enemy.testBit m.to_ = true ∨ m.to_ = ep))) := by
  unfold whitePawnMoves at h
  simp only [List.mem_append] at h
  rcases h with (h | h) | h
  · split at h
    · rename_i hc
      obtain ⟨hc1, hc2⟩ := hc
      have hc3 := ((anyBit_bit_eq_true _ _).1 hc2).2
      split at h
      · obtain ⟨rfl, h2⟩ := mem_pawnTarget _ _ _ _ h
        refine ⟨rfl, by omega, Or.inl ⟨h2 ▸ hc3, ?_⟩⟩
        intro h16
        unfold absDiff at h16
        omega
      · simp only [List.mem_cons] at h
        rcases h with rfl | h
        · refine ⟨rfl, hc1, Or.inl ⟨hc3, ?_⟩⟩
          intro h16
          simp only [Move.mk2, absDiff] at h16
          omega
        · split at h
          · split at h
            · rename_i hc4
              simp only [List.mem_singleton] at h
              subst h
              refine ⟨rfl, ?_, Or.inl ⟨((anyBit_bit_eq_true _ _).1 hc4).2, ?_⟩⟩
              · simp only [Move.mk2]; omega
              · intro _
                have e : (f + (f + 16)) / 2 = f + 8 := by omega
                show emptySq.testBit ((f + (f + 16)) / 2) = true
                rw [e]
                exact hc3
            · exact absurd h (List.not_mem_nil m)
          · exact absurd h (List.not_mem_nil m)
    · exact absurd h (List.not_mem_nil m)
  · split at h
    · split at h
      · rename_i hc
        obtain ⟨rfl, h2⟩ := mem_pawnTarget _ _ _ _ h
        refine ⟨rfl, h2 ▸ hc.1, Or.inr ⟨?_, ?_⟩⟩
        · unfold absDiff; omega
        · rcases hc.2 with h3 | h3
          · exact Or.inl (h2 ▸ ((anyBit_bit_eq_true _ _).1 h3).2)
          · exact Or.inr (h2 ▸ h3)
      · exact absurd h (List.not_mem_nil m)
    · exact absurd h (List.not_mem_nil m)
  · split at h
    · split at h
      · rename_i hc
        obtain ⟨rfl, h2⟩ := mem_pawnTarget _ _ _ _ h
        refine ⟨rfl, h2 ▸ hc.1, Or.inr ⟨?_, ?_⟩⟩
        · unfold absDiff; omega
        · rcases hc.2 with h3 | h3
          · exact Or.inl (h2 ▸ ((anyBit_bit_eq_true _ _).1 h3).2)
          · exact Or.inr (h2 ▸ h3)
      · exact absurd h (List.not_mem_nil m)
    · exact absurd h (List.not_mem_nil m)

/-- What a move of the black pawn loop is, as for White with the steps downwards. -/
theorem mem_blackPawnMoves (emptySq enemy ep f : Nat) (hf : f < 64) (m : Move)
    (h : m ∈ blackPawnMoves emptySq enemy ep f) :
    m.from_ = f ∧ m.to_ < 64 ∧
      ((emptySq.testBit m.to_ = true ∧
          (absDiff m.to_ f = 16 → emptySq.testBit ((f + m.to_) / 2) = true)) ∨
        (absDiff m.to_ f ≠ 16 ∧ (enemy.testBit m.to_ = true ∨ m.to_ = ep))) := by
  unfold blackPawnMoves at h
  simp only [List.mem_append] at h
  rcases h with (h | h) | h
  · split at h
    · rename_i hc
      obtain ⟨hc1, hc2⟩ := hc
      have hc3 := ((anyBit_bit_eq_true _ _).1 hc2).2
      split at h
      · obtain ⟨rfl, h2⟩ := mem_pawnTarget _ _ _ _ h
        refine ⟨rfl, by omega, Or.inl ⟨h2 ▸ hc3, ?_⟩⟩
        intro h16
        unfold absDiff at h16
        omega
      · simp only [List.mem_cons] at h
        rcases h with rfl | h
        · refine ⟨rfl, ?_, Or.inl ⟨hc3, ?_⟩⟩
          · simp only [Move.mk2]; omega
          · intro h16
            simp only [Move.mk2, absDiff] at h16
            omega
        · split at h
          · split at h
            · rename_i hc4
              simp only [List.mem_singleton] at h
              subst h
              refine ⟨rfl, ?_, Or.inl ⟨((anyBit_bit_eq_true _ _).1 hc4).2, ?_⟩⟩
              · simp only [Move.mk2]; omega
              · intro _
                have e : (f + (f - 16)) / 2 = f - 8 := by omega
                show emptySq.testBit ((f + (f - 16)) / 2) = true
                rw [e]
                exact hc3
            · exact absurd h (List.not_mem_nil m)
          · exact absurd h (List.not_mem_nil m)
    · exact absurd h (List.not_mem_nil m)
  · split at h
    · split at h
      · rename_i hc
        obtain ⟨rfl, h2⟩ := mem_pawnTarget _ _ _ _ h
        refine ⟨rfl, by omega, Or.inr ⟨?_, ?_⟩⟩
        · unfold absDiff; omega
        · rcases hc.2 with h3 | h3
          · exact Or.inl (h2 ▸ ((anyBit_bit_eq_true _ _).1 h3).2)
          · exact Or.inr (h2 ▸ h3)
      · exact absurd h (List.not_mem_nil m)
    · exact absurd h (List.not_mem_nil m)
  · split at h
    · split at h
      · rename_i hc
        obtain ⟨rfl, h2⟩ := mem_pawnTarget _ _ _ _ h
        refine ⟨rfl, by omega, Or.inr ⟨?_, ?_⟩⟩
        · unfold absDiff; omega
        · rcases hc.2 with h3 | h3
          · exact Or.inl (h2 ▸ ((anyBit_bit_eq_true _ _).1 h3).2)
          · exact Or.inr (h2 ▸ h3)
      · exact absurd h (List.not_mem_nil m)
    · exact absurd h (List.not_mem_nil m)

theorem mem_pieceMoves (bb : Nat) (attacks : Nat → Nat) (targets : Nat) (m : Move)
    (h : m ∈ pieceMoves bb attacks targets) :
    m.from_ < 64 ∧ bb.testBit m.from_ = true ∧ m.to_ < 64 ∧
      (attacks m.from_).testBit m.to_ = true ∧ targets.testBit m.to_ = true := by
  unfold pieceMoves at h
  simp only [List.mem_flatMap, List.mem_map] at h
  obtain ⟨f, hf, t, ht, rfl⟩ := h
  rw [mem_squaresOf] at hf ht
  rw [Nat.testBit_and, Bool.and_eq_true] at ht
  exact ⟨hf.1, hf.2, ht.1, ht.2.1, ht.2.2⟩

theorem free_of_empty (b : Board) (hc : b.Consistent) (t : Nat) (ht : t < 64)
    (h : b.empty_.testBit t = true) (c : Color) (q : PieceType) :
    (b.pieces_.get c q).testBit t = false := by
  obtain ⟨_, ho, he⟩ := hc
  rw [he, testBit_not64, ho] at h
  simp only [ht, decide_True, Bool.true_xor, Bool.not_eq_true'] at h
  by_contra hb
  have hb1 : (b.pieces_.get c q).testBit t = true := by simpa using hb
  have := (testBit_unionAll b.pieces_ t).2 ⟨c, q, hb1⟩
  rw [h] at this
  exact Bool.false_ne_true this

theorem notUs_of_enemy (b : Board) (hd : b.pieces_.Disjoint) (t : Nat)
    (h : (unionOf b.pieces_ b.sideToMove_.other).testBit t = true) (q : PieceType) :
    (b.pieces_.get b.sideToMove_ q).testBit t = false := by
  obtain ⟨p, hp⟩ := (testBit_unionOf _ _ _).1 h
  by_contra hb
  have hb1 : (b.pieces_.get b.sideToMove_ q).testBit t = true := by simpa using hb
  exact Color.other_ne _ (hd t _ _ _ _ hp hb1).1

theorem notUs_of_target (b : Board) (hc : b.Consistent) (hd : b.pieces_.Disjoint) (t : Nat)
    (ht : t < 64)
    (h : (b.empty_ ||| unionOf b.pieces_ b.sideToMove_.other).testBit t = true)
    (q : PieceType) : (b.pieces_.get b.sideToMove_ q).testBit t = false := by
  rw [Nat.testBit_or, Bool.or_eq_true] at h
  rcases h with h | h
  · exact free_of_empty b hc t ht h _ _
  · exact notUs_of_enemy b hd t h q

theorem free_of_not_occupied (b : Board) (hc : b.Consistent) (t : Nat) (ht : t < 64)
    (h : anyBit b.occupied_ (bit t) = false) (c : Color) (q : PieceType) :
    (b.pieces_.get c q).testBit t = false := by
  rw [anyBit_bit_eq_false _ _ ht, hc.2.1] at h
  by_contra hb
  have hb1 : (b.pieces_.get c q).testBit t = true := by simpa using hb
  have := (testBit_unionAll b.pieces_ t).2 ⟨c, q, hb1⟩
  rw [h] at this
  exact Bool.false_ne_true this

theorem not_pawn_of (b : Board) (hd : b.pieces_.Disjoint) (f : Nat) (p : PieceType)
    (hp : p ≠ .PAWN) (h : (b.pieces_.get b.sideToMove_ p).testBit f = true) :
    ¬((b.pieces_.get b.sideToMove_ .PAWN).testBit f = true) :=
  fun h2 => hp (hd f _ _ _ _ h h2).2

/-- A pseudo-legal move takes a piece of the side to move from a square of the board to a
square of the board that holds no piece of that side; a two-square pawn move passes over
an empty square. -/
theorem pseudoLegal_facts (b : Board) (hc : b.Consistent) (hd : b.pieces_.Disjoint)
    (hk : b.KingsPresent) (hep : b.EpTargetFree) (m : Move) (hm : m ∈ b.pseudoLegalMoves) :
    m.from_ < 64 ∧ m.to_ < 64 ∧
      (∃ p, (b.pieces_.get b.sideToMove_ p).testBit m.from_ = true) ∧
      (∀ q, (b.pieces_.get b.sideToMove_ q).testBit m.to_ = false) ∧
      ((b.pieces_.get b.sideToMove_ .PAWN).testBit m.from_ = true →
        absDiff m.to_ m.from_ = 16 →
        ∀ c q, (b.pieces_.get c q).testBit ((m.from_ + m.to_) / 2) = false) := by
  have hking : lsbIndex (b.pieces_.get b.sideToMove_ .KING) < 64 ∧
      (b.pieces_.get b.sideToMove_ .KING).testBit
        (lsbIndex (b.pieces_.get b.sideToMove_ .KING)) = true := by
    apply lsbIndex_spec _ _ (hc.1 _ _)
    cases hs : b.sideToMove_
    · exact hk.1
    · exact hk.2
  have piece : ∀ (p : PieceType) (attacks : Nat → Nat), p ≠ .PAWN →
      m ∈ pieceMoves (b.pieces_.get b.sideToMove_ p) attacks
        (b.empty_ ||| unionOf b.pieces_ b.sideToMove_.other) →
      m.from_ < 64 ∧ m.to_ < 64 ∧
      (∃ p, (b.pieces_.get b.sideToMove_ p).testBit m.from_ = true) ∧
      (∀ q, (b.pieces_.get b.sideToMove_ q).testBit m.to_ = false) ∧
      ((b.pieces_.get b.sideToMove_ .PAWN).testBit m.from_ = true →
        absDiff m.to_ m.from_ = 16 →
        ∀ c q, (b.pieces_.get c q).testBit ((m.from_ + m.to_) / 2) = false) := by
    intro p attacks hp h
    obtain ⟨h1, h2, h3, _, h5⟩ := mem_pieceMoves _ _ _ _ h
    exact ⟨h1, h3, ⟨p, h2⟩, notUs_of_target b hc hd _ h3 h5,
      fun h6 => absurd h6 (not_pawn_of b hd _ p hp h2)⟩
  have pawn : ∀ f, f < 64 → (b.pieces_.get b.sideToMove_ .PAWN).testBit f = true →
      (m.from_ = f ∧ m.to_ < 64 ∧
        ((b.empty_.testBit m.to_ = true ∧
            (absDiff m.to_ f = 16 → b.empty_.testBit ((f + m.to_) / 2) = true)) ∨
          (absDiff m.to_ f ≠ 16 ∧
            ((unionOf b.pieces_ b.sideToMove_.other).testBit m.to_ = true ∨
              m.to_ = b.enPassant_)))) →
      m.from_ < 64 ∧ m.to_ < 64 ∧
      (∃ p, (b.pieces_.get b.sideToMove_ p).testBit m.from_ = true) ∧
      (∀ q, (b.pieces_.get b.sideToMove_ q).testBit m.to_ = false) ∧
      ((b.pieces_.get b.sideToMove_ .PAWN).testBit m.from_ = true →
        absDiff m.to_ m.from_ = 16 →
        ∀ c q, (b.pieces_.get c q).testBit ((m.from_ + m.to_) / 2) = false) := by
    rintro f hf hpf ⟨rfl, ht, h⟩
    refine ⟨hf, ht, ⟨.PAWN, hpf⟩, ?_, ?_⟩
    · rcases h with ⟨h1, _⟩ | ⟨_, h1 | h1⟩
      · exact fun q => free_of_empty b hc _ ht h1 _ q
      · exact notUs_of_enemy b hd _ h1
      · intro q
        rw [h1]
        exact hep q
    · intro _ h16
      rcases h with ⟨_, h2⟩ | ⟨h2, _⟩
      · have hmid : (m.from_ + m.to_) / 2 < 64 := by omega
        exact free_of_empty b hc _ hmid (h2 h16)
      · exact absurd h16 h2
  unfold pseudoLegalMoves at hm
  simp only [List.mem_append] at hm
  rcases hm with ((((((hm | hm) | hm) | hm) | hm) | hm) | hm) | hm
  · simp only [List.mem_flatMap] at hm
    obtain ⟨f, hf, hm⟩ := hm
    rw [mem_squaresOf] at hf
    split at hm
    · exact pawn f hf.1 hf.2 (mem_whitePawnMoves _ _ _ _ _ hm)
    · exact pawn f hf.1 hf.2 (mem_blackPawnMoves _ _ _ _ hf.1 _ hm)
  · exact piece .KNIGHT _ (by decide) hm
  · exact piece .BISHOP _ (by decide) hm
  · exact piece .ROOK _ (by decide) hm
  · exact piece .QUEEN _ (by decide) hm
  · simp only [List.mem_map] at hm
    obtain ⟨t, ht, rfl⟩ := hm
    rw [mem_squaresOf, Nat.testBit_and, Bool.and_eq_true] at ht
    exact ⟨hking.1, ht.1, ⟨.KING, hking.2⟩, notUs_of_target b hc hd _ ht.1 ht.2.2,
      fun h6 => absurd h6 (not_pawn_of b hd _ .KING (by decide) hking.2)⟩
  · rw [List.mem_ite_nil_right, List.mem_singleton] at hm
    obtain ⟨⟨_, h2, _, h4, _, _⟩, rfl⟩ := hm
    have hlt : lsbIndex (b.pieces_.get b.sideToMove_ .KING) + 2 < 64 := by
      split at h2 <;> omega
    exact ⟨hking.1, hlt, ⟨.KING, hking.2⟩,
      fun q => free_of_not_occupied b hc _ hlt h4 _ q,
      fun h6 => absurd h6 (not_pawn_of b hd _ .KING (by decide) hking.2)⟩
  · rw [List.mem_ite_nil_right, List.mem_singleton] at hm
    obtain ⟨⟨_, h2, _, h4, _, _, _⟩, rfl⟩ := hm
    have hlt : lsbIndex (b.pieces_.get b.sideToMove_ .KING) - 2 < 64 := by
      split at h2 <;> omega
    exact ⟨hking.1, hlt, ⟨.KING, hking.2⟩,
      fun q => free_of_not_occupied b hc _ hlt h4 _ q,
      fun h6 => absurd h6 (not_pawn_of b hd _ .KING (by decide) hking.2)⟩

end Board

/-! ## The invariant along play -/

theorem Pieces.disjoint_of_disjointB (pcs : Pieces) (h : pcs.disjointB = true) :
    pcs.Disjoint := by
  intro sq c1 p1 c2 p2 h1 h2
  unfold Pieces.disjointB at h
  rw [List.all_eq_true] at h
  have h3 := h (c1, p1) (mem_allKinds _)
  rw [List.all_eq_true] at h3
  have h4 := h3 (c2, p2) (mem_allKinds _)
  simp only [Bool.or_eq_true, decide_eq_true_eq, beq_iff_eq, Prod.mk.injEq] at h4
  rcases h4 with h4 | h4
  · exact h4
  · have h5 : (pcs.get c1 p1 &&& pcs.get c2 p2).testBit sq = true := by
      rw [Nat.testBit_and, h1, h2]
      rfl
    rw [h4] at h5
    simp at h5

theorem Pieces.testBit_none_of_WF (pcs : Pieces) (h : pcs.WF) (c : Color) (p : PieceType) :
    (pcs.get c p).testBit SQ_NONE = false := by
  by_contra hb
  have hb1 : (pcs.get c p).testBit SQ_NONE = true := by simpa using hb
  have := testBit_of_WF pcs h c p SQ_NONE hb1
  unfold SQ_NONE at this
  omega

namespace Board

theorem stepMove_other (pcs : Pieces) (us : Color) (moved : Option Piece) (f t : Nat)
    (q : PieceType) : (stepMove pcs us moved f t).get us.other q = pcs.get us.other q := by
  unfold stepMove
  cases moved with
  | none => rfl
  | some m => simp [Pieces.get_set, Color.other_ne]

theorem stepPromotion_other (pcs : Pieces) (us : Color) (promotion : Option PieceType)
    (t : Nat) (q : PieceType) :
    (stepPromotion pcs us promotion t).get us.other q = pcs.get us.other q := by
  unfold stepPromotion
  cases promotion with
  | none => rfl
  | some m => simp [Pieces.get_set, Color.other_ne]

theorem testBit_stepCapture (pcs : Pieces) (them : Color) (captured : Option Piece) (t : Nat)
    (c : Color) (q : PieceType) (sq : Nat)
    (h : ((stepCapture pcs them captured t).get c q).testBit sq = true) :
    (pcs.get c q).testBit sq = true := by
  unfold stepCapture at h
  cases captured with
  | none => exact h
  | some pc => exact Pieces.testBit_set_clear _ _ _ _ _ _ _ h

theorem testBit_stepCastle_other (pcs : Pieces) (us : Color) (f t : Nat) (q : PieceType)
    (sq : Nat) (h : ((stepCastle pcs us f t).get us.other q).testBit sq = true) :
    (pcs.get us.other q).testBit sq = true := by
  unfold stepCastle at h
  split at h
  · simp only [Pieces.get_set, Color.other_ne, false_and, if_false, Pieces.get_map,
      testBit_clearBit, Bool.and_eq_true] at h
    exact h.1
  · exact h

/-- The move `makeMove` sets no bit in a bitmap of the side that does not move. -/
theorem testBit_makeMovePieces_other (b : Board) (m : Move) (q : PieceType) (sq : Nat)
    (h : ((b.makeMovePieces m).get b.sideToMove_.other q).testBit sq = true) :
    (b.pieces_.get b.sideToMove_.other q).testBit sq = true := by
  have base : ∀ sq, ((stepCapture (stepMove b.pieces_ b.sideToMove_ (b.pieceAt m.from_)
      m.from_ m.to_) b.sideToMove_.other (b.pieceAt m.to_) m.to_).get b.sideToMove_.other
      q).testBit sq = true → (b.pieces_.get b.sideToMove_.other q).testBit sq = true := by
    intro sq hb
    have := testBit_stepCapture _ _ _ _ _ _ _ hb
    rwa [stepMove_other] at this
  unfold makeMovePieces at h
  simp only [] at h
  split at h
  · rename_i hking
    have h1 := testBit_stepCastle_other _ _ _ _ _ _ h
    split at h1
    · rw [stepPromotion_other] at h1
      exact base _ (testBit_stepEnPassant _ _ _ _ _ _ _ h1)
    · exact base _ h1
  · split at h
    · rw [stepPromotion_other] at h
      exact base _ (testBit_stepEnPassant _ _ _ _ _ _ _ h)
    · exact base _ h

theorem disjoint_makeMove_of_pseudoLegal (b : Board) (m : Move) (hc : b.Consistent)
    (hd : b.pieces_.Disjoint) (hk : b.KingsPresent) (hep : b.EpTargetFree)
    (hm : m ∈ b.pseudoLegalMoves) : (b.makeMove m).pieces_.Disjoint := by
  obtain ⟨hf, ht, ⟨p, h1⟩, h2, _⟩ := pseudoLegal_facts b hc hd hk hep m hm
  exact disjoint_makeMovePieces b m hc.1 hd p hf ht h1 h2

theorem epTargetFree_makeMove_of_pseudoLegal (b : Board) (m : Move) (hc : b.Consistent)
    (hd : b.pieces_.Disjoint) (hk : b.KingsPresent) (hep : b.EpTargetFree)
    (hm : m ∈ b.pseudoLegalMoves) : (b.makeMove m).EpTargetFree := by
  obtain ⟨hf, _, ⟨p, h1⟩, _, h5⟩ := pseudoLegal_facts b hc hd hk hep m hm
  have hpa := pieceAt_of_testBit b hd m.from_ hf _ p h1
  intro q
  show ((b.makeMovePieces m).get b.sideToMove_.other q).testBit (b.makeMoveEnPassant m) = false
  unfold makeMoveEnPassant
  simp only [hpa, Option.map_some', Option.some.injEq, ne_eq]
  split
  · exact Pieces.testBit_none_of_WF _ (WF_makeMovePieces b m hc.1) _ _
  · rename_i hcond
    have hp : p = .PAWN := by
      by_contra hne
      exact hcond (Or.inl hne)
    have h16 : absDiff m.to_ m.from_ = 16 := by
      by_contra hne
      exact hcond (Or.inr hne)
    subst hp
    simp only [h16, and_self, if_true]
    by_contra hb
    have hb1 : ((b.makeMovePieces m).get b.sideToMove_.other q).testBit
        ((m.from_ + m.to_) / 2) = true := by simpa using hb
    have := testBit_makeMovePieces_other b m q _ hb1
    rw [h5 h1 h16] at this
    exact Bool.false_ne_true this

theorem mem_pseudoLegal_of_generated (b : Board) (m : Move) (hm : m ∈ b.generateMoves) :
    m ∈ b.pseudoLegalMoves := by
  unfold generateMoves at hm
  exact (List.mem_filter.1 hm).1

theorem disjoint_new : Board.new.pieces_.Disjoint :=
  Pieces.disjoint_of_disjointB _ (by decide)

theorem epTargetFree_new : Board.new.EpTargetFree :=
  fun _ => Pieces.testBit_none_of_WF _ consistent_new.1 _ _

theorem invariant_of_reachable (b : Board) (h : b.ReachableWithKings) :
    b.Consistent ∧ b.pieces_.Disjoint ∧ b.EpTargetFree := by
  induction h with
  | init => exact ⟨consistent_new, disjoint_new, epTargetFree_new⟩
  | step b m _ hk hm ih =>
      obtain ⟨hc, hd, hep⟩ := ih
      have hpl := mem_pseudoLegal_of_generated b m hm
      exact ⟨consistent_makeMove b m hc.1, disjoint_makeMove_of_pseudoLegal b m hc hd hk hep hpl,
        epTargetFree_makeMove_of_pseudoLegal b m hc hd hk hep hpl⟩

/-! ### Kings and disjointness along play -/

/-- C2 (evaluation at the failing input): every move of the game 1. f3 g5 2. Kf2 g4
3. Kg3 a6 4. Kh3 gxh3 is returned by `generateMoves()` for the position in which it is
made, starting from the initial position, and after the last one White has no king:
`isSquareAttacked` does not see the pawn on g4 attacking h3, so 4. Kh3 passes the
legality filter and the pawn then captures the king. -/
theorem C2_king_captured_in_generated_play :
    Board.allGenerated Board.new kingCaptureGame = true ∧
    (Board.new.play (kingCaptureGame.take 7)).OneKingEach ∧
    popcount ((Board.new.play kingCaptureGame).pieces_.get .WHITE .KING) = 0 ∧
    ¬(Board.new.play kingCaptureGame).OneKingEach := by
  refine ⟨?_, by decide!, by decide!, by decide!⟩
  rw [allGenerated_eq]
  decide!

/-- C3 (counterexample): in the initial position with an extra white knight on d3 and the
en-passant target d3, both kings are present, the bitmaps are pairwise disjoint and
`generateMoves()` returns the pawn move c2-d3; after `makeMove` the white pawn and the
white knight both have the bit of d3 set. -/
theorem C3_disjointness_counterexample :
    epOverlapPosition.Consistent ∧ epOverlapPosition.pieces_.Disjoint ∧
    epOverlapPosition.OneKingEach ∧ epOverlapPosition.KingsPresent ∧
    Move.mk2 10 19 ∈ epOverlapPosition.generateMoves ∧
    ((epOverlapPosition.makeMove (Move.mk2 10 19)).pieces_.get .WHITE .PAWN).testBit 19 = true ∧
    ((epOverlapPosition.makeMove (Move.mk2 10 19)).pieces_.get .WHITE .KNIGHT).testBit 19 = true ∧
    ¬(epOverlapPosition.makeMove (Move.mk2 10 19)).pieces_.Disjoint := by
  refine ⟨⟨?_, rfl, rfl⟩, Pieces.disjoint_of_disjointB _ (by decide), by decide, by decide,
    (mem_generateMoves_iff _ _).2 (by decide!), by decide, by decide, ?_⟩
  · intro c p
    cases c <;> cases p <;> decide
  · intro h
    have := h 19 .WHITE .PAWN .WHITE .KNIGHT (by decide) (by decide)
    exact absurd this.2 (by decide)

/-- C3 (amended): pairwise disjointness of the twelve piece bitmaps is preserved by
`makeMove(m)` for every move `m` returned by `generateMoves()` in a position where both
kings are present, `occupied`/`empty` agree with the bitmaps, and the en-passant target
holds no piece of the side to move; hence no square has its bit set in two different piece
bitmaps in any position reached from the initial position by such moves, each made in a
position where both kings are present. -/
theorem C3_disjointness_preserved (b : Board) (m : Move) (hc : b.Consistent)
    (hd : b.pieces_.Disjoint) (hk : b.KingsPresent) (hep : b.EpTargetFree)
    (hm : m ∈ b.generateMoves) (b1 : Board) (hr : b1.ReachableWithKings) :
    (b.makeMove m).pieces_.Disjoint ∧ b1.pieces_.Disjoint :=
  ⟨disjoint_makeMove_of_pseudoLegal b m hc hd hk hep (mem_pseudoLegal_of_generated b m hm),
    (invariant_of_reachable b1 hr).2.1⟩

theorem reachable_afterPawnMove : afterPawnMove.ReachableWithKings :=
  ReachableWithKings.step Board.new (Move.mk2 12 28) ReachableWithKings.init (by decide)
    kingPawnMove_generated

theorem C3_disjointness_preserved_witness :
    Board.new.Consistent ∧ Board.new.pieces_.Disjoint ∧ Board.new.KingsPresent ∧
    Board.new.EpTargetFree ∧ Move.mk2 12 28 ∈ Board.new.generateMoves ∧
    afterPawnMove.ReachableWithKings ∧
    ((Board.new.makeMove (Move.mk2 12 28)).pieces_.Disjoint ∧ afterPawnMove.pieces_.Disjoint) :=
  ⟨consistent_new, disjoint_new, by decide, epTargetFree_new, kingPawnMove_generated,
    reachable_afterPawnMove,
    C3_disjointness_preserved Board.new (Move.mk2 12 28) consistent_new disjoint_new (by decide)
      epTargetFree_new kingPawnMove_generated afterPawnMove reachable_afterPawnMove⟩

end Board

/-! ## FEN input -/

namespace Board

theorem setFen_reset (b : Board) (fen : String) : b.setFen fen = Board.new.setFen fen := rfl

theorem setFen_startpos :
    Board.new.setFen "rnbqkbnr/pppppppp/8/8/8/8/PPPPPPPP/RNBQKBNR w KQkq - 0 1" = Board.new := by
  decide

theorem generateMoves_new :
    Board.new.generateMoves =
      [Move.mk2 8 16, Move.mk2 8 24, Move.mk2 9 17, Move.mk2 9 25, Move.mk2 10 18,
       Move.mk2 10 26, Move.mk2 11 19, Move.mk2 11 27, Move.mk2 12 20, Move.mk2 12 28,
       Move.mk2 13 21, Move.mk2 13 29, Move.mk2 14 22, Move.mk2 14 30, Move.mk2 15 23,
       Move.mk2 15 31, Move.mk2 1 16, Move.mk2 1 18, Move.mk2 6 21, Move.mk2 6 23] := by
  decide!

theorem generateMoves_new_length : Board.new.generateMoves.length = 20 := by
  rw [generateMoves_new]
  rfl

/-- C11: in the initial position, whether produced by `reset()` or by
`setFen("rnbqkbnr/pppppppp/8/8/8/8/PPPPPPPP/RNBQKBNR w KQkq - 0 1")`, `generateMoves()`
returns exactly 20 moves. -/
theorem C11_initial_position_has_20_moves (b : Board) :
    b.reset.generateMoves.length = 20 ∧
    (b.setFen "rnbqkbnr/pppppppp/8/8/8/8/PPPPPPPP/RNBQKBNR w KQkq - 0 1").generateMoves.length
      = 20 := by
  rw [reset_eq_new, setFen_reset, setFen_startpos]
  exact ⟨generateMoves_new_length, generateMoves_new_length⟩

/-! ### Perft -/

theorem replies_after_a2a3 :
    (Board.new.makeMove (Move.mk2 8 16)).generateMoves.length = 20 := by
  decide!

theorem replies_after_a2a4 :
    (Board.new.makeMove (Move.mk2 8 24)).generateMoves.length = 20 := by
  decide!

theorem replies_after_b2b3 :
    (Board.new.makeMove (Move.mk2 9 17)).generateMoves.length = 20 := by
  decide!

theorem replies_after_b2b4 :
    (Board.new.makeMove (Move.mk2 9 25)).generateMoves.length = 20 := by
  decide!

theorem replies_after_c2c3 :
    (Board.new.makeMove (Move.mk2 10 18)).generateMoves.length = 20 := by
  decide!

theorem replies_after_c2c4 :
    (Board.new.makeMove (Move.mk2 10 26)).generateMoves.length = 20 := by
  decide!

theorem replies_after_d2d3 :
    (Board.new.makeMove (Move.mk2 11 19)).generateMoves.length = 20 := by
  decide!

theorem replies_after_d2d4 :
    (Board.new.makeMove (Move.mk2 11 27)).generateMoves.length = 20 := by
  decide!

theorem replies_after_e2e3 :
    (Board.new.makeMove (Move.mk2 12 20)).generateMoves.length = 20 := by
  decide!

theorem replies_after_e2e4 :
    (Board.new.makeMove (Move.mk2 12 28)).generateMoves.length = 20 := by
  decide!

theorem replies_after_f2f3 :
    (Board.new.makeMove (Move.mk2 13 21)).generateMoves.length = 20 := by
  decide!

theorem replies_after_f2f4 :
    (Board.new.makeMove (Move.mk2 13 29)).generateMoves.length = 20 := by
  decide!

theorem replies_after_g2g3 :
    (Board.new.makeMove (Move.mk2 14 22)).generateMoves.length = 20 := by
  decide!

theorem replies_after_g2g4 :
    (Board.new.makeMove (Move.mk2 14 30)).generateMoves.length = 20 := by
  decide!

theorem replies_after_h2h3 :
    (Board.new.makeMove (Move.mk2 15 23)).generateMoves.length = 20 := by
  decide!

theorem replies_after_h2h4 :
    (Board.new.makeMove (Move.mk2 15 31)).generateMoves.length = 20 := by
  decide!

theorem replies_after_b1a3 :
    (Board.new.makeMove (Move.mk2 1 16)).generateMoves.length = 20 := by
  decide!

theorem replies_after_b1c3 :
    (Board.new.makeMove (Move.mk2 1 18)).generateMoves.length = 20 := by
  decide!

theorem replies_after_g1f3 :
    (Board.new.makeMove (Move.mk2 6 21)).generateMoves.length = 20 := by
  decide!

theorem replies_after_g1h3 :
    (Board.new.makeMove (Move.mk2 6 23)).generateMoves.length = 20 := by
  decide!

/-- C12: perft at depth 2 from the initial position is 400: the sum, over the moves `m`
returned by `generateMoves()` after `reset()`, of the number of moves returned by
`generateMoves()` after `makeMove(m)`, equals 400. -/
theorem C12_perft_depth_2 (b : Board) :
    (b.reset.generateMoves.map (fun m => (b.reset.makeMove m).generateMoves.length)).sum
      = 400 := by
  rw [reset_eq_new, generateMoves_new]
  simp only [List.map_cons, List.map_nil,
    replies_after_a2a3, replies_after_a2a4, replies_after_b2b3, replies_after_b2b4,
    replies_after_c2c3, replies_after_c2c4, replies_after_d2d3, replies_after_d2d4,
    replies_after_e2e3, replies_after_e2e4, replies_after_f2f3, replies_after_f2f4,
    replies_after_g2g3, replies_after_g2g4, replies_after_h2h3, replies_after_h2h4,
    replies_after_b1a3, replies_after_b1c3, replies_after_g1f3, replies_after_g1h3]
  rfl

end Board

namespace Board

theorem testBit_fenPlace (pcs : Pieces) (col : Color) (pt : Option PieceType) (sq : Int)
    (c : Color) (p : PieceType) (i : Nat) (h : (pcs.get c p).testBit i = true) :
    ((fenPlace pcs col pt sq).get c p).testBit i = true := by
  unfold fenPlace
  cases pt with
  | none => exact h
  | some t =>
      simp only [Pieces.get_set]
      split
      · rename_i hc
        obtain ⟨rfl, rfl⟩ := hc
        rw [Nat.testBit_or, h]
        rfl
      · exact h

theorem testBit_fenBoardStep (acc : Pieces × Int) (ch : Nat) (c : Color) (p : PieceType)
    (i : Nat) (h : (acc.1.get c p).testBit i = true) :
    ((fenBoardStep acc ch).1.get c p).testBit i = true := by
  unfold fenBoardStep
  split
  · exact h
  · split
    · exact h
    · exact testBit_fenPlace _ _ _ _ _ _ _ h

theorem testBit_foldl_fenBoardStep (l : List Nat) (acc : Pieces × Int) (c : Color)
    (p : PieceType) (i : Nat) (h : (acc.1.get c p).testBit i = true) :
    ((l.foldl fenBoardStep acc).1.get c p).testBit i = true := by
  induction l generalizing acc with
  | nil => exact h
  | cons ch l ih => exact ih _ (testBit_fenBoardStep acc ch c p i h)

/-- Whatever the FEN, `setFen` leaves every piece of the initial position on the board. -/
theorem setFen_keeps_initial (b : Board) (fen : String) (c : Color) (p : PieceType) (i : Nat)
    (h : (Board.new.pieces_.get c p).testBit i = true) :
    ((b.setFen fen).pieces_.get c p).testBit i = true :=
  testBit_foldl_fenBoardStep _ _ c p i h

/-- C13 (evaluation at the failing input): after `setFen("4k3/8/8/8/8/8/8/4K3 w - - 0 1")`,
whose board field leaves e2 empty, `pieceAt(e2)` is the white pawn of the initial
position; after `setFen("4k3/8/8/8/8/8/4n3/4K3 w - - 0 1")`, whose board field puts a black
knight on e2, `pieceAt(e2)` is that white pawn as well, and the black knight bitmap holds
e2 next to b8 and g8; and for every FEN every bitmap of the initial position is contained
in the bitmap `setFen` produces. -/
theorem C13_setFen_keeps_initial_position :
    (Board.new.setFen "4k3/8/8/8/8/8/8/4K3 w - - 0 1").pieceAt 12 = some ⟨.PAWN, .WHITE⟩ ∧
    (Board.new.setFen "4k3/8/8/8/8/8/4n3/4K3 w - - 0 1").pieceAt 12 = some ⟨.PAWN, .WHITE⟩ ∧
    (Board.new.setFen "4k3/8/8/8/8/8/4n3/4K3 w - - 0 1").pieces_.get .BLACK .KNIGHT =
      bit 12 ||| bit 57 ||| bit 62 ∧
    (∀ (b : Board) (fen : String) (c : Color) (p : PieceType),
      Board.new.pieces_.get c p &&& (b.setFen fen).pieces_.get c p =
        Board.new.pieces_.get c p) := by
  refine ⟨by decide, by decide, by decide, ?_⟩
  intro b fen c p
  apply Nat.eq_of_testBit_eq
  intro i
  rw [Nat.testBit_and]
  cases h : (Board.new.pieces_.get c p).testBit i with
  | false => rfl
  | true => rw [setFen_keeps_initial b fen c p i h]; rfl

/-- C14: after
`setFen("r1bqkb1r/pppp1Qpp/2n2n2/4p3/2B1P3/8/PPPP1PPP/RNB1K1NR b KQkq - 0 4")`,
`isCheckmate()` returns true. -/
theorem C14_scholars_mate_isCheckmate (b : Board) :
    (b.setFen "r1bqkb1r/pppp1Qpp/2n2n2/4p3/2B1P3/8/PPPP1PPP/RNB1K1NR b KQkq - 0 4").isCheckmate
      = true := by
  rw [setFen_reset]
  decide!

/-- C15 (evaluation at the failing input): after
`setFen("4k3/4P3/4K3/8/8/8/8/8 b - - 0 1")` the pieces of the initial position are still
on the board, `generateMoves()` returns 24 moves for Black and `isStalemate()` returns
false. -/
theorem C15_stalemate_fen_not_stalemate :
    (Board.new.setFen "4k3/4P3/4K3/8/8/8/8/8 b - - 0 1").isStalemate = false ∧
    (Board.new.setFen "4k3/4P3/4K3/8/8/8/8/8 b - - 0 1").generateMoves.length = 24 ∧
    popcount (Board.new.setFen "4k3/4P3/4K3/8/8/8/8/8 b - - 0 1").occupied_ = 33 := by
  decide!

/-- C16 (evaluation at the failing input): after `setFen("8/8/8/4k3/8/8/8/4K3 w - - 0 1")`
the pieces of the initial position are still on the board, 33 squares are occupied and
`isInsufficientMaterial()` returns false. -/
theorem C16_king_vs_king_fen_not_insufficient :
    (Board.new.setFen "8/8/8/4k3/8/8/8/4K3 w - - 0 1").isInsufficientMaterial = false ∧
    popcount (Board.new.setFen "8/8/8/4k3/8/8/8/4K3 w - - 0 1").occupied_ = 33 ∧
    popcount ((Board.new.setFen "8/8/8/4k3/8/8/8/4K3 w - - 0 1").pieces_.get .BLACK .KING)
      = 2 := by
  decide

end Board

/-! ## Termination predicates, captures and castling -/

namespace Board

/-- The bishop branch of `isInsufficientMaterial` is never the one that answers: as
soon as either side has a bishop, the unions `whitePieces`/`blackPieces` that guard it are
not both zero. -/
theorem isInsufficientMaterial_false_of_bishops (b : Board) (h2 : popcount b.occupied_ ≠ 2)
    (hw : b.pieces_.get .WHITE .BISHOP ≠ 0) (hb : b.pieces_.get .BLACK .BISHOP ≠ 0) :
    b.isInsufficientMaterial = false := by
  have or_ne : ∀ x y : Nat, y ≠ 0 → x ||| y ≠ 0 := by
    intro x y hy h
    apply hy
    apply Nat.eq_of_testBit_eq
    intro i
    have := congrArg (fun n => n.testBit i) h
    simp only [Nat.testBit_or, Nat.zero_testBit, Bool.or_eq_false_iff] at this
    rw [this.2, Nat.zero_testBit]
  have or_ne_left : ∀ x y : Nat, x ≠ 0 → x ||| y ≠ 0 := by
    intro x y hx
    rw [Nat.lor_comm]
    exact or_ne y x hx
  have hW : b.pieces_.get .WHITE .PAWN ||| b.pieces_.get .WHITE .KNIGHT |||
      b.pieces_.get .WHITE .BISHOP ||| b.pieces_.get .WHITE .ROOK |||
      b.pieces_.get .WHITE .QUEEN ≠ 0 :=
    or_ne_left _ _ (or_ne_left _ _ (or_ne _ _ hw))
  have hB : b.pieces_.get .BLACK .PAWN ||| b.pieces_.get .BLACK .KNIGHT |||
      b.pieces_.get .BLACK .BISHOP ||| b.pieces_.get .BLACK .ROOK |||
      b.pieces_.get .BLACK .QUEEN ≠ 0 :=
    or_ne_left _ _ (or_ne_left _ _ (or_ne _ _ hb))
  unfold isInsufficientMaterial
  simp only [h2, if_false, hW, hB, false_and]

/-- C17 (evaluation at the failing input): with kings on e1 and e8, a white bishop on c1
and a black bishop on f8, both on dark squares, and nothing else on the board,
`isInsufficientMaterial()` returns false. -/
theorem C17_same_coloured_bishops_not_recognised :
    bishopsPosition.pieces_ = ⟨⟨0, 0, bit 2, 0, 0, bit 4⟩, ⟨0, 0, bit 61, 0, 0, bit 60⟩⟩ ∧
    bishopsPosition.Consistent ∧
    ((2 / 8 + 2 % 8) % 2 = 0 ∧ (61 / 8 + 61 % 8) % 2 = 0) ∧
    sameColouredBishops (bishopsPosition.pieces_.get .WHITE .BISHOP)
      (bishopsPosition.pieces_.get .BLACK .BISHOP) = true ∧
    bishopsPosition.isInsufficientMaterial = false := by
  refine ⟨rfl, ⟨?_, rfl, rfl⟩, by decide, by decide, by decide⟩
  intro c p
  cases c <;> cases p <;> decide

/-- C18 (evaluation at the failing input): with one king per colour and a single black
queen, a single white pawn or a single black rook as the only other piece,
`isInsufficientMaterial()` returns true. -/
theorem C18_lone_queen_pawn_rook_insufficient :
    (loneQueenPosition.OneKingEach ∧ loneQueenPosition.isInsufficientMaterial = true) ∧
    (lonePawnPosition.OneKingEach ∧ lonePawnPosition.isInsufficientMaterial = true) ∧
    (loneRookPosition.OneKingEach ∧ loneRookPosition.isInsufficientMaterial = true) := by
  decide

theorem mem_generateCaptures (b : Board) (m : Move) :
    m ∈ b.generateCaptures ↔ (m ∈ b.generateMoves ∧ (b.pieceAt m.to_).isSome = true) := by
  unfold generateCaptures isCapture
  rw [List.mem_filter]

/-- C19 (counterexample): after 1. e4 a6 2. e5 d5 the en-passant target is d6,
`generateMoves()` returns the move e5-d6 of the white pawn on e5, diagonally onto that
target, and `generateCaptures()` does not contain it. -/
theorem C19_en_passant_counterexample :
    Board.allGenerated Board.new enPassantGame = true ∧
    (Board.new.play enPassantGame).enPassant_ = 43 ∧
    (Board.new.play enPassantGame).pieceAt 36 = some ⟨.PAWN, .WHITE⟩ ∧
    (Board.new.play enPassantGame).sideToMove_ = .WHITE ∧
    absDiff (fileOf 36) (fileOf 43) = 1 ∧
    Move.mk2 36 43 ∈ (Board.new.play enPassantGame).generateMoves ∧
    Move.mk2 36 43 ∉ (Board.new.play enPassantGame).generateCaptures := by
  refine ⟨?_, by decide!, by decide!, by decide!, by decide!, ?_, ?_⟩
  · rw [allGenerated_eq]
    decide!
  · rw [mem_generateMoves_iff]
    decide!
  · rw [mem_generateCaptures]
    intro h
    exact absurd h.2 (by decide!)

/-- C19 (amended): for every position and every move `m` in `generateMoves()` made by a
pawn diagonally onto the current en-passant target square, `m` is in `generateCaptures()`
if and only if that target square holds a piece; an en-passant capture onto an empty
target square is not included. -/
theorem C19_en_passant_in_captures_iff (b : Board) (m : Move) (hm : m ∈ b.generateMoves)
    (_hp : b.pieceAt m.from_ = some ⟨.PAWN, b.sideToMove_⟩)
    (_hd : absDiff (fileOf m.from_) (fileOf m.to_) = 1) (hto : m.to_ = b.enPassant_) :
    (m ∈ b.generateCaptures ↔ (b.pieceAt b.enPassant_).isSome = true) ∧
    (b.pieceAt b.enPassant_ = none → m ∉ b.generateCaptures) := by
  rw [mem_generateCaptures, hto]
  constructor
  · exact ⟨fun h => h.2, fun h => ⟨hm, h⟩⟩
  · intro hn h
    rw [hn] at h
    exact Bool.false_ne_true h.2

theorem enPassantMove_generated :
    Move.mk2 36 43 ∈ (Board.new.play enPassantGame).generateMoves := by
  rw [mem_generateMoves_iff]
  decide!

theorem C19_en_passant_in_captures_iff_witness :
    Move.mk2 36 43 ∈ (Board.new.play enPassantGame).generateMoves ∧
    (Board.new.play enPassantGame).pieceAt (Move.mk2 36 43).from_ =
      some ⟨.PAWN, (Board.new.play enPassantGame).sideToMove_⟩ ∧
    absDiff (fileOf (Move.mk2 36 43).from_) (fileOf (Move.mk2 36 43).to_) = 1 ∧
    (Move.mk2 36 43).to_ = (Board.new.play enPassantGame).enPassant_ ∧
    ((Move.mk2 36 43 ∈ (Board.new.play enPassantGame).generateCaptures ↔
        ((Board.new.play enPassantGame).pieceAt
          (Board.new.play enPassantGame).enPassant_).isSome = true) ∧
      ((Board.new.play enPassantGame).pieceAt (Board.new.play enPassantGame).enPassant_ = none →
        Move.mk2 36 43 ∉ (Board.new.play enPassantGame).generateCaptures)) :=
  ⟨enPassantMove_generated, by decide, by decide, by decide,
    C19_en_passant_in_captures_iff (Board.new.play enPassantGame) (Move.mk2 36 43)
      enPassantMove_generated (by decide) (by decide) (by decide)⟩

/-- C20 (evaluation at the failing input): every move of the game 1. e4 d5 2. exd5 Qxd5
3. Nf3 a6 4. Bc4 Qe4+ is returned by `generateMoves()` for the position in which it is
made; in the position reached White has the king-side castling right, the king on e1 and
`isInCheck(WHITE)` is true, and `generateMoves()` returns the castling move e1-g1. -/
theorem C20_castling_out_of_check :
    Board.allGenerated Board.new castleFromCheckGame = true ∧
    (Board.new.play castleFromCheckGame).sideToMove_ = .WHITE ∧
    (Board.new.play castleFromCheckGame).castlingRights_.get .WHITE 0 = true ∧
    (Board.new.play castleFromCheckGame).pieceAt 4 = some ⟨.KING, .WHITE⟩ ∧
    (Board.new.play castleFromCheckGame).isInCheck .WHITE = true ∧
    (Board.new.play castleFromCheckGame).isSquareAttacked 4 .BLACK = true ∧
    Move.mk2 4 6 ∈ (Board.new.play castleFromCheckGame).generateMoves := by
  refine ⟨?_, by decide!, by decide!, by decide!, by decide!, by decide!, ?_⟩
  · rw [allGenerated_eq]
    decide!
  · rw [mem_generateMoves_iff]
    decide!

end Board

/-! ## En-passant target, counters and the null move -/

namespace Board

/-- C21: for every board and every move `m` whose from-square holds a piece of the side
to move, after `makeMove(m)` the en-passant target is the square `(from + to) / 2` if the
moved piece is a pawn and `|to - from| = 16`, and the `NONE` square in every other
case. -/
theorem C21_enPassant_after_makeMove (b : Board) (m : Move) (h : b.MovesOwnPiece m) :
    (b.makeMove m).enPassant_ =
      if b.pieceAt m.from_ = some ⟨.PAWN, b.sideToMove_⟩ ∧ absDiff m.to_ m.from_ = 16 then
        (m.from_ + m.to_) / 2
      else SQ_NONE := by
  obtain ⟨p, hp⟩ := h
  show b.makeMoveEnPassant m = _
  unfold makeMoveEnPassant
  simp only [hp, Option.map_some', Option.some.injEq, Piece.mk.injEq, and_true]
  by_cases h1 : p = .PAWN <;> by_cases h2 : absDiff m.to_ m.from_ = 16 <;> simp [h1, h2]

theorem C21_enPassant_after_makeMove_witness :
    Board.new.MovesOwnPiece (Move.mk2 12 28) ∧
      (Board.new.makeMove (Move.mk2 12 28)).enPassant_ =
        if Board.new.pieceAt (Move.mk2 12 28).from_ = some ⟨.PAWN, Board.new.sideToMove_⟩ ∧
            absDiff (Move.mk2 12 28).to_ (Move.mk2 12 28).from_ = 16 then
          ((Move.mk2 12 28).from_ + (Move.mk2 12 28).to_) / 2
        else SQ_NONE :=
  ⟨⟨.PAWN, by decide⟩,
    C21_enPassant_after_makeMove Board.new (Move.mk2 12 28) ⟨.PAWN, by decide⟩⟩

theorem wrapInt32_succ (x : Int) (h1 : -2147483648 ≤ x) (h2 : x ≤ 2147483647) :
    (wrapInt32 (x + 1) = x + 1 ↔ x < 2147483647) ∧
      -2147483648 ≤ wrapInt32 (x + 1) ∧ wrapInt32 (x + 1) ≤ 2147483647 := by
  unfold wrapInt32
  omega

/-- C22, as amended: for every board whose counters hold `int` values and every move `m`
whose from-square holds a piece of the side to move, `makeMove(m)` flips `sideToMove_`.
It sets `halfmoveClock_` to 0 if the moved piece is a pawn or a piece stood on the
to-square before the move, and to the old value plus 1 otherwise, exactly when the move
is such a move or the old value is below `INT_MAX`.  It adds 1 to `fullmoveNumber_` if
Black made the move and leaves it unchanged if White did, exactly when White made the move
or the old value is below `INT_MAX`.  The counters hold `int` values afterwards.  On a
board whose occupancy agrees with its bitmaps, a piece stands on the to-square exactly if
the bit of that square is set in `occupied_`. -/
theorem C22_counters_after_makeMove (b : Board) (m : Move) (h : b.MovesOwnPiece m)
    (hi : b.CountersAreInts) :
    (b.makeMove m).sideToMove_ = b.sideToMove_.other ∧
    ((b.makeMove m).halfmoveClock_ =
        (if b.pieceAt m.from_ = some ⟨.PAWN, b.sideToMove_⟩ ∨ (b.pieceAt m.to_).isSome then 0
         else b.halfmoveClock_ + 1) ↔
      (b.pieceAt m.from_ = some ⟨.PAWN, b.sideToMove_⟩ ∨ (b.pieceAt m.to_).isSome) ∨
        b.halfmoveClock_ < 2147483647) ∧
    ((b.makeMove m).fullmoveNumber_ =
        (if b.sideToMove_ = .BLACK then b.fullmoveNumber_ + 1 else b.fullmoveNumber_) ↔
      b.sideToMove_ = .WHITE ∨ b.fullmoveNumber_ < 2147483647) ∧
    (b.makeMove m).CountersAreInts ∧
    (b.Consistent → ((b.pieceAt m.to_).isSome ↔ b.occupied_.testBit m.to_ = true)) := by
  obtain ⟨p, hp⟩ := h
  have hh := wrapInt32_succ b.halfmoveClock_ hi.1.1 hi.1.2
  have hf := wrapInt32_succ b.fullmoveNumber_ hi.2.1 hi.2.2
  have hclock : (b.makeMove m).halfmoveClock_ =
      (if b.pieceAt m.from_ = some ⟨.PAWN, b.sideToMove_⟩ ∨ (b.pieceAt m.to_).isSome then 0
       else wrapInt32 (b.halfmoveClock_ + 1)) := by
    show (if (b.pieceAt m.from_).map (fun q => q.type) = some .PAWN ∨
        (b.pieceAt m.to_).isSome then 0 else wrapInt32 (b.halfmoveClock_ + 1)) = _
    simp only [hp, Option.map_some', Option.some.injEq, Piece.mk.injEq, and_true]
  have hfull : (b.makeMove m).fullmoveNumber_ =
      (if b.sideToMove_ = .BLACK then wrapInt32 (b.fullmoveNumber_ + 1)
       else b.fullmoveNumber_) := rfl
  refine ⟨rfl, ?_, ?_, ⟨?_, ?_⟩, ?_⟩
  · rw [hclock]
    by_cases hq : b.pieceAt m.from_ = some ⟨.PAWN, b.sideToMove_⟩ ∨ (b.pieceAt m.to_).isSome
    · rw [if_pos hq, if_pos hq]
      exact ⟨fun _ => Or.inl hq, fun _ => rfl⟩
    · rw [if_neg hq, if_neg hq, hh.1]
      exact ⟨Or.inr, fun h1 => h1.resolve_left hq⟩
  · rw [hfull]
    cases hs : b.sideToMove_
    · simp
    · simp only [if_true, reduceCtorEq, false_or]
      exact hf.1
  · rw [hclock]
    split_ifs
    · exact ⟨by decide, by decide⟩
    · exact hh.2
  · rw [hfull]
    split_ifs
    · exact hf.2
    · exact hi.2
  · intro hc
    obtain ⟨hwf, hocc, _⟩ := hc
    rw [hocc, testBit_unionAll]
    constructor
    · intro hs
      obtain ⟨q, hq⟩ := Option.isSome_iff_exists.mp hs
      exact ⟨q.color, q.type, (pieceAt_some b m.to_ q hq).2⟩
    · rintro ⟨c, t, hct⟩
      cases hpa : b.pieceAt m.to_ with
      | some q => rfl
      | none =>
          have hlt : m.to_ < 64 := testBit_of_WF b.pieces_ hwf c t m.to_ hct
          exact absurd hct (by rw [pieceAt_none b m.to_ hlt hpa c t]; simp)

theorem C22_counters_after_makeMove_witness :
    Board.new.MovesOwnPiece (Move.mk2 6 21) ∧ Board.new.CountersAreInts ∧
    ((Board.new.makeMove (Move.mk2 6 21)).sideToMove_ = Board.new.sideToMove_.other ∧
    ((Board.new.makeMove (Move.mk2 6 21)).halfmoveClock_ =
        (if Board.new.pieceAt (Move.mk2 6 21).from_ = some ⟨.PAWN, Board.new.sideToMove_⟩ ∨
            (Board.new.pieceAt (Move.mk2 6 21).to_).isSome then 0
         else Board.new.halfmoveClock_ + 1) ↔
      (Board.new.pieceAt (Move.mk2 6 21).from_ = some ⟨.PAWN, Board.new.sideToMove_⟩ ∨
          (Board.new.pieceAt (Move.mk2 6 21).to_).isSome) ∨
        Board.new.halfmoveClock_ < 2147483647) ∧
    ((Board.new.makeMove (Move.mk2 6 21)).fullmoveNumber_ =
        (if Board.new.sideToMove_ = .BLACK then Board.new.fullmoveNumber_ + 1
         else Board.new.fullmoveNumber_) ↔
      Board.new.sideToMove_ = .WHITE ∨ Board.new.fullmoveNumber_ < 2147483647) ∧
    (Board.new.makeMove (Move.mk2 6 21)).CountersAreInts ∧
    (Board.new.Consistent →
      ((Board.new.pieceAt (Move.mk2 6 21).to_).isSome ↔
        Board.new.occupied_.testBit (Move.mk2 6 21).to_ = true))) :=
  ⟨⟨.KNIGHT, by decide⟩, by decide,
    C22_counters_after_makeMove Board.new (Move.mk2 6 21) ⟨.KNIGHT, by decide⟩ (by decide)⟩

/-- C22, counterexample: `setFen` loads the halfmove clock 2147483647, the largest `int`,
from the FEN of the initial position with that clock.  The knight move g1-f3 is returned
by `generateMoves()`; the knight is no pawn and f3 is empty, so `makeMove` runs
`++halfmoveClock_`.  The clock afterwards is not the old value plus 1, which no `int`
holds; it is the smallest `int`. -/
theorem C22_clock_overflows_at_int_max :
    (Board.new.setFen fullClockFen).halfmoveClock_ = 2147483647 ∧
    (Board.new.setFen fullClockFen).pieceAt 6 =
      some ⟨.KNIGHT, (Board.new.setFen fullClockFen).sideToMove_⟩ ∧
    (Board.new.setFen fullClockFen).pieceAt 21 = none ∧
    Move.mk2 6 21 ∈ (Board.new.setFen fullClockFen).generateMoves ∧
    ((Board.new.setFen fullClockFen).makeMove (Move.mk2 6 21)).halfmoveClock_ ≠
      (Board.new.setFen fullClockFen).halfmoveClock_ + 1 ∧
    ((Board.new.setFen fullClockFen).makeMove (Move.mk2 6 21)).halfmoveClock_ =
      -2147483648 := by
  refine ⟨by decide!, by decide!, by decide!, ?_, by decide!, by decide!⟩
  rw [mem_generateMoves_iff]
  decide!

/-- C23: for every board `b`, `makeNullMove()` flips the side to move, sets the
en-passant target to the `NONE` square and leaves the twelve bitmaps, `occupied_`,
`empty_` and the castling rights unchanged; and `makeNullMove()` followed by
`unmakeNullMove()` gives back `b` in every member, the halfmove clock, the fullmove
number, the en-passant target and both stacks included. -/
theorem C23_null_move_round_trip (b : Board) :
    b.makeNullMove.sideToMove_ = b.sideToMove_.other ∧
    b.makeNullMove.enPassant_ = SQ_NONE ∧
    b.makeNullMove.pieces_ = b.pieces_ ∧
    b.makeNullMove.occupied_ = b.occupied_ ∧
    b.makeNullMove.empty_ = b.empty_ ∧
    b.makeNullMove.castlingRights_ = b.castlingRights_ ∧
    b.makeNullMove.unmakeNullMove = b := by
  refine ⟨rfl, rfl, rfl, rfl, rfl, rfl, ?_⟩
  have hs : b.makeNullMove.stateStack_ = b.stateStack_ ++ [b.snapshot] := rfl
  unfold unmakeNullMove
  rw [hs, getLast?_append_singleton]
  simp only [List.dropLast_concat]
  cases b
  rfl

end Board

/-! ## UCI move text -/

theorem literalAt_files : ∀ i, i < 8 → literalAt "abcdefgh" i = fileLetter i := by decide

theorem literalAt_ranks : ∀ i, i < 8 → literalAt "12345678" i = rankDigit i := by decide

theorem charDiff_fileLetter : ∀ i, i < 8 → charDiff (fileLetter i) 'a' = (i : Int) := by decide

theorem charDiff_rankDigit : ∀ i, i < 8 → charDiff (rankDigit i) '1' = (i : Int) := by decide

theorem square_of_rank_file (s : Nat) :
    (((s / 8 : Nat) : Int) * 8 + ((s % 8 : Nat) : Int)).toNat = s := by
  omega
theorem moveOfToken_encoded (f t : Nat) (hf : f < 64) (ht : t < 64) (sfx : List Char)
    (p : Option PieceType)
    (hs : sfx = [] ∧ p = none ∨ ∃ c, sfx = [c] ∧ promotionOfLetter c = p) :
    moveOfToken (String.mk ([fileLetter (f % 8), rankDigit (f / 8), fileLetter (t % 8),
      rankDigit (t / 8)] ++ sfx)) = some (Move.mk3 f t p) := by
  have h1 := charDiff_fileLetter (f % 8) (by omega)
  have h2 := charDiff_rankDigit (f / 8) (by omega)
  have h3 := charDiff_fileLetter (t % 8) (by omega)
  have h4 := charDiff_rankDigit (t / 8) (by omega)
  have hc : (0 : Int) ≤ ((f % 8 : Nat) : Int) ∧ ((f % 8 : Nat) : Int) < 8 ∧
      (0 : Int) ≤ ((f / 8 : Nat) : Int) ∧ ((f / 8 : Nat) : Int) < 8 ∧
      (0 : Int) ≤ ((t % 8 : Nat) : Int) ∧ ((t % 8 : Nat) : Int) < 8 ∧
      (0 : Int) ≤ ((t / 8 : Nat) : Int) ∧ ((t / 8 : Nat) : Int) < 8 := by omega
  rcases hs with ⟨rfl, rfl⟩ | ⟨c, rfl, rfl⟩
  · simp only [moveOfToken, String.toList, List.append_nil, List.length_cons, List.length_nil,
      List.getD_cons_zero, List.getD_cons_succ, h1, h2, h3, h4, hc, and_self, if_true,
      square_of_rank_file]
    simp
  · simp only [moveOfToken, String.toList, List.cons_append, List.nil_append, List.length_cons,
      List.length_nil, List.getD_cons_zero, List.getD_cons_succ, h1, h2, h3, h4, hc, and_self,
      if_true, square_of_rank_file]
    simp

/-- C30: for every move `m` with `from` and `to` in 0..63 and promotion `NONE`, knight,
bishop, rook or queen, `toUci(m)` is the four characters file(from) rank(from) file(to)
rank(to) followed by the letter n, b, r or q exactly when a promotion is present, and the
token reader of the position command maps `toUci(m)` back to the move with the same
from, to and promotion (its score member, which `operator==` does not compare, is 0 as
in every move the program builds); a move whose from or to is the `NONE` square encodes
as the text 0000. -/
theorem C30_uci_round_trip (m : Move) (hf : m.from_ < 64) (ht : m.to_ < 64)
    (hp : m.promotion ∈ [none, some .KNIGHT, some .BISHOP, some .ROOK, some .QUEEN]) :
    m.toUci = String.mk ([fileLetter (m.from_ % 8), rankDigit (m.from_ / 8),
      fileLetter (m.to_ % 8), rankDigit (m.to_ / 8)] ++ promotionSuffix m.promotion) ∧
    ((promotionSuffix m.promotion).length = if m.promotion = none then 0 else 1) ∧
    moveOfToken m.toUci = some (Move.mk3 m.from_ m.to_ m.promotion) ∧
    (m.score = 0 → moveOfToken m.toUci = some m) ∧
    (∀ n : Move, n.from_ = SQ_NONE ∨ n.to_ = SQ_NONE → n.toUci = "0000") := by
  obtain ⟨f, t, p, sc⟩ := m
  simp only at hf ht hp ⊢
  have hf1 := literalAt_files (f % 8) (by omega)
  have hf2 := literalAt_ranks (f / 8) (by omega)
  have ht1 := literalAt_files (t % 8) (by omega)
  have ht2 := literalAt_ranks (t / 8) (by omega)
  have hne : ¬ (f = SQ_NONE ∨ t = SQ_NONE) := by unfold SQ_NONE; omega
  have henc : (Move.mk f t p sc).toUci = String.mk ([fileLetter (f % 8), rankDigit (f / 8),
      fileLetter (t % 8), rankDigit (t / 8)] ++ promotionSuffix p) := by
    simp only [Move.toUci, hne, if_false, hf1, hf2, ht1, ht2]
    simp only [List.mem_cons, List.mem_singleton, List.not_mem_nil, or_false] at hp
    rcases hp with rfl | rfl | rfl | rfl | rfl <;> rfl
  have hlen : (promotionSuffix p).length = if p = none then 0 else 1 := by
    simp only [List.mem_cons, List.mem_singleton, List.not_mem_nil, or_false] at hp
    rcases hp with rfl | rfl | rfl | rfl | rfl <;> rfl
  have hdec : moveOfToken (Move.mk f t p sc).toUci = some (Move.mk3 f t p) := by
    rw [henc]
    apply moveOfToken_encoded f t hf ht
    simp only [List.mem_cons, List.mem_singleton, List.not_mem_nil, or_false] at hp
    rcases hp with rfl | rfl | rfl | rfl | rfl
    · exact Or.inl ⟨rfl, rfl⟩
    · exact Or.inr ⟨'n', rfl, rfl⟩
    · exact Or.inr ⟨'b', rfl, rfl⟩
    · exact Or.inr ⟨'r', rfl, rfl⟩
    · exact Or.inr ⟨'q', rfl, rfl⟩
  refine ⟨henc, hlen, hdec, ?_, ?_⟩
  · intro hsc
    rw [hdec]
    simp only [Move.mk3] at hsc ⊢
    rw [hsc]
  · intro n hn
    simp only [Move.toUci, hn, if_true]

theorem C30_uci_round_trip_witness :
    (Move.mk3 52 60 (some .QUEEN)).toUci = "e7e8q" ∧
      moveOfToken "e7e8q" = some (Move.mk3 52 60 (some .QUEEN)) := by
  have h := C30_uci_round_trip (Move.mk3 52 60 (some .QUEEN)) (by decide) (by decide)
    (by decide)
  have he : (Move.mk3 52 60 (some .QUEEN)).toUci = "e7e8q" := by decide
  exact ⟨he, he ▸ h.2.2.1⟩

/-! ## Evaluation -/

/-- C24 (evaluation at the failing input): `evaluate` is not symmetric under mirroring.
With kings on e1 and e8 and a white pawn on a2, White to move, `evaluate` returns 85; in
the mirrored position
(kings on e1 and e8, a black pawn on a7, Black to move) it returns 75, a different
magnitude.  The pawn-table value of a black pawn is negated before it is added to the
pawn's value, and that value is then subtracted from the score, so the table value
enters with the sign of a white pawn. -/
theorem C24_evaluate_not_symmetric :
    rookPawnPosition.OneKingEach ∧
    rookPawnPosition.mirrored =
      positionOf ⟨⟨0, 0, 0, 0, 0, bit 4⟩, ⟨bit 48, 0, 0, 0, 0, bit 60⟩⟩ .BLACK
        ⟨false, false, false, false⟩ SQ_NONE ∧
    Evaluator.evaluate rookPawnPosition = 85 ∧
    Evaluator.evaluate rookPawnPosition.mirrored = 75 ∧
    (Evaluator.evaluate rookPawnPosition.mirrored).natAbs ≠
      (Evaluator.evaluate rookPawnPosition).natAbs := by
  decide!

/-! ## The transposition table -/

namespace Searcher

/-- C28: `storeTT(key, move, score, depth, flag)` touches only the slot at index
`key mod capacity`: it overwrites that slot with the five new fields if `depth` is at
least the slot's stored depth or the slot is empty (stored key 0), and otherwise leaves
the whole table unchanged; nothing else of the searcher changes. -/
theorem C28_storeTT_replacement (s : Searcher) (key : Nat) (move : Move) (score depth : Int)
    (flag : Nat) (hcap : 0 < s.ttLen) :
    key % s.ttLen < s.ttLen ∧
    (∀ i, i ≠ key % s.ttLen → (s.storeTT key move score depth flag).tt i = s.tt i) ∧
    (depth ≥ (s.tt (key % s.ttLen)).depth ∨ (s.tt (key % s.ttLen)).key = 0 →
      (s.storeTT key move score depth flag).tt (key % s.ttLen) =
        ⟨key, move, score, depth, flag⟩) ∧
    (¬ (depth ≥ (s.tt (key % s.ttLen)).depth ∨ (s.tt (key % s.ttLen)).key = 0) →
      (s.storeTT key move score depth flag).tt = s.tt) ∧
    (s.storeTT key move score depth flag).ttLen = s.ttLen ∧
    (s.storeTT key move score depth flag).board = s.board ∧
    (s.storeTT key move score depth flag).killers_ = s.killers_ ∧
    (s.storeTT key move score depth flag).history_ = s.history_ ∧
    (s.storeTT key move score depth flag).stats = s.stats := by
  unfold storeTT
  by_cases h : depth ≥ (s.tt (key % s.ttLen)).depth ∨ (s.tt (key % s.ttLen)).key = 0
  · simp only [h, if_true, not_true_eq_false, true_implies, false_implies, and_true]
    refine ⟨Nat.mod_lt _ hcap, ?_, ?_⟩
    · intro i hi
      exact Function.update_noteq hi _ _
    · exact Function.update_same _ _ _
  · simp only [h, if_false, not_false_eq_true, true_implies, false_implies, and_true,
      implies_true, true_and]
    exact Nat.mod_lt _ hcap

theorem C28_storeTT_replacement_witness :
    0 < (Searcher.new Board.new (fun _ => 0)).ttLen ∧
    (((Searcher.new Board.new (fun _ => 0)).storeTT 2097157 (Move.mk2 12 28) 35 4 1).tt 5 =
      ⟨2097157, Move.mk2 12 28, 35, 4, 1⟩) :=
  ⟨by decide,
    (C28_storeTT_replacement (Searcher.new Board.new (fun _ => 0)) 2097157 (Move.mk2 12 28) 35 4
      1 (by decide)).2.2.1 (Or.inl (by decide))⟩

end Searcher

/-! ## Search -/

namespace SearchStats

theorem checkTime_fst_of_time_left (st : SearchStats) (hstop : st.stopSearch = false)
    (htime : st.maxTimeMs = INT64_MAX ∨ st.elapsed st.clockReads < st.maxTimeMs) :
    st.checkTime.1 = false := by
  unfold checkTime readClock
  simp only [hstop, Bool.false_eq_true, if_false]
  split_ifs with h1 h2 h3
  · rfl
  · rfl
  · rcases htime with h | h
    · exact absurd h h1
    · omega
  · rfl

theorem checkTime_snd_of_time_left (st : SearchStats) (hstop : st.stopSearch = false)
    (htime : st.maxTimeMs = INT64_MAX ∨ st.elapsed st.clockReads < st.maxTimeMs) :
    st.checkTime.2.stopSearch = false ∧ st.checkTime.2.nodes = st.nodes ∧
      st.checkTime.2.qNodes = st.qNodes ∧ st.checkTime.2.maxTimeMs = st.maxTimeMs := by
  unfold checkTime readClock
  simp only [hstop, Bool.false_eq_true, if_false]
  split_ifs with h1 h2 h3
  · exact ⟨hstop, rfl, rfl, rfl⟩
  · exact ⟨hstop, rfl, rfl, rfl⟩
  · rcases htime with h | h
    · exact absurd h h1
    · omega
  · exact ⟨rfl, rfl, rfl, rfl⟩

theorem checkTime_of_off_beat (st : SearchStats) (hstop : st.stopSearch = false)
    (hmod : (st.nodes + st.qNodes) % 2048 ≠ 0) : st.checkTime = (false, st) := by
  unfold checkTime
  rw [if_neg (by rw [hstop]; simp), if_pos hmod]
  split_ifs <;> rfl

/-- The time check lets the search go on, and leaves the counters alone, when the stop
flag is clear and there is no limit, the node is not a polling node, or the clock is
below the budget. -/
theorem checkTime_goes_on (st : SearchStats) (hstop : st.stopSearch = false)
    (htime : st.maxTimeMs = INT64_MAX ∨ (st.nodes + st.qNodes) % 2048 ≠ 0 ∨
      st.elapsed st.clockReads < st.maxTimeMs) :
    st.checkTime.1 = false ∧ st.checkTime.2.stopSearch = false ∧
      st.checkTime.2.nodes = st.nodes ∧ st.checkTime.2.qNodes = st.qNodes := by
  rcases htime with h | h | h
  · have h2 := checkTime_snd_of_time_left st hstop (Or.inl h)
    exact ⟨checkTime_fst_of_time_left st hstop (Or.inl h), h2.1, h2.2.1, h2.2.2.1⟩
  · rw [checkTime_of_off_beat st hstop h]
    exact ⟨rfl, hstop, rfl, rfl⟩
  · have h2 := checkTime_snd_of_time_left st hstop (Or.inr h)
    exact ⟨checkTime_fst_of_time_left st hstop (Or.inr h), h2.1, h2.2.1, h2.2.2.1⟩

end SearchStats

namespace Searcher

/-- C25 (amended): at a position where the side to move is not in check and
`generateCaptures()` is empty, for every `alpha < beta` and every ply, with the stop flag
clear and the time budget not used up, `quiescence(alpha, beta, ply)` returns `beta` when
`evaluate() >= beta`; otherwise it returns `evaluate()` itself when `ply < 30`, also when
that is below `alpha`, and `max(alpha, evaluate())` when `ply >= 30`.  The call counts one
quiescence node and leaves the board and the table as they were. -/
theorem C25_quiescence_without_captures (fuel : Nat) (s : Searcher) (alpha beta ply : Int)
    (_hab : alpha < beta)
    (hcheck : s.board.isInCheck s.board.sideToMove_ = false)
    (hcap : s.board.generateCaptures = [])
    (hstop : s.stats.stopSearch = false)
    (htime : s.stats.maxTimeMs = INT64_MAX ∨
      s.stats.elapsed s.stats.clockReads < s.stats.maxTimeMs) :
    ∃ s1, quiescence (fuel + 1) s alpha beta ply =
        some (if Evaluator.evaluate s.board ≥ beta then beta
          else if ply ≥ MAX_QUIESCENCE_PLY then max alpha (Evaluator.evaluate s.board)
          else Evaluator.evaluate s.board, s1) ∧
      s1.board = s.board ∧ s1.tt = s.tt ∧ s1.stats.qNodes = s.stats.qNodes + 1 ∧
      s1.stats.nodes = s.stats.nodes := by
  have hstop0 : (s.enter true ply).stats.stopSearch = false := hstop
  have htime0 : (s.enter true ply).stats.maxTimeMs = INT64_MAX ∨
      (s.enter true ply).stats.elapsed (s.enter true ply).stats.clockReads <
        (s.enter true ply).stats.maxTimeMs := htime
  have h1 := SearchStats.checkTime_fst_of_time_left _ hstop0 htime0
  have h2 := SearchStats.checkTime_snd_of_time_left _ hstop0 htime0
  refine ⟨{ s.enter true ply with stats := (s.enter true ply).stats.checkTime.2 }, ?_, rfl, rfl,
    ?_, ?_⟩
  · have hb : (s.enter true ply).board = s.board := rfl
    simp only [quiescence, h1, Bool.false_eq_true, if_false, hb, hcheck, hcap, true_and,
      List.isEmpty_nil, if_true]
    by_cases hge : Evaluator.evaluate s.board ≥ beta
    · simp only [hge, if_true]
    · simp only [hge, if_false]
      by_cases hply : ply ≥ MAX_QUIESCENCE_PLY
      · have hmax : (if alpha < Evaluator.evaluate s.board then Evaluator.evaluate s.board
            else alpha) = max alpha (Evaluator.evaluate s.board) := by
          split_ifs <;> omega
        simp only [hply, if_true, hmax]
      · simp only [hply, if_false]
  · show (s.enter true ply).stats.checkTime.2.qNodes = s.stats.qNodes + 1
    rw [h2.2.2.1]
    rfl
  · show (s.enter true ply).stats.checkTime.2.nodes = s.stats.nodes
    rw [h2.2.1]
    rfl

end Searcher
namespace Board

theorem generateCaptures_new : Board.new.generateCaptures = [] := by
  unfold generateCaptures
  rw [generateMoves_new]
  decide

theorem evaluate_new : Evaluator.evaluate Board.new = 80 := by decide!

end Board

namespace Searcher

/-- C25 (counterexample): in the initial position, where White is not in check and has no
capture, `quiescence(100, 200, 0)` with the stop flag clear and no time limit returns 80,
the value of `evaluate()`, and not `max(100, 80) = 100`. -/
theorem C25_quiescence_below_alpha :
    Board.new.isInCheck Board.new.sideToMove_ = false ∧
    Board.new.generateCaptures = [] ∧
    (Searcher.new Board.new (fun _ => 0)).stats.stopSearch = false ∧
    (Searcher.new Board.new (fun _ => 0)).stats.maxTimeMs = INT64_MAX ∧
    Evaluator.evaluate Board.new = 80 ∧
    (quiescence 1 (Searcher.new Board.new (fun _ => 0)) 100 200 0).map Prod.fst = some 80 := by
  refine ⟨by decide, Board.generateCaptures_new, rfl, rfl, Board.evaluate_new, ?_⟩
  decide!

theorem C25_quiescence_without_captures_witness :
    ∃ s1, quiescence 1 (Searcher.new Board.new (fun _ => 0)) 100 200 0 =
        some (if Evaluator.evaluate (Searcher.new Board.new (fun _ => 0)).board ≥ 200 then 200
          else if (0 : Int) ≥ MAX_QUIESCENCE_PLY then
            max 100 (Evaluator.evaluate (Searcher.new Board.new (fun _ => 0)).board)
          else Evaluator.evaluate (Searcher.new Board.new (fun _ => 0)).board, s1) ∧
      s1.board = (Searcher.new Board.new (fun _ => 0)).board ∧
      s1.tt = (Searcher.new Board.new (fun _ => 0)).tt ∧
      s1.stats.qNodes = (Searcher.new Board.new (fun _ => 0)).stats.qNodes + 1 ∧
      s1.stats.nodes = (Searcher.new Board.new (fun _ => 0)).stats.nodes :=
  C25_quiescence_without_captures 0 (Searcher.new Board.new (fun _ => 0)) 100 200 0 (by decide)
    (by decide) Board.generateCaptures_new rfl (Or.inl rfl)

end Searcher

namespace Searcher

/-- C26 (amended): if the slot of the transposition table for `computeHash()` holds an
entry with that key and flag Exact whose stored depth is at least `d`, and at least
`d + 1` when the side to move is in check (the check extension comes before the probe),
the stop flag is clear and the time check at entry does not fire (there is no time limit,
or the node just counted is not a polling node, or the clock is below the budget), then
`negamax(d, alpha, beta, ply)` with `d >= 1` returns the stored score and move.  It does
so with a bound of one on nested calls, that is without any recursive call of `negamax` or `quiescence`; the
node counter grows by exactly 1, the quiescence counter, the table and the board stay
as they were. -/
theorem C26_tt_exact_hit (fuel : Nat) (s : Searcher) (d alpha beta ply : Int) (hd : 1 ≤ d)
    (hstop : s.stats.stopSearch = false)
    (htime : s.stats.maxTimeMs = INT64_MAX ∨
      (s.stats.nodes + 1 + s.stats.qNodes) % 2048 ≠ 0 ∨
      s.stats.elapsed s.stats.clockReads < s.stats.maxTimeMs)
    (hkey : (s.tt (s.board.computeHash % s.ttLen)).key = s.board.computeHash)
    (hflag : (s.tt (s.board.computeHash % s.ttLen)).flag = 1)
    (hdepth : (s.tt (s.board.computeHash % s.ttLen)).depth ≥
      if s.board.isInCheck s.board.sideToMove_ then d + 1 else d) :
    ∃ s1, negamax (fuel + 1) s d alpha beta ply =
        some (((s.tt (s.board.computeHash % s.ttLen)).score,
          some (s.tt (s.board.computeHash % s.ttLen)).move), s1) ∧
      negamax 1 s d alpha beta ply = negamax (fuel + 1) s d alpha beta ply ∧
      s1.stats.nodes = s.stats.nodes + 1 ∧ s1.stats.qNodes = s.stats.qNodes ∧
      s1.tt = s.tt ∧ s1.board = s.board := by
  have hstop0 : (s.enter false ply).stats.stopSearch = false := hstop
  have htime0 : (s.enter false ply).stats.maxTimeMs = INT64_MAX ∨
      ((s.enter false ply).stats.nodes + (s.enter false ply).stats.qNodes) % 2048 ≠ 0 ∨
      (s.enter false ply).stats.elapsed (s.enter false ply).stats.clockReads <
        (s.enter false ply).stats.maxTimeMs := htime
  have h0 := SearchStats.checkTime_goes_on _ hstop0 htime0
  have h1 := h0.1
  have hb : (s.enter false ply).board = s.board := rfl
  have ht : (s.enter false ply).tt = s.tt := rfl
  have hl : (s.enter false ply).ttLen = s.ttLen := rfl
  have hd0 : ¬ d ≤ 0 := by omega
  have hprobe : ∀ a b : Int, (s.tt (s.board.computeHash % s.ttLen)).probe s.board.computeHash
      (if s.board.isInCheck s.board.sideToMove_ then d + 1 else d) a b =
      some ((s.tt (s.board.computeHash % s.ttLen)).score,
        some (s.tt (s.board.computeHash % s.ttLen)).move) := by
    intro a b
    unfold TTEntry.probe
    simp only [hkey, hflag, hdepth, and_self, if_true]
  have hval : ∀ n, negamax (n + 1) s d alpha beta ply =
      some (((s.tt (s.board.computeHash % s.ttLen)).score,
        some (s.tt (s.board.computeHash % s.ttLen)).move),
        { s.enter false ply with stats := (s.enter false ply).stats.checkTime.2 }) := by
    intro n
    simp only [negamax, h1, Bool.false_eq_true, if_false, hd0, hb, ht, hl, hprobe]
  refine ⟨_, hval fuel, ?_, ?_, ?_, rfl, rfl⟩
  · rw [hval fuel, hval 0]
  · show (s.enter false ply).stats.checkTime.2.nodes = s.stats.nodes + 1
    rw [h0.2.2.1]
    rfl
  · show (s.enter false ply).stats.checkTime.2.qNodes = s.stats.qNodes
    rw [h0.2.2.2]
    rfl

end Searcher
namespace Searcher

/-- C26 (counterexample): after 1. f3 e5 2. g4 Qh4 White is in check.  With an Exact
entry of depth 1 and score 0 stored under the position's key, the stop flag clear and no
time limit, `negamax(1, -30000, 30000, 0)` does not return the stored score 0: the check
extension raises the depth to 2 before the probe, the entry of depth 1 is passed over and
the call returns the mate score -30000.  And on the initial position, not in check, with
an Exact entry of depth 4 and score 35 under the position's key and the stop flag clear,
`negamax(3, -50, 50, 4)` called with 2047 nodes counted and the budget of 100 ms used up
counts node 2048, reads the clock and returns its alpha, -50, with no move. -/
theorem C26_tt_entry_not_obeyed :
    (matedSearcher.tt (matedSearcher.board.computeHash % matedSearcher.ttLen)).key =
      matedSearcher.board.computeHash ∧
    (matedSearcher.tt (matedSearcher.board.computeHash % matedSearcher.ttLen)).flag = 1 ∧
    (matedSearcher.tt (matedSearcher.board.computeHash % matedSearcher.ttLen)).depth ≥ 1 ∧
    (matedSearcher.tt (matedSearcher.board.computeHash % matedSearcher.ttLen)).score = 0 ∧
    matedSearcher.stats.stopSearch = false ∧
    matedSearcher.stats.maxTimeMs = INT64_MAX ∧
    matedSearcher.board.isInCheck matedSearcher.board.sideToMove_ = true ∧
    (negamax 1 matedSearcher 1 (-30000) 30000 0).map Prod.fst = some (-30000, none) ∧
    (lateHitSearcher.tt
      (lateHitSearcher.board.computeHash % lateHitSearcher.ttLen)).key =
      lateHitSearcher.board.computeHash ∧
    (lateHitSearcher.tt
      (lateHitSearcher.board.computeHash % lateHitSearcher.ttLen)).flag = 1 ∧
    (lateHitSearcher.tt
      (lateHitSearcher.board.computeHash % lateHitSearcher.ttLen)).depth ≥ 3 ∧
    (lateHitSearcher.tt
      (lateHitSearcher.board.computeHash % lateHitSearcher.ttLen)).score = 35 ∧
    lateHitSearcher.stats.stopSearch = false ∧
    lateHitSearcher.board.isInCheck lateHitSearcher.board.sideToMove_ = false ∧
    (negamax 1 lateHitSearcher 3 (-50) 50 4).map Prod.fst = some (-50, none) := by
  refine ⟨by decide!, by decide!, by decide!, by decide!, by decide!, by decide!, by decide!,
    by decide!, by decide!, by decide!, by decide!, by decide!, by decide!, by decide!,
    by decide!⟩

theorem C26_tt_exact_hit_witness :
    ∃ s1, negamax 1 hitSearcher 3 (-50) 50 0 =
        some (((hitSearcher.tt (hitSearcher.board.computeHash % hitSearcher.ttLen)).score,
          some (hitSearcher.tt (hitSearcher.board.computeHash % hitSearcher.ttLen)).move), s1) ∧
      negamax 1 hitSearcher 3 (-50) 50 0 = negamax (0 + 1) hitSearcher 3 (-50) 50 0 ∧
      s1.stats.nodes = hitSearcher.stats.nodes + 1 ∧
      s1.stats.qNodes = hitSearcher.stats.qNodes ∧
      s1.tt = hitSearcher.tt ∧ s1.board = hitSearcher.board :=
  C26_tt_exact_hit 0 hitSearcher 3 (-50) 50 0 (by decide) rfl (Or.inl rfl) (by decide)
    (by decide) (by decide)

end Searcher

theorem SearchStats.checkTime_elapsed (st : SearchStats) :
    st.checkTime.2.elapsed = st.elapsed := by
  unfold SearchStats.checkTime SearchStats.readClock
  dsimp only
  split_ifs <;> rfl

namespace Searcher

theorem negamaxMoves_drawn (child : Searcher → Int → Int → Int → Option ((Int × Option Move) × Searcher))
    (s : Searcher) (depth alpha beta ply : Int) (hash : Nat)
    (hcheck : s.board.isInCheck s.board.sideToMove_ = false)
    (hdraw : s.board.isInsufficientMaterial = true) :
    negamaxMoves child s depth alpha beta ply hash = some ((0, none), s) := by
  have hmate : ¬ (s.board.isCheckmate = true) := by
    unfold Board.isCheckmate
    rw [hcheck]
    simp
  have hd : (s.board.isStalemate || s.board.isInsufficientMaterial) = true := by
    rw [hdraw]
    simp
  unfold negamaxMoves
  rw [if_neg hmate, if_pos hd]

theorem negamaxNull_drawn (child : Searcher → Int → Int → Int → Option ((Int × Option Move) × Searcher))
    (s : Searcher) (depth alpha beta ply : Int) (hash : Nat)
    (hcheck : s.board.isInCheck s.board.sideToMove_ = false)
    (hmat : s.board.hasNonPawnMaterial s.board.sideToMove_ = false)
    (hdraw : s.board.isInsufficientMaterial = true) :
    negamaxNull child s depth alpha beta ply hash = some ((0, none), s) := by
  have hc : ¬ (depth ≥ 3 ∧ s.board.isInCheck s.board.sideToMove_ = false ∧
      s.board.hasNonPawnMaterial s.board.sideToMove_ = true) := by
    rw [hmat]
    simp
  unfold negamaxNull
  rw [if_neg hc]
  exact negamaxMoves_drawn child s depth alpha beta ply hash hcheck hdraw

/-- At a root that `isInsufficientMaterial()` calls drawn, the mover not in check and
without a piece other than pawns and king, `negamax` with an empty table, the stop flag
clear and no time limit returns score 0 and no move, and leaves board and table as they
were. -/
theorem negamax_drawn_root (fuel : Nat) (s : Searcher) (depth alpha beta ply : Int)
    (hd : 1 ≤ depth)
    (hcheck : s.board.isInCheck s.board.sideToMove_ = false)
    (hmat : s.board.hasNonPawnMaterial s.board.sideToMove_ = false)
    (hdraw : s.board.isInsufficientMaterial = true)
    (htt : s.tt = fun _ => TTEntry.empty)
    (hstop : s.stats.stopSearch = false)
    (htime : s.stats.maxTimeMs = INT64_MAX) :
    ∃ s1, negamax (fuel + 1) s depth alpha beta ply = some ((0, none), s1) ∧
      s1.board = s.board ∧ s1.tt = s.tt ∧ s1.stats.stopSearch = false ∧
      s1.stats.maxTimeMs = INT64_MAX ∧ s1.stats.elapsed = s.stats.elapsed := by
  have hstop0 : (s.enter false ply).stats.stopSearch = false := hstop
  have htime0 : (s.enter false ply).stats.maxTimeMs = INT64_MAX ∨
      (s.enter false ply).stats.elapsed (s.enter false ply).stats.clockReads <
        (s.enter false ply).stats.maxTimeMs := Or.inl htime
  have h1 := SearchStats.checkTime_fst_of_time_left _ hstop0 htime0
  have h2 := SearchStats.checkTime_snd_of_time_left _ hstop0 htime0
  have hd0 : ¬ depth ≤ 0 := by omega
  have hprobe : TTEntry.empty.probe s.board.computeHash depth alpha beta = none := by
    unfold TTEntry.probe
    have : ¬ (TTEntry.empty.key = s.board.computeHash ∧ TTEntry.empty.depth ≥ depth) := by
      intro h
      have h3 : TTEntry.empty.depth = 0 := rfl
      omega
    rw [if_neg this]
  have hel : (s.enter false ply).stats.checkTime.2.elapsed = s.stats.elapsed :=
    SearchStats.checkTime_elapsed _
  refine ⟨{ s.enter false ply with stats := (s.enter false ply).stats.checkTime.2 }, ?_, rfl,
    rfl, h2.1, ?_, hel⟩
  · unfold negamax
    have hc1 : ¬ ((s.enter false ply).stats.checkTime.1 = true) := by
      rw [h1]
      simp
    dsimp only
    rw [if_neg hc1, if_neg hd0]
    have hb : ({ s.enter false ply with stats := (s.enter false ply).stats.checkTime.2 } :
      Searcher).board = s.board := rfl
    have ht : ({ s.enter false ply with stats := (s.enter false ply).stats.checkTime.2 } :
      Searcher).tt = s.tt := rfl
    rw [hb, ht, htt, hcheck]
    simp only [Bool.false_eq_true, if_false]
    rw [hprobe]
    exact negamaxNull_drawn _ _ depth alpha beta ply _ hcheck hmat hdraw
  · show (s.enter false ply).stats.checkTime.2.maxTimeMs = INT64_MAX
    rw [h2.2.2.2]
    exact htime

end Searcher
namespace Searcher

theorem deepen_drawn (fuel : Nat) (b : Board)
    (hcheck : b.isInCheck b.sideToMove_ = false)
    (hmat : b.hasNonPawnMaterial b.sideToMove_ = false)
    (hdraw : b.isInsufficientMaterial = true) :
    ∀ (n : Nat) (cd : Int) (s : Searcher) (it : Iteration), 1 ≤ cd → s.board = b →
      (s.tt = fun _ => TTEntry.empty) → s.stats.stopSearch = false →
      s.stats.maxTimeMs = INT64_MAX → it.bestMove = none → it.prevScore = 0 →
      ∃ it1 s1, deepen (fuel + 1) n cd s it = some (it1, s1) ∧ it1.bestMove = none ∧
        it1.finalDepth = if n = 0 then it.finalDepth else cd + n - 1 := by
  intro n
  induction n with
  | zero =>
      intro cd s it _ _ _ _ _ hbest _
      exact ⟨it, s, rfl, hbest, rfl⟩
  | succ n ih =>
      intro cd s it hcd hb htt hstop htime hbest hprev
      have h1 := SearchStats.checkTime_fst_of_time_left s.stats hstop (Or.inl htime)
      have h2 := SearchStats.checkTime_snd_of_time_left s.stats hstop (Or.inl htime)
      have hc1 : ¬ (s.stats.checkTime.1 = true) := by
        rw [h1]
        simp
      have hroot := negamax_drawn_root fuel
        { s with stats := { s.stats.checkTime.2 with depth := cd, seldepth := 0 } } cd
        (if cd ≥ 5 then it.prevScore - 50 else -INFINITY_SCORE)
        (if cd ≥ 5 then it.prevScore + 50 else INFINITY_SCORE) 0 hcd
        (by rw [show ({ s with stats := { s.stats.checkTime.2 with depth := cd, seldepth := 0 } } :
          Searcher).board = b from hb]; exact hcheck)
        (by rw [show ({ s with stats := { s.stats.checkTime.2 with depth := cd, seldepth := 0 } } :
          Searcher).board = b from hb]; exact hmat)
        (by rw [show ({ s with stats := { s.stats.checkTime.2 with depth := cd, seldepth := 0 } } :
          Searcher).board = b from hb]; exact hdraw)
        htt h2.1 (h2.2.2.2.trans htime)
      dsimp only at hroot
      obtain ⟨s2, hneg, hb2, htt2, hstop2, htime2, _⟩ := hroot
      have hwin : ¬ (((0 : Int) ≤ if cd ≥ 5 then it.prevScore - 50 else -INFINITY_SCORE) ∨
          (0 : Int) ≥ if cd ≥ 5 then it.prevScore + 50 else INFINITY_SCORE) := by
        rw [hprev]
        unfold INFINITY_SCORE
        split_ifs <;> omega
      have hs2 : ¬ (s2.stats.stopSearch = true) := by
        rw [hstop2]
        simp
      have hread1 := SearchStats.checkTime_fst_of_time_left
        ({ s2.stats with clockReads := s2.stats.clockReads + 2 } : SearchStats) hstop2
        (Or.inl htime2)
      have hread2 := SearchStats.checkTime_snd_of_time_left
        ({ s2.stats with clockReads := s2.stats.clockReads + 2 } : SearchStats) hstop2
        (Or.inl htime2)
      have hrec := ih (cd + 1)
        { s2 with stats := ({ s2.stats with clockReads := s2.stats.clockReads + 2 } :
          SearchStats).checkTime.2 }
        ⟨none, 0, cd⟩ (by omega) (hb2.trans hb) (htt2.trans htt) hread2.1
        (hread2.2.2.2.trans htime2) rfl rfl
      dsimp only at hread1 hrec
      have hread : ¬ ((SearchStats.checkTime ⟨s2.stats.nodes, s2.stats.qNodes, s2.stats.depth,
          s2.stats.seldepth, s2.stats.maxTimeMs, s2.stats.stopSearch, s2.stats.elapsed,
          s2.stats.clockReads + 2⟩).1 = true) := by
        rw [hread1]
        simp
      obtain ⟨it1, s1, hrec, hbest1, hfin1⟩ := hrec
      refine ⟨it1, s1, ?_, hbest1, ?_⟩
      · unfold deepen
        dsimp only
        rw [if_neg hc1, hneg]
        dsimp only
        rw [if_neg hs2, if_neg hwin]
        dsimp only
        rw [if_neg hread]
        simpa [hbest] using hrec
      · rw [hfin1]
        simp only [Nat.succ_ne_zero, if_false]
        split_ifs with hn
        · subst hn
          simp
        · push_cast
          omega

end Searcher
namespace Searcher

/-- C27 (the failing inputs): `iterativeDeepening` returns no move at a root that
`isInsufficientMaterial()` calls drawn.  For every searcher whose board is such a
position, with the side to move not in check and without a piece other than pawns and
king, every `maxDepth >= 1` and no time limit, every iteration's root `negamax` returns
`(0, nullopt)` at the draw test that precedes the move loop, so the call returns no move
together with `finalDepth = maxDepth`, whether or not `generateMoves()` is empty.  With
kings on e1 and e8 and a white queen on d1, Black to move, the position has one king per
colour and three legal moves, and no move is returned. -/
theorem C27_no_move_at_drawn_root (fuel : Nat) (s : Searcher) (maxDepth : Int)
    (hmax : 1 ≤ maxDepth)
    (hcheck : s.board.isInCheck s.board.sideToMove_ = false)
    (hmat : s.board.hasNonPawnMaterial s.board.sideToMove_ = false)
    (hdraw : s.board.isInsufficientMaterial = true) :
    ∃ s1, iterativeDeepening (fuel + 1) s maxDepth INT64_MAX = some ((none, maxDepth), s1) := by
  obtain ⟨it1, s1, hrun, hbest, hfin⟩ := deepen_drawn fuel s.board hcheck hmat hdraw
    maxDepth.toNat 1
    { s with
      stats := s.stats.start INT64_MAX
      tt := fun _ => TTEntry.empty
      killers_ := List.replicate 30 (none, none)
      history_ := fun _ _ => 0 }
    ⟨none, 0, 0⟩ (by omega) rfl rfl rfl rfl rfl rfl
  refine ⟨s1, ?_⟩
  unfold iterativeDeepening
  dsimp only
  rw [hrun]
  dsimp only
  rw [hbest, hfin]
  have hn : maxDepth.toNat ≠ 0 := by omega
  simp only [hn, if_false]
  have : (1 : Int) + (maxDepth.toNat : Int) - 1 = maxDepth := by omega
  rw [this]

theorem C27_no_move_at_drawn_root_witness :
    queenEndgame.OneKingEach ∧ queenEndgame.generateMoves.length = 3 ∧
      ∃ s1, iterativeDeepening 1 (Searcher.new queenEndgame (fun _ => 0)) 5 INT64_MAX =
        some ((none, 5), s1) :=
  ⟨by decide, by decide,
    C27_no_move_at_drawn_root 0 (Searcher.new queenEndgame (fun _ => 0)) 5 (by decide)
      (by decide) (by decide) (by decide)⟩

end Searcher


namespace SearchStats

theorem checkTime_of_time_up (st : SearchStats) (hstop : st.stopSearch = false)
    (hmax : st.maxTimeMs ≠ INT64_MAX) (hmod : (st.nodes + st.qNodes) % 2048 = 0)
    (hup : st.elapsed st.clockReads ≥ st.maxTimeMs) :
    st.checkTime = (true, { st with clockReads := st.clockReads + 1, stopSearch := true }) := by
  unfold checkTime readClock
  rw [if_neg (by rw [hstop]; simp), if_neg hmax, if_neg (by rw [hmod]; simp)]
  dsimp only
  rw [if_pos hup]

end SearchStats

namespace Searcher

theorem orderMoves_perm (s : Searcher) (moves : List Move) (ply : Int) (hash : Nat) :
    (s.orderMoves moves ply hash).Perm moves := by
  unfold orderMoves
  have h1 := (List.perm_insertionSort (fun a b : Int × Move => a.1 ≥ b.1)
    (moves.map (fun move => (s.scoreMove move ply hash, move)))).map (fun p => p.2)
  have h2 : ((moves.map (fun move => (s.scoreMove move ply hash, move))).map (fun p => p.2)) =
      moves := by
    rw [List.map_map]
    exact List.map_id _
  rw [h2] at h1
  exact h1

/-- A call of `negamax` whose time check fires returns the `alpha` it was given and no
move; it sets the stop flag and changes nothing else but the statistics. -/
theorem negamax_of_time_up (fuel : Nat) (s : Searcher) (depth alpha beta ply : Int)
    (hstop : s.stats.stopSearch = false) (hmax : s.stats.maxTimeMs ≠ INT64_MAX)
    (hmod : (s.stats.nodes + 1 + s.stats.qNodes) % 2048 = 0)
    (hup : s.stats.elapsed s.stats.clockReads ≥ s.stats.maxTimeMs) :
    ∃ s1, negamax (fuel + 1) s depth alpha beta ply = some ((alpha, none), s1) ∧
      s1.stats.stopSearch = true ∧ s1.board = s.board ∧ s1.tt = s.tt ∧ s1.ttLen = s.ttLen := by
  have hct := SearchStats.checkTime_of_time_up (s.enter false ply).stats hstop hmax hmod hup
  refine ⟨{ s.enter false ply with stats := (s.enter false ply).stats.checkTime.2 }, ?_, ?_,
    rfl, rfl, rfl⟩
  · unfold negamax
    dsimp only
    rw [if_pos (by rw [hct])]
  · show (s.enter false ply).stats.checkTime.2.stopSearch = true
    rw [hct]

end Searcher
namespace Searcher

theorem pushKiller_frame (s : Searcher) (ply : Int) (move : Move) :
    (s.pushKiller ply move).stats = s.stats ∧ (s.pushKiller ply move).tt = s.tt ∧
      (s.pushKiller ply move).ttLen = s.ttLen := by
  unfold pushKiller
  dsimp only
  split_ifs <;> exact ⟨rfl, rfl, rfl⟩

/-- The killer and history updates at the end of a loop step leave statistics and table
alone. -/
theorem loop_exit_frame (s : Searcher) (c1 c2 : Prop) [Decidable c1] [Decidable c2]
    (ply depth : Int) (m : Move) :
    (if c1 then (if c2 then s.pushKiller ply m else s).addHistory m depth
      else (if c2 then s.pushKiller ply m else s)).stats = s.stats ∧
    (if c1 then (if c2 then s.pushKiller ply m else s).addHistory m depth
      else (if c2 then s.pushKiller ply m else s)).tt = s.tt ∧
    (if c1 then (if c2 then s.pushKiller ply m else s).addHistory m depth
      else (if c2 then s.pushKiller ply m else s)).ttLen = s.ttLen := by
  have h := pushKiller_frame s ply m
  by_cases h1 : c1 <;> by_cases h2 : c2
  · rw [if_pos h1, if_pos h2]
    exact h
  · rw [if_pos h1, if_neg h2]
    exact ⟨rfl, rfl, rfl⟩
  · rw [if_neg h1, if_pos h2]
    exact h
  · rw [if_neg h1, if_neg h2]
    exact ⟨rfl, rfl, rfl⟩

/-- The move loop of `negamax` when the search of its first move is cut short by the
clock: the child hands back `-beta`, the loop takes the negated value as a beta cutoff
and is left with `alpha = bestScore = beta` and the first move as best move. -/
theorem negamaxLoop_first_child_aborts
    (child : Searcher → Int → Int → Int → Option ((Int × Option Move) × Searcher))
    (s : Searcher) (depth alpha beta ply : Int) (m : Move) (rest : List Move)
    (hab : alpha < beta) (hlow : -INFINITY_SCORE ≤ alpha)
    (hstop : s.stats.stopSearch = false)
    (hchild : ∃ sc, child { s with board := s.board.makeMove m } (depth - 1) (-beta) (-alpha) =
      some ((-beta, none), sc) ∧ sc.stats.stopSearch = true ∧ sc.tt = s.tt ∧
        sc.ttLen = s.ttLen) :
    ∃ sL, negamaxLoop child depth beta ply (m :: rest) s ⟨alpha, -INFINITY_SCORE, none, 0⟩ =
        some (⟨beta, beta, some m, 1⟩, sL) ∧
      sL.stats.stopSearch = true ∧ sL.tt = s.tt ∧ sL.ttLen = s.ttLen := by
  obtain ⟨sc, hc, hcstop, hctt, hclen⟩ := hchild
  have hred : ¬ (depth ≥ 3 ∧ (0 : Int) ≥ 3 ∧ s.board.isCapture m = false ∧ m.promotion = none ∧
      s.board.isInCheck s.board.sideToMove_ = false) := by
    intro h
    omega
  have hsearch : searchMove child { s with board := s.board.makeMove m } depth 0 alpha beta =
      some (beta, sc) := by
    unfold searchMove
    rw [if_neg (by omega), hc]
    simp only [neg_neg]
  have hrec : MoveLoop.record ⟨alpha, -INFINITY_SCORE, none, 0⟩ beta m = ⟨beta, beta, some m, 1⟩ := by
    unfold MoveLoop.record
    simp only [gt_iff_lt, hab, if_true, zero_add]
    have : -INFINITY_SCORE < beta := by omega
    simp only [this, if_true]
  unfold negamaxLoop
  rw [if_neg (by rw [hstop]; simp)]
  dsimp only
  rw [if_neg hred, hsearch]
  dsimp only
  rw [hrec]
  rw [if_pos (le_refl beta)]
  have hframe := loop_exit_frame { sc with board := sc.board.unmakeMove }
    (s.board.isCapture m = false)
    (beta > alpha ∧ s.board.isCapture m = false ∧ ply < MAX_KILLER_DEPTH) ply depth m
  exact ⟨_, rfl, by rw [hframe.1]; exact hcstop, hframe.2.1.trans hctt, hframe.2.2.trans hclen⟩

end Searcher
namespace Searcher

theorem generateMoves_ne_nil_of_not_over (b : Board) (hmate : b.isCheckmate = false)
    (hdraw : (b.isStalemate || b.isInsufficientMaterial) = false) :
    b.generateMoves.isEmpty = false := by
  unfold Board.isCheckmate at hmate
  unfold Board.isStalemate at hdraw
  cases he : b.generateMoves.isEmpty
  · rfl
  · rw [he] at hmate hdraw
    cases hc : b.isInCheck b.sideToMove_
    · rw [hc] at hdraw
      simp at hdraw
    · rw [hc] at hmate
      simp at hmate

/-- The rest of `negamax` from the mate and draw tests on, when the search of the first
move is cut short by the clock: the result is `beta` with the first move, and `storeTT`
is called with it. -/
theorem negamaxMoves_first_child_aborts
    (child : Searcher → Int → Int → Int → Option ((Int × Option Move) × Searcher))
    (s : Searcher) (depth alpha beta ply : Int) (hash : Nat)
    (hab : alpha < beta) (hlow : -INFINITY_SCORE ≤ alpha)
    (hstop : s.stats.stopSearch = false)
    (hmate : s.board.isCheckmate = false)
    (hdraw : (s.board.isStalemate || s.board.isInsufficientMaterial) = false)
    (hchild : ∀ m, ∃ sc, child { s with board := s.board.makeMove m } (depth - 1) (-beta)
      (-alpha) = some ((-beta, none), sc) ∧ sc.stats.stopSearch = true ∧ sc.tt = s.tt ∧
        sc.ttLen = s.ttLen) :
    ∃ (m : Move) (sL : Searcher), negamaxMoves child s depth alpha beta ply hash =
        some ((beta, some m), sL.storeTT hash m beta depth 2) ∧
      m ∈ s.board.generateMoves ∧ sL.stats.stopSearch = true ∧ sL.tt = s.tt ∧
      sL.ttLen = s.ttLen := by
  have hne := generateMoves_ne_nil_of_not_over s.board hmate hdraw
  have hperm := orderMoves_perm s s.board.generateMoves ply hash
  cases hord : s.orderMoves s.board.generateMoves ply hash with
  | nil =>
      rw [hord] at hperm
      have := hperm.symm.eq_nil
      rw [this] at hne
      simp at hne
  | cons m rest =>
      have hm : m ∈ s.board.generateMoves := by
        apply hperm.mem_iff.1
        rw [hord]
        exact List.mem_cons_self _ _
      obtain ⟨sL, hloop, hLstop, hLtt, hLlen⟩ := negamaxLoop_first_child_aborts child s depth
        alpha beta ply m rest hab hlow hstop (hchild m)
      refine ⟨m, sL, ?_, hm, hLstop, hLtt, hLlen⟩
      unfold negamaxMoves
      rw [if_neg (by rw [hmate]; simp), if_neg (by rw [hdraw]; simp)]
      dsimp only
      rw [if_neg (by rw [hne]; simp), hord, hloop]
      dsimp only
      rw [if_neg (by omega), if_pos (le_refl beta)]
      rfl

theorem negamaxNull_first_child_aborts
    (child : Searcher → Int → Int → Int → Option ((Int × Option Move) × Searcher))
    (s : Searcher) (depth alpha beta ply : Int) (hash : Nat)
    (hab : alpha < beta) (hlow : -INFINITY_SCORE ≤ alpha)
    (hstop : s.stats.stopSearch = false)
    (hnull : ¬ (depth ≥ 3 ∧ s.board.isInCheck s.board.sideToMove_ = false ∧
      s.board.hasNonPawnMaterial s.board.sideToMove_ = true))
    (hmate : s.board.isCheckmate = false)
    (hdraw : (s.board.isStalemate || s.board.isInsufficientMaterial) = false)
    (hchild : ∀ m, ∃ sc, child { s with board := s.board.makeMove m } (depth - 1) (-beta)
      (-alpha) = some ((-beta, none), sc) ∧ sc.stats.stopSearch = true ∧ sc.tt = s.tt ∧
        sc.ttLen = s.ttLen) :
    ∃ (m : Move) (sL : Searcher), negamaxNull child s depth alpha beta ply hash =
        some ((beta, some m), sL.storeTT hash m beta depth 2) ∧
      m ∈ s.board.generateMoves ∧ sL.stats.stopSearch = true ∧ sL.tt = s.tt ∧
      sL.ttLen = s.ttLen := by
  unfold negamaxNull
  rw [if_neg hnull]
  exact negamaxMoves_first_child_aborts child s depth alpha beta ply hash hab hlow hstop hmate
    hdraw hchild

end Searcher
namespace Searcher

/-- C29 (the failing inputs): a `negamax` call that returns with the stop flag set need not return
its `alpha`, and it writes the table.  Take any call with `depth >= 1` and
`-30000 <= alpha < beta` that gets as far as its move loop (table miss, no null-move
search, no mate or draw at the node) in a search with a finite budget that is used up,
the stop flag still clear, and node counters such that the node of the first child is a
multiple of 2048.  The child reads the clock, latches the flag and returns its own
alpha, `-beta`; the parent negates it, takes `beta` as a cutoff, leaves the loop, calls
`storeTT` with score `beta` and flag LowerBound, and returns `beta` with the first move
of the ordered list: not `alpha`, and with the slot of its key overwritten whenever the
replacement rule allows. -/
theorem C29_abort_returns_beta_and_stores (fuel : Nat) (s : Searcher)
    (depth alpha beta ply : Int) (hd : 1 ≤ depth) (hab : alpha < beta)
    (hlow : -INFINITY_SCORE ≤ alpha)
    (hstop : s.stats.stopSearch = false)
    (hmax : s.stats.maxTimeMs ≠ INT64_MAX)
    (hmod : (s.stats.nodes + s.stats.qNodes + 2) % 2048 = 0)
    (hup : s.stats.elapsed s.stats.clockReads ≥ s.stats.maxTimeMs)
    (hprobe : (s.tt (s.board.computeHash % s.ttLen)).probe s.board.computeHash
      (if s.board.isInCheck s.board.sideToMove_ then depth + 1 else depth) alpha beta = none)
    (hnull : ¬ ((if s.board.isInCheck s.board.sideToMove_ then depth + 1 else depth) ≥ 3 ∧
      s.board.isInCheck s.board.sideToMove_ = false ∧
      s.board.hasNonPawnMaterial s.board.sideToMove_ = true))
    (hmate : s.board.isCheckmate = false)
    (hdraw : (s.board.isStalemate || s.board.isInsufficientMaterial) = false) :
    ∃ (m : Move) (s1 : Searcher),
      negamax (fuel + 2) s depth alpha beta ply = some ((beta, some m), s1) ∧
      beta ≠ alpha ∧ m ∈ s.board.generateMoves ∧ s1.stats.stopSearch = true ∧
      ((if s.board.isInCheck s.board.sideToMove_ then depth + 1 else depth) ≥
          (s.tt (s.board.computeHash % s.ttLen)).depth ∨
        (s.tt (s.board.computeHash % s.ttLen)).key = 0 →
        s1.tt (s.board.computeHash % s.ttLen) =
          ⟨s.board.computeHash, m, beta,
            if s.board.isInCheck s.board.sideToMove_ then depth + 1 else depth, 2⟩) := by
  have hmod0 : ((s.enter false ply).stats.nodes + (s.enter false ply).stats.qNodes) % 2048 ≠
      0 := by
    show (s.stats.nodes + 1 + s.stats.qNodes) % 2048 ≠ 0
    omega
  have hct := SearchStats.checkTime_of_off_beat (s.enter false ply).stats hstop hmod0
  have hS : ({ s.enter false ply with stats := (s.enter false ply).stats.checkTime.2 } :
      Searcher).stats = (s.enter false ply).stats := by
    show (s.enter false ply).stats.checkTime.2 = _
    rw [hct]
  have hchild : ∀ m, ∃ sc, (fun s d a b => negamax (fuel + 1) s d a b (ply + 1))
      { ({ s.enter false ply with stats := (s.enter false ply).stats.checkTime.2 } : Searcher)
        with board := ({ s.enter false ply with
          stats := (s.enter false ply).stats.checkTime.2 } : Searcher).board.makeMove m }
      ((if s.board.isInCheck s.board.sideToMove_ then depth + 1 else depth) - 1) (-beta)
      (-alpha) = some ((-beta, none), sc) ∧ sc.stats.stopSearch = true ∧
      sc.tt = ({ s.enter false ply with stats := (s.enter false ply).stats.checkTime.2 } :
        Searcher).tt ∧
      sc.ttLen = ({ s.enter false ply with stats := (s.enter false ply).stats.checkTime.2 } :
        Searcher).ttLen := by
    intro m
    obtain ⟨sc, h1, h2, _, h4, h5⟩ := negamax_of_time_up fuel
      { ({ s.enter false ply with stats := (s.enter false ply).stats.checkTime.2 } : Searcher)
        with board := ({ s.enter false ply with
          stats := (s.enter false ply).stats.checkTime.2 } : Searcher).board.makeMove m }
      ((if s.board.isInCheck s.board.sideToMove_ then depth + 1 else depth) - 1) (-beta)
      (-alpha) (ply + 1)
      (by show (s.enter false ply).stats.checkTime.2.stopSearch = false
          rw [hct]
          exact hstop)
      (by show (s.enter false ply).stats.checkTime.2.maxTimeMs ≠ INT64_MAX
          rw [hct]
          exact hmax)
      (by show ((s.enter false ply).stats.checkTime.2.nodes + 1 +
            (s.enter false ply).stats.checkTime.2.qNodes) % 2048 = 0
          rw [hct]
          show (s.stats.nodes + 1 + 1 + s.stats.qNodes) % 2048 = 0
          omega)
      (by show (s.enter false ply).stats.checkTime.2.elapsed
            (s.enter false ply).stats.checkTime.2.clockReads ≥
            (s.enter false ply).stats.checkTime.2.maxTimeMs
          rw [hct]
          exact hup)
    exact ⟨sc, h1, h2, h4, h5⟩
  obtain ⟨m, sL, hres, hm, hLstop, hLtt, hLlen⟩ := negamaxNull_first_child_aborts
    (fun s d a b => negamax (fuel + 1) s d a b (ply + 1))
    { s.enter false ply with stats := (s.enter false ply).stats.checkTime.2 }
    (if s.board.isInCheck s.board.sideToMove_ then depth + 1 else depth) alpha beta ply
    s.board.computeHash hab hlow
    (by rw [hS]; exact hstop) hnull hmate hdraw hchild
  refine ⟨m, sL.storeTT s.board.computeHash m beta
    (if s.board.isInCheck s.board.sideToMove_ then depth + 1 else depth) 2, ?_,
    (ne_of_lt hab).symm, hm, ?_, ?_⟩
  · unfold negamax
    dsimp only
    rw [if_neg (by rw [hct]; simp), if_neg (by omega)]
    have hb : ({ s.enter false ply with stats := (s.enter false ply).stats.checkTime.2 } :
      Searcher).board = s.board := rfl
    have ht : ({ s.enter false ply with stats := (s.enter false ply).stats.checkTime.2 } :
      Searcher).tt = s.tt := rfl
    have hl : ({ s.enter false ply with stats := (s.enter false ply).stats.checkTime.2 } :
      Searcher).ttLen = s.ttLen := rfl
    rw [hb, ht, hl, hprobe]
    exact hres
  · show (sL.storeTT _ _ _ _ _).stats.stopSearch = true
    have : (sL.storeTT s.board.computeHash m beta
        (if s.board.isInCheck s.board.sideToMove_ then depth + 1 else depth) 2).stats =
        sL.stats := by
      unfold storeTT
      dsimp only
      split_ifs <;> rfl
    rw [this]
    exact hLstop
  · intro hrep
    show (sL.storeTT _ _ _ _ _).tt _ = _
    unfold storeTT
    dsimp only
    have hLtt1 : sL.tt = s.tt := hLtt
    have hLlen1 : sL.ttLen = s.ttLen := hLlen
    rw [hLtt1, hLlen1, if_pos hrep]
    exact Function.update_same _ _ _

end Searcher
namespace Searcher

theorem C29_abort_returns_beta_and_stores_witness :
    (∃ (m : Move) (s1 : Searcher),
      negamax (0 + 2) lateSearcher 1 (-100) 100 2 = some ((100, some m), s1) ∧
      (100 : Int) ≠ -100 ∧ m ∈ lateSearcher.board.generateMoves ∧
      s1.stats.stopSearch = true ∧
      ((if lateSearcher.board.isInCheck lateSearcher.board.sideToMove_ then (1 : Int) + 1
          else 1) ≥
          (lateSearcher.tt (lateSearcher.board.computeHash % lateSearcher.ttLen)).depth ∨
        (lateSearcher.tt (lateSearcher.board.computeHash % lateSearcher.ttLen)).key = 0 →
        s1.tt (lateSearcher.board.computeHash % lateSearcher.ttLen) =
          ⟨lateSearcher.board.computeHash, m, 100,
            if lateSearcher.board.isInCheck lateSearcher.board.sideToMove_ then (1 : Int) + 1
            else 1, 2⟩)) ∧
    (negamax 2 lateSearcher 1 (-100) 100 2).map (fun r =>
        (r.1.1, r.1.2, r.2.stats.stopSearch,
          r.2.tt (pawnRace.computeHash % lateSearcher.ttLen))) =
      some (100, some (Move.mk2 33 42), true,
        ⟨pawnRace.computeHash, Move.mk2 33 42, 100, 1, 2⟩) ∧
    (quiescence 2 lateSearcher (-100) 100 2).map (fun r => (r.1, r.2.stats.stopSearch)) =
      some (100, true) :=
  ⟨C29_abort_returns_beta_and_stores 0 lateSearcher 1 (-100) 100 2 (by decide) (by decide)
      (by decide) rfl (by decide) (by decide) (by decide) (by decide) (by decide) (by decide)
      (by decide),
    by decide!, by decide!⟩

end Searcher

/-! ## Symmetry of the attack sets -/

namespace Attacks

theorem strictlyBetween_symm (s t u : Nat) : strictlyBetween s t u ↔ strictlyBetween t s u := by
  unfold strictlyBetween strictlyInside fileOf rankOf
  constructor
  · rintro (⟨h1, h2, h3⟩ | ⟨h1, h2, h3⟩ | ⟨h1, h2, h3⟩ | ⟨h1, h2, h3⟩)
    · exact Or.inl ⟨by omega, by omega, by omega⟩
    · exact Or.inr (Or.inl ⟨by omega, by omega, by omega⟩)
    · exact Or.inr (Or.inr (Or.inl ⟨by omega, by omega, by omega⟩))
    · exact Or.inr (Or.inr (Or.inr ⟨by omega, by omega, by omega⟩))
  · rintro (⟨h1, h2, h3⟩ | ⟨h1, h2, h3⟩ | ⟨h1, h2, h3⟩ | ⟨h1, h2, h3⟩)
    · exact Or.inl ⟨by omega, by omega, by omega⟩
    · exact Or.inr (Or.inl ⟨by omega, by omega, by omega⟩)
    · exact Or.inr (Or.inr (Or.inl ⟨by omega, by omega, by omega⟩))
    · exact Or.inr (Or.inr (Or.inr ⟨by omega, by omega, by omega⟩))

theorem clearBetween_symm (occ s t : Nat) : clearBetween occ s t ↔ clearBetween occ t s := by
  unfold clearBetween
  constructor
  · intro h u hu hb
    exact h u hu ((strictlyBetween_symm s t u).2 hb)
  · intro h u hu hb
    exact h u hu ((strictlyBetween_symm s t u).1 hb)

/-- C38: the attack sets are symmetric: for all squares `a ≠ b` in 0..63 and every
occupancy `occ`, `b` is in `rookAttacks(a, occ)` iff `a` is in `rookAttacks(b, occ)`, and
likewise for `bishopAttacks`, `knightAttacks` and `kingAttacks`. -/
theorem C38_attacks_symmetric (a b occ : Nat) (ha : a < 64) (hb : b < 64) (_hab : a ≠ b) :
    ((rookAttacks a occ).testBit b = true ↔ (rookAttacks b occ).testBit a = true) ∧
    ((bishopAttacks a occ).testBit b = true ↔ (bishopAttacks b occ).testBit a = true) ∧
    ((knightAttacks a).testBit b = true ↔ (knightAttacks b).testBit a = true) ∧
    ((kingAttacks a).testBit b = true ↔ (kingAttacks b).testBit a = true) := by
  refine ⟨?_, ?_, ?_, ?_⟩
  · rw [testBit_rookAttacks a occ b ha, testBit_rookAttacks b occ a hb,
      clearBetween_symm occ a b]
    constructor
    · rintro ⟨_, h2, h3, h4⟩
      exact ⟨ha, fun h => h2 h.symm, h3.imp Eq.symm Eq.symm, h4⟩
    · rintro ⟨_, h2, h3, h4⟩
      exact ⟨hb, fun h => h2 h.symm, h3.imp Eq.symm Eq.symm, h4⟩
  · rw [testBit_bishopAttacks a occ b ha, testBit_bishopAttacks b occ a hb,
      clearBetween_symm occ a b]
    unfold onCommonDiagonal absDiff
    constructor
    · rintro ⟨_, h2, h3, h4⟩
      exact ⟨ha, fun h => h2 h.symm, by omega, h4⟩
    · rintro ⟨_, h2, h3, h4⟩
      exact ⟨hb, fun h => h2 h.symm, by omega, h4⟩
  · rw [testBit_knightAttacks a b ha, testBit_knightAttacks b a hb]
    unfold knightStep absDiff
    constructor
    · rintro ⟨_, h⟩
      exact ⟨ha, by omega⟩
    · rintro ⟨_, h⟩
      exact ⟨hb, by omega⟩
  · rw [testBit_kingAttacks a b ha, testBit_kingAttacks b a hb]
    unfold kingStep absDiff
    constructor
    · rintro ⟨_, h1, h2⟩
      exact ⟨ha, fun h => h1 h.symm, by omega⟩
    · rintro ⟨_, h1, h2⟩
      exact ⟨hb, fun h => h1 h.symm, by omega⟩

theorem C38_attacks_symmetric_witness :
    (27 : Nat) < 64 ∧ (59 : Nat) < 64 ∧ (27 : Nat) ≠ 59 ∧
    (((rookAttacks 27 (bit 43)).testBit 59 = true ↔
        (rookAttacks 59 (bit 43)).testBit 27 = true) ∧
      ((bishopAttacks 27 (bit 43)).testBit 59 = true ↔
        (bishopAttacks 59 (bit 43)).testBit 27 = true) ∧
      ((knightAttacks 27).testBit 59 = true ↔ (knightAttacks 59).testBit 27 = true) ∧
      ((kingAttacks 27).testBit 59 = true ↔ (kingAttacks 59).testBit 27 = true)) :=
  ⟨by decide, by decide, by decide,
    C38_attacks_symmetric 27 59 (bit 43) (by decide) (by decide) (by decide)⟩

end Attacks

/-! ## Rook moves and castling rights -/

namespace Board

theorem rookRaid_generated : Board.allGenerated Board.new rookRaidGame = true := by
  rw [allGenerated_eq]
  decide!

theorem rookRaid_rook_on_a8 :
    (Board.new.play rookRaidGame).pieceAt (Move.mk2 56 57).from_ =
      some ⟨.ROOK, (Board.new.play rookRaidGame).sideToMove_⟩ := by
  decide!

/-- C35 (the failing inputs): what a rook move does to the castling rights.  For every
board and every move `m` of a rook of the side to move, after `makeMove(m)` the mover's
kingside right is set iff it was set and `from` is neither h1 nor h8, the mover's
queenside right is set iff it was set and `from` is neither a1 nor a8, and the
opponent's rights are unchanged.  The corner test does not look at the colour: a white
rook that leaves a8 or h8 clears White's right, a black rook that leaves a1 or h1 clears
Black's. -/
theorem C35_rook_move_castling_rights (b : Board) (m : Move)
    (hrook : b.pieceAt m.from_ = some ⟨.ROOK, b.sideToMove_⟩) :
    ((b.makeMove m).castlingRights_.get b.sideToMove_ 0 = true ↔
      b.castlingRights_.get b.sideToMove_ 0 = true ∧ m.from_ ≠ 7 ∧ m.from_ ≠ 63) ∧
    ((b.makeMove m).castlingRights_.get b.sideToMove_ 1 = true ↔
      b.castlingRights_.get b.sideToMove_ 1 = true ∧ m.from_ ≠ 0 ∧ m.from_ ≠ 56) ∧
    (∀ i, (b.makeMove m).castlingRights_.get b.sideToMove_.other i =
      b.castlingRights_.get b.sideToMove_.other i) := by
  have hcr : (b.makeMove m).castlingRights_ =
      stepRookRights b.castlingRights_ b.sideToMove_ m.from_ := by
    show b.makeMoveCastling m = _
    unfold makeMoveCastling
    simp only [hrook, Option.map_some', Option.some.injEq, reduceCtorEq, if_false, if_true]
  rw [hcr]
  unfold stepRookRights
  have hne : b.sideToMove_.other ≠ b.sideToMove_ := Color.other_ne _
  refine ⟨?_, ?_, ?_⟩
  · by_cases h1 : m.from_ = 0 ∨ m.from_ = 56 <;> by_cases h2 : m.from_ = 7 ∨ m.from_ = 63 <;>
      simp only [h1, h2, if_true, if_false, CastlingRights.get_clear] <;>
      simp <;> omega
  · by_cases h1 : m.from_ = 0 ∨ m.from_ = 56 <;> by_cases h2 : m.from_ = 7 ∨ m.from_ = 63 <;>
      simp only [h1, h2, if_true, if_false, CastlingRights.get_clear] <;>
      simp <;> omega
  · intro i
    by_cases h1 : m.from_ = 0 ∨ m.from_ = 56 <;> by_cases h2 : m.from_ = 7 ∨ m.from_ = 63 <;>
      simp only [h1, h2, if_true, if_false, CastlingRights.get_clear, hne, false_and]

theorem C35_rook_move_castling_rights_witness :
    Board.allGenerated Board.new rookRaidGame = true ∧
    (Board.new.play rookRaidGame).sideToMove_ = .WHITE ∧
    (Board.new.play rookRaidGame).pieceAt 0 = some ⟨.ROOK, .WHITE⟩ ∧
    (Board.new.play rookRaidGame).pieceAt 4 = some ⟨.KING, .WHITE⟩ ∧
    (Board.new.play rookRaidGame).castlingRights_.get .WHITE 1 = true ∧
    Move.mk2 56 57 ∈ (Board.new.play rookRaidGame).generateMoves ∧
    ((Board.new.play rookRaidGame).makeMove (Move.mk2 56 57)).castlingRights_.get .WHITE 1 =
      false ∧
    ((((Board.new.play rookRaidGame).makeMove (Move.mk2 56 57)).castlingRights_.get
        (Board.new.play rookRaidGame).sideToMove_ 1 = true ↔
      (Board.new.play rookRaidGame).castlingRights_.get
        (Board.new.play rookRaidGame).sideToMove_ 1 = true ∧
        (Move.mk2 56 57).from_ ≠ 0 ∧ (Move.mk2 56 57).from_ ≠ 56)) :=
  ⟨rookRaid_generated, by decide!, by decide!, by decide!, by decide!,
    by rw [mem_generateMoves_iff]; decide!, by decide!,
    (C35_rook_move_castling_rights (Board.new.play rookRaidGame) (Move.mk2 56 57)
      rookRaid_rook_on_a8).2.1⟩

end Board

/-! ## The pawn shield -/

namespace Evaluator

theorem shieldMask_eq_shifts (color : Color) (kingSq : Nat) :
    shieldMask color kingSq =
      (shieldShifts color kingSq).foldl (fun mask n => mask ||| bitOfInt n) 0 := by
  cases color <;>
    (unfold shieldMask shieldShifts
     dsimp only
     split_ifs <;>
       simp only [List.nil_append, List.cons_append, List.singleton_append, List.append_nil,
         List.foldl, Nat.zero_or, Nat.or_zero])

theorem shieldShifts_in_range_iff (color : Color) (kingSq : Nat) (hk : kingSq < 64) :
    (∀ n ∈ shieldShifts color kingSq, 0 ≤ n ∧ n ≤ 63) ↔
      match color with
      | .WHITE => kingSq / 8 < 7
      | .BLACK => 0 < kingSq / 8 := by
  have hmid : ((kingSq / 8 : Nat) : Int) * 8 + ((kingSq % 8 : Nat) : Int) = kingSq := by omega
  cases color
  · unfold shieldShifts
    dsimp only
    constructor
    · intro h
      have := h ((((kingSq / 8 : Nat) : Int) + 1) * 8 + ((kingSq % 8 : Nat) : Int)) (by simp)
      omega
    · intro h n hn
      simp only [List.mem_append, List.mem_singleton] at hn
      rcases hn with (hn | hn) | hn
      · split_ifs at hn with h0
        · simp only [List.mem_singleton] at hn
          omega
        · simp at hn
      · omega
      · split_ifs at hn with h0
        · simp only [List.mem_singleton] at hn
          omega
        · simp at hn
  · unfold shieldShifts
    dsimp only
    constructor
    · intro h
      have := h ((((kingSq / 8 : Nat) : Int) - 1) * 8 + ((kingSq % 8 : Nat) : Int)) (by simp)
      omega
    · intro h n hn
      simp only [List.mem_append, List.mem_singleton] at hn
      rcases hn with (hn | hn) | hn
      · split_ifs at hn with h0
        · simp only [List.mem_singleton] at hn
          omega
        · simp at hn
      · omega
      · split_ifs at hn with h0
        · simp only [List.mem_singleton] at hn
          omega
        · simp at hn

theorem lsbIndex_lt_of_popcount_one (x : Nat) (h : popcount x = 1) : lsbIndex x < 64 := by
  unfold popcount at h
  unfold lsbIndex
  cases hl : squaresOf x with
  | nil =>
      rw [hl] at h
      simp at h
  | cons a l =>
      have hmem : a ∈ squaresOf x := by
        rw [hl]
        exact List.mem_cons_self _ _
      exact ((mem_squaresOf x a).1 hmem).1

/-- C40 (the failing inputs): the shift counts of the pawn-shield mask are not always in
0..63.  For every position with exactly one king per colour and either colour, the
counts `evaluate` makes `evaluateKingSafety` use for that colour's king all lie in 0..63
iff a white king is not on rank 8 and a black king is not on rank 1.  For a white king
on rank 8 the counts are 64 and more, for a black king on rank 1 they are negative, and
the shift is undefined in the source. -/
theorem C40_shield_shifts_in_range_iff (b : Board) (color : Color) (hk : b.OneKingEach) :
    (∀ n ∈ shieldShifts color (lsbIndex (b.getBitboard .KING color)), 0 ≤ n ∧ n ≤ 63) ↔
      match color with
      | .WHITE => lsbIndex (b.getBitboard .KING .WHITE) / 8 < 7
      | .BLACK => 0 < lsbIndex (b.getBitboard .KING .BLACK) / 8 := by
  have hlt : lsbIndex (b.getBitboard .KING color) < 64 := by
    apply lsbIndex_lt_of_popcount_one
    cases color
    · exact hk.1
    · exact hk.2
  have h := shieldShifts_in_range_iff color _ hlt
  cases color <;> exact h

theorem C40_shield_shifts_in_range_iff_witness :
    kingOnLastRank.OneKingEach ∧
    lsbIndex (kingOnLastRank.getBitboard .KING .WHITE) = 62 ∧
    shieldShifts .WHITE (lsbIndex (kingOnLastRank.getBitboard .KING .WHITE)) = [69, 70, 71] ∧
    ((∀ n ∈ shieldShifts .WHITE (lsbIndex (kingOnLastRank.getBitboard .KING .WHITE)),
        0 ≤ n ∧ n ≤ 63) ↔
      lsbIndex (kingOnLastRank.getBitboard .KING .WHITE) / 8 < 7) :=
  ⟨by decide, by decide, by decide,
    C40_shield_shifts_in_range_iff kingOnLastRank .WHITE (by decide)⟩

end Evaluator

/-! ## Pawn captures in the generator and in `pawnAttacks` -/

namespace Board

/-- C37 (evaluation at the failing inputs): the capture squares of the generator and the
bits of `pawnAttacks` differ for pawns on the a-, b-, g- and h-file.  For a white pawn on
a2 the generator captures on b3 only, while `pawnAttacks(WHITE, 1 << a2)` has the bits h2
and b3; for a white pawn on b2 the generator captures on a3 and c3, while `pawnAttacks`
has c3 only.  On ranks 2..7 the two sets are equal exactly for the pawns on files c..f,
and for a white pawn on h7 and a black pawn on a2, whose wrapped bit falls off the
board. -/
theorem C37_pawn_capture_geometry_differs :
    pawnCaptureTargets .WHITE 8 = [17] ∧
    squaresOf (Attacks.pawnAttacks .WHITE (bit 8)) = [15, 17] ∧
    pawnCaptureTargets .WHITE 9 = [16, 18] ∧
    squaresOf (Attacks.pawnAttacks .WHITE (bit 9)) = [18] ∧
    (∀ f, f < 56 → 8 ≤ f →
      (pawnGeometryAgrees .WHITE f = true ↔ (2 ≤ f % 8 ∧ f % 8 ≤ 5) ∨ f = 55) ∧
      (pawnGeometryAgrees .BLACK f = true ↔ (2 ≤ f % 8 ∧ f % 8 ≤ 5) ∨ f = 8)) := by
  decide!

end Board

/-! ## Castling without a rook -/

namespace Board

/-- C36 (evaluation at the failing input): every move of the game 1. g4 b6 2. Bh3 Bb7
3. Nf3 Bxf3 4. a3 Bxh1 is returned by `generateMoves()` for the position in which it is
made.  In the position reached the black bishop stands on h1, White still has the
kingside right, and `generateMoves()` returns the castling move e1-g1, which is no
promotion.  `makeMove` of it puts a white rook on f1 and leaves the bishop on h1: the
number of pieces goes from 30 to 31 and the number of white rooks from 1 to 2. -/
theorem C36_castling_creates_a_rook :
    Board.allGenerated Board.new rookLossGame = true ∧
    (Board.new.play rookLossGame).pieceAt 7 = some ⟨.BISHOP, .BLACK⟩ ∧
    (Board.new.play rookLossGame).castlingRights_.get .WHITE 0 = true ∧
    Move.mk2 4 6 ∈ (Board.new.play rookLossGame).generateMoves ∧
    (Move.mk2 4 6).promotion = none ∧
    popcount (Board.new.play rookLossGame).occupied_ = 30 ∧
    popcount ((Board.new.play rookLossGame).makeMove (Move.mk2 4 6)).occupied_ = 31 ∧
    popcount ((Board.new.play rookLossGame).pieces_.get .WHITE .ROOK) = 1 ∧
    popcount (((Board.new.play rookLossGame).makeMove (Move.mk2 4 6)).pieces_.get
      .WHITE .ROOK) = 2 ∧
    ((Board.new.play rookLossGame).makeMove (Move.mk2 4 6)).pieceAt 5 =
      some ⟨.ROOK, .WHITE⟩ ∧
    ((Board.new.play rookLossGame).makeMove (Move.mk2 4 6)).pieceAt 7 =
      some ⟨.BISHOP, .BLACK⟩ := by
  refine ⟨?_, by decide!, by decide!, ?_, rfl, by decide!, by decide!, by decide!, by decide!,
    by decide!, by decide!⟩
  · rw [allGenerated_eq]
    decide!
  · rw [mem_generateMoves_iff]
    decide!

end Board

/-! ## The sign convention of `evaluate` -/

namespace Evaluator

theorem foldl_signed (f : Nat × Piece → Int) (l : List (Nat × Piece)) (init : Int) :
    l.foldl (fun score e => score + signed e.2.color (f e)) init =
      init + ((l.filter (fun e => decide (e.2.color = .WHITE))).map f).sum -
        ((l.filter (fun e => decide (e.2.color = .BLACK))).map f).sum := by
  induction l generalizing init with
  | nil => simp
  | cons e l ih =>
      rw [List.foldl_cons, ih]
      cases hc : e.2.color <;> simp [List.filter_cons, hc, signed] <;> omega

theorem whiteScore_eq_sideTerms (b : Board) :
    whiteScore b = sideTerms b .WHITE - sideTerms b .BLACK := by
  unfold whiteScore sideTerms
  dsimp only
  rw [foldl_signed]
  simp only [List.foldl, signed]
  split_ifs <;> omega

theorem whiteScore_side (b : Board) (c : Color) :
    whiteScore { b with sideToMove_ := c } = whiteScore b := rfl

/-- C31: `evaluate` is relative to the side to move: for every board `b` with one king
per colour, the board that differs from `b` only in `sideToMove` evaluates to
`-evaluate(b)`; with White to move `evaluate` equals the white-relative sum, White's
terms minus Black's terms, and with Black to move its negation. -/
theorem C31_evaluate_side_relative (b : Board) (_hk : b.OneKingEach) :
    evaluate { b with sideToMove_ := b.sideToMove_.other } = -evaluate b ∧
    (b.sideToMove_ = .WHITE → evaluate b = sideTerms b .WHITE - sideTerms b .BLACK) ∧
    (b.sideToMove_ = .BLACK → evaluate b = -(sideTerms b .WHITE - sideTerms b .BLACK)) := by
  refine ⟨?_, ?_, ?_⟩
  · unfold evaluate
    rw [whiteScore_side]
    cases hs : b.sideToMove_ <;> simp [Color.other]
  · intro hs
    unfold evaluate
    rw [hs, whiteScore_eq_sideTerms]
  · intro hs
    unfold evaluate
    rw [hs, whiteScore_eq_sideTerms]

theorem C31_evaluate_side_relative_witness :
    Board.new.OneKingEach ∧
    (evaluate { Board.new with sideToMove_ := Board.new.sideToMove_.other } =
        -evaluate Board.new ∧
      (Board.new.sideToMove_ = .WHITE →
        evaluate Board.new = sideTerms Board.new .WHITE - sideTerms Board.new .BLACK) ∧
      (Board.new.sideToMove_ = .BLACK →
        evaluate Board.new = -(sideTerms Board.new .WHITE - sideTerms Board.new .BLACK))) :=
  ⟨by decide, C31_evaluate_side_relative Board.new (by decide)⟩

end Evaluator

/-! ## Move ordering -/

theorem Board.unmakeMove_makeMove_eq (b : Board) (m : Move) : (b.makeMove m).unmakeMove = b := by
  have hs : (b.makeMove m).stateStack_ = b.stateStack_ ++ [b.snapshot] := rfl
  have hm : (b.makeMove m).moveStack_ = b.moveStack_ ++ [m] := rfl
  unfold Board.unmakeMove
  rw [hs, hm, Board.getLast?_append_singleton]
  simp only [ne_eq, List.append_eq_nil, List.cons_ne_self, and_false, not_false_eq_true,
    if_true, List.dropLast_concat]
  exact Board.restore_snapshot b _

namespace Searcher

theorem afterScoreMove_eq (s : Searcher) (move : Move) : s.afterScoreMove move = s := by
  unfold afterScoreMove
  rw [Board.unmakeMove_makeMove_eq]

theorem afterOrderMoves_eq (s : Searcher) (moves : List Move) : s.afterOrderMoves moves = s := by
  unfold afterOrderMoves
  induction moves with
  | nil => rfl
  | cons m ms ih =>
      rw [List.foldl_cons, afterScoreMove_eq]
      exact ih

/-- C33: `orderMoves(moves, ply, hash)` returns a permutation of its input list in which
the `scoreMove` values are non-increasing from first to last, and the calls of
`scoreMove` it makes leave the board (its stacks included), the transposition table,
killers and history as they were. -/
theorem C33_orderMoves_sorted_permutation (s : Searcher) (moves : List Move) (ply : Int)
    (hash : Nat) :
    (s.orderMoves moves ply hash).Perm moves ∧
    ((s.orderMoves moves ply hash).map (fun m => s.scoreMove m ply hash)).Sorted
      (fun x y => x ≥ y) ∧
    (∀ done : List Move, s.afterOrderMoves done = s) := by
  refine ⟨orderMoves_perm s moves ply hash, ?_, afterOrderMoves_eq s⟩
  unfold orderMoves
  haveI : IsTotal (Int × Move) (fun a b => a.1 ≥ b.1) := ⟨fun a b => le_total b.1 a.1⟩
  haveI : IsTrans (Int × Move) (fun a b => a.1 ≥ b.1) :=
    ⟨fun _ _ _ h1 h2 => le_trans h2 h1⟩
  have hsorted := List.sorted_insertionSort (fun a b : Int × Move => a.1 ≥ b.1)
    (moves.map (fun move => (s.scoreMove move ply hash, move)))
  have hperm := List.perm_insertionSort (fun a b : Int × Move => a.1 ≥ b.1)
    (moves.map (fun move => (s.scoreMove move ply hash, move)))
  have hpair : ∀ p ∈ List.insertionSort (fun a b : Int × Move => a.1 ≥ b.1)
      (moves.map (fun move => (s.scoreMove move ply hash, move))),
      s.scoreMove p.2 ply hash = p.1 := by
    intro p hp
    have hp1 := hperm.mem_iff.1 hp
    rw [List.mem_map] at hp1
    obtain ⟨m, _, rfl⟩ := hp1
    rfl
  rw [List.map_map]
  have hmap : List.map ((fun m => s.scoreMove m ply hash) ∘ fun p : Int × Move => p.2)
      (List.insertionSort (fun a b : Int × Move => a.1 ≥ b.1)
        (moves.map (fun move => (s.scoreMove move ply hash, move)))) =
      List.map (fun p : Int × Move => p.1)
        (List.insertionSort (fun a b : Int × Move => a.1 ≥ b.1)
          (moves.map (fun move => (s.scoreMove move ply hash, move)))) := by
    apply List.map_congr_left
    intro p hp
    exact hpair p hp
  rw [hmap]
  unfold List.Sorted at hsorted ⊢
  rw [List.pairwise_map]
  exact hsorted

end Searcher

/-! ## Captures and promotions in `scoreMove` -/

namespace Board

theorem promotion_of_pawnTarget (f t : Nat) (last : Bool) (m : Move)
    (h : m ∈ pawnTarget f t last) :
    m.promotion = none ∨ ∃ k ∈ promoKinds, m.promotion = some k := by
  unfold pawnTarget at h
  split at h
  · rw [List.mem_map] at h
    obtain ⟨k, hk, rfl⟩ := h
    exact Or.inr ⟨k, hk, rfl⟩
  · rw [List.mem_singleton] at h
    subst h
    exact Or.inl rfl

theorem promotion_of_whitePawnMoves (emptySq enemy ep f : Nat) (m : Move)
    (h : m ∈ whitePawnMoves emptySq enemy ep f) :
    m.promotion = none ∨ ∃ k ∈ promoKinds, m.promotion = some k := by
  unfold whitePawnMoves at h
  simp only [List.mem_append] at h
  rcases h with (h | h) | h
  · split_ifs at h
    · exact promotion_of_pawnTarget _ _ _ _ h
    · simp only [List.mem_cons, List.mem_singleton, List.not_mem_nil, or_false] at h
      rcases h with rfl | rfl <;> exact Or.inl rfl
    · simp only [List.mem_cons, List.not_mem_nil, or_false] at h
      subst h
      exact Or.inl rfl
    · simp only [List.mem_cons, List.not_mem_nil, or_false] at h
      subst h
      exact Or.inl rfl
    · exact absurd h (List.not_mem_nil _)
  · split_ifs at h
    · exact promotion_of_pawnTarget _ _ _ _ h
    · exact absurd h (List.not_mem_nil _)
    · exact absurd h (List.not_mem_nil _)
  · split_ifs at h
    · exact promotion_of_pawnTarget _ _ _ _ h
    · exact absurd h (List.not_mem_nil _)
    · exact absurd h (List.not_mem_nil _)

theorem promotion_of_blackPawnMoves (emptySq enemy ep f : Nat) (m : Move)
    (h : m ∈ blackPawnMoves emptySq enemy ep f) :
    m.promotion = none ∨ ∃ k ∈ promoKinds, m.promotion = some k := by
  unfold blackPawnMoves at h
  simp only [List.mem_append] at h
  rcases h with (h | h) | h
  · split_ifs at h
    · exact promotion_of_pawnTarget _ _ _ _ h
    · simp only [List.mem_cons, List.mem_singleton, List.not_mem_nil, or_false] at h
      rcases h with rfl | rfl <;> exact Or.inl rfl
    · simp only [List.mem_cons, List.not_mem_nil, or_false] at h
      subst h
      exact Or.inl rfl
    · simp only [List.mem_cons, List.not_mem_nil, or_false] at h
      subst h
      exact Or.inl rfl
    · exact absurd h (List.not_mem_nil _)
  · split_ifs at h
    · exact promotion_of_pawnTarget _ _ _ _ h
    · exact absurd h (List.not_mem_nil _)
    · exact absurd h (List.not_mem_nil _)
  · split_ifs at h
    · exact promotion_of_pawnTarget _ _ _ _ h
    · exact absurd h (List.not_mem_nil _)
    · exact absurd h (List.not_mem_nil _)

theorem promotion_of_pieceMoves (bb : Nat) (attacks : Nat → Nat) (targets : Nat) (m : Move)
    (h : m ∈ pieceMoves bb attacks targets) : m.promotion = none := by
  unfold pieceMoves at h
  simp only [List.mem_flatMap, List.mem_map] at h
  obtain ⟨f, _, t, _, rfl⟩ := h
  rfl

/-- A move of the generator promotes to a knight, bishop, rook or queen, or not at
all. -/
theorem promotion_of_generated (b : Board) (m : Move) (hm : m ∈ b.generateMoves) :
    m.promotion = none ∨ ∃ k ∈ promoKinds, m.promotion = some k := by
  have h := mem_pseudoLegal_of_generated b m hm
  unfold pseudoLegalMoves at h
  simp only [List.mem_append] at h
  rcases h with ((((((h | h) | h) | h) | h) | h) | h) | h
  · rw [List.mem_flatMap] at h
    obtain ⟨f, _, h⟩ := h
    split_ifs at h
    · exact promotion_of_whitePawnMoves _ _ _ _ _ h
    · exact promotion_of_blackPawnMoves _ _ _ _ _ h
  · exact Or.inl (promotion_of_pieceMoves _ _ _ _ h)
  · exact Or.inl (promotion_of_pieceMoves _ _ _ _ h)
  · exact Or.inl (promotion_of_pieceMoves _ _ _ _ h)
  · exact Or.inl (promotion_of_pieceMoves _ _ _ _ h)
  · rw [List.mem_map] at h
    obtain ⟨t, _, rfl⟩ := h
    exact Or.inl rfl
  · split_ifs at h <;>
      first
      | exact absurd h (List.not_mem_nil _)
      | (rw [List.mem_singleton] at h; subst h; exact Or.inl rfl)
  · split_ifs at h <;>
      first
      | exact absurd h (List.not_mem_nil _)
      | (rw [List.mem_singleton] at h; subst h; exact Or.inl rfl)

end Board

namespace Searcher

/-- The score of a capture that neither mates nor is the table move. -/
theorem scoreMove_capture (s : Searcher) (c : Move) (ply : Int) (hash : Nat)
    (victim aggressor : Piece)
    (hcm : (s.board.makeMove c).isCheckmate = false)
    (hct : ¬ ((s.tt (hash % s.ttLen)).key = hash ∧ (s.tt (hash % s.ttLen)).move.same c = true))
    (hv : s.board.pieceAt c.to_ = some victim)
    (ha : s.board.pieceAt c.from_ = some aggressor) :
    s.scoreMove c ply hash =
      100000 + (10 * Evaluator.pieceValues victim.type -
        Evaluator.pieceValues aggressor.type) := by
  have hmv : s.mvvLvaScore c =
      Evaluator.pieceValues victim.type * 10 - Evaluator.pieceValues aggressor.type := by
    unfold mvvLvaScore Board.isCapture
    rw [hv, ha]
    rfl
  have hne : s.mvvLvaScore c ≠ 0 := by
    rw [hmv]
    cases victim.type <;> cases aggressor.type <;> decide
  unfold scoreMove
  dsimp only
  rw [hcm, if_neg (by decide), if_neg hct, if_pos hne, hmv]
  ring

/-- The score of a promotion onto an empty square that neither mates nor is the table
move. -/
theorem scoreMove_promotion (s : Searcher) (p : Move) (ply : Int) (hash : Nat)
    (k : PieceType)
    (hpm : (s.board.makeMove p).isCheckmate = false)
    (hpt : ¬ ((s.tt (hash % s.ttLen)).key = hash ∧ (s.tt (hash % s.ttLen)).move.same p = true))
    (hpe : s.board.pieceAt p.to_ = none)
    (hpk : p.promotion = some k) :
    s.scoreMove p ply hash = 90000 + Evaluator.pieceValues k := by
  have hmv : s.mvvLvaScore p = 0 := by
    unfold mvvLvaScore Board.isCapture
    rw [hpe]
    rfl
  unfold scoreMove
  dsimp only
  rw [hpm, if_neg (by decide), if_neg hpt, if_neg (by rw [hmv]; exact fun h => h rfl), hpk]

/-- C34, as amended: for two legal moves `c` and `p` of the searcher's position, neither
giving mate nor matching the table move, where `c` takes the piece `victim` standing on
its target with the piece `aggressor` and `p` promotes to `k` on an empty square,
`scoreMove c = 100000 + 10 * value victim - value aggressor` and
`scoreMove p = 90000 + value k`; the capture scores higher than the promotion exactly
when it is not the king taking a piece other than a king. -/
theorem C34_capture_and_promotion_scores (s : Searcher) (c p : Move) (ply : Int)
    (hash : Nat) (victim aggressor : Piece) (k : PieceType)
    (_hc : c ∈ s.board.generateMoves) (hp : p ∈ s.board.generateMoves)
    (hcm : (s.board.makeMove c).isCheckmate = false)
    (hpm : (s.board.makeMove p).isCheckmate = false)
    (hct : ¬ ((s.tt (hash % s.ttLen)).key = hash ∧ (s.tt (hash % s.ttLen)).move.same c = true))
    (hpt : ¬ ((s.tt (hash % s.ttLen)).key = hash ∧ (s.tt (hash % s.ttLen)).move.same p = true))
    (hv : s.board.pieceAt c.to_ = some victim)
    (ha : s.board.pieceAt c.from_ = some aggressor)
    (hpe : s.board.pieceAt p.to_ = none)
    (hpk : p.promotion = some k) :
    s.scoreMove c ply hash =
        100000 + (10 * Evaluator.pieceValues victim.type -
          Evaluator.pieceValues aggressor.type) ∧
      s.scoreMove p ply hash = 90000 + Evaluator.pieceValues k ∧
      (s.scoreMove c ply hash > s.scoreMove p ply hash ↔
        ¬ (aggressor.type = .KING ∧ victim.type ≠ .KING)) := by
  have h1 := scoreMove_capture s c ply hash victim aggressor hcm hct hv ha
  have h2 := scoreMove_promotion s p ply hash k hpm hpt hpe hpk
  refine ⟨h1, h2, ?_⟩
  rw [h1, h2]
  have hk : k ∈ Board.promoKinds := by
    rcases Board.promotion_of_generated s.board p hp with h | ⟨k2, hk2, h⟩
    · rw [hpk] at h
      exact absurd h (by simp)
    · rw [hpk] at h
      cases h
      exact hk2
  unfold Board.promoKinds at hk
  simp only [List.mem_cons, List.mem_singleton, List.not_mem_nil, or_false] at hk
  rcases hk with rfl | rfl | rfl | rfl <;>
    cases victim.type <;> cases aggressor.type <;> decide

theorem C34_capture_and_promotion_scores_witness :
    (Searcher.new kingCapturePosition (fun _ => 0)).scoreMove (Move.mk2 28 27) 0
          kingCapturePosition.computeHash =
        100000 + (10 * Evaluator.pieceValues PieceType.PAWN -
          Evaluator.pieceValues PieceType.KING) ∧
      (Searcher.new kingCapturePosition (fun _ => 0)).scoreMove
          (Move.mk3 48 56 (some .QUEEN)) 0 kingCapturePosition.computeHash =
        90000 + Evaluator.pieceValues PieceType.QUEEN ∧
      ((Searcher.new kingCapturePosition (fun _ => 0)).scoreMove (Move.mk2 28 27) 0
          kingCapturePosition.computeHash >
        (Searcher.new kingCapturePosition (fun _ => 0)).scoreMove
          (Move.mk3 48 56 (some .QUEEN)) 0 kingCapturePosition.computeHash ↔
        ¬ (PieceType.KING = PieceType.KING ∧ PieceType.PAWN ≠ PieceType.KING)) :=
  C34_capture_and_promotion_scores (Searcher.new kingCapturePosition (fun _ => 0))
    (Move.mk2 28 27) (Move.mk3 48 56 (some .QUEEN)) 0 kingCapturePosition.computeHash
    ⟨.PAWN, .BLACK⟩ ⟨.KING, .WHITE⟩ .QUEEN
    (by rw [Board.mem_generateMoves_iff]; decide!)
    (by rw [Board.mem_generateMoves_iff]; decide!)
    (by decide!) (by decide!) (by decide) (by decide) (by decide) (by decide) (by decide)
    rfl

/-- C34, counterexample: in `kingCapturePosition` the legal capture Kxd4 and the legal
promotion a8=Q neither mate nor match the (empty) table, the capture takes the pawn
standing on d4, the promotion lands on the empty a8, and `scoreMove` gives the capture
81000 and the promotion 90900, so `orderMoves` puts the promotion first. -/
theorem C34_king_capture_below_promotion :
    Move.mk2 28 27 ∈ kingCapturePosition.generateMoves ∧
      Move.mk3 48 56 (some .QUEEN) ∈ kingCapturePosition.generateMoves ∧
      (kingCapturePosition.makeMove (Move.mk2 28 27)).isCheckmate = false ∧
      (kingCapturePosition.makeMove (Move.mk3 48 56 (some .QUEEN))).isCheckmate = false ∧
      kingCapturePosition.pieceAt 27 = some ⟨.PAWN, .BLACK⟩ ∧
      kingCapturePosition.pieceAt 28 = some ⟨.KING, .WHITE⟩ ∧
      kingCapturePosition.pieceAt 56 = none ∧
      (Searcher.new kingCapturePosition (fun _ => 0)).scoreMove (Move.mk2 28 27) 0
          kingCapturePosition.computeHash = 81000 ∧
      (Searcher.new kingCapturePosition (fun _ => 0)).scoreMove
          (Move.mk3 48 56 (some .QUEEN)) 0 kingCapturePosition.computeHash = 90900 ∧
      ((Searcher.new kingCapturePosition (fun _ => 0)).orderMoves
          [Move.mk2 28 27, Move.mk3 48 56 (some .QUEEN)] 0
          kingCapturePosition.computeHash) =
        [Move.mk3 48 56 (some .QUEEN), Move.mk2 28 27] := by
  refine ⟨?_, ?_, ?_, ?_, ?_, ?_, ?_, ?_, ?_, ?_⟩
  · rw [Board.mem_generateMoves_iff]; decide!
  · rw [Board.mem_generateMoves_iff]; decide!
  · decide!
  · decide!
  · decide
  · decide
  · decide
  · decide!
  · decide!
  · decide!

end Searcher

namespace Searcher

theorem negamaxMoves_mated (child : Searcher → Int → Int → Int → Option ((Int × Option Move) × Searcher))
    (s : Searcher) (depth alpha beta ply : Int) (hash : Nat)
    (hcheck : s.board.isInCheck s.board.sideToMove_ = true)
    (hnone : s.board.generateMoves = []) :
    negamaxMoves child s depth alpha beta ply hash =
      some ((-INFINITY_SCORE + ply, none), s) := by
  have hmate : s.board.isCheckmate = true := by
    unfold Board.isCheckmate
    rw [hcheck, hnone]
    rfl
  unfold negamaxMoves
  rw [if_pos hmate]

theorem negamaxNull_mated (child : Searcher → Int → Int → Int → Option ((Int × Option Move) × Searcher))
    (s : Searcher) (depth alpha beta ply : Int) (hash : Nat)
    (hcheck : s.board.isInCheck s.board.sideToMove_ = true)
    (hnone : s.board.generateMoves = []) :
    negamaxNull child s depth alpha beta ply hash =
      some ((-INFINITY_SCORE + ply, none), s) := by
  have hc : ¬ (depth ≥ 3 ∧ s.board.isInCheck s.board.sideToMove_ = false ∧
      s.board.hasNonPawnMaterial s.board.sideToMove_ = true) := by
    rw [hcheck]
    simp
  unfold negamaxNull
  rw [if_neg hc]
  exact negamaxMoves_mated child s depth alpha beta ply hash hcheck hnone

/-- C32, as amended: in a position whose side to move is in check and has no legal move,
`negamax` called with depth at least 1, any window and ply, the stop flag clear, the time
check at entry not firing (no limit, or the node just counted is not a polling node, or
the clock below the budget) and the table slot of the position holding another key,
returns the score `-30000 + ply` and no move.  It does so with a bound of one on nested
calls, that is without a recursive call; board and table stay as they were, the stop flag
stays clear and the node counter grows by 1. -/
theorem C32_mate_score (fuel : Nat) (s : Searcher) (depth alpha beta ply : Int)
    (hd : 1 ≤ depth)
    (hcheck : s.board.isInCheck s.board.sideToMove_ = true)
    (hnone : s.board.generateMoves = [])
    (hstop : s.stats.stopSearch = false)
    (htime : s.stats.maxTimeMs = INT64_MAX ∨
      (s.stats.nodes + 1 + s.stats.qNodes) % 2048 ≠ 0 ∨
      s.stats.elapsed s.stats.clockReads < s.stats.maxTimeMs)
    (htt : (s.tt (s.board.computeHash % s.ttLen)).key ≠ s.board.computeHash) :
    ∃ s1, negamax (fuel + 1) s depth alpha beta ply =
        some ((-INFINITY_SCORE + ply, none), s1) ∧
      negamax 1 s depth alpha beta ply = negamax (fuel + 1) s depth alpha beta ply ∧
      s1.board = s.board ∧ s1.tt = s.tt ∧ s1.stats.stopSearch = false ∧
      s1.stats.nodes = s.stats.nodes + 1 := by
  have hstop0 : (s.enter false ply).stats.stopSearch = false := hstop
  have htime0 : (s.enter false ply).stats.maxTimeMs = INT64_MAX ∨
      ((s.enter false ply).stats.nodes + (s.enter false ply).stats.qNodes) % 2048 ≠ 0 ∨
      (s.enter false ply).stats.elapsed (s.enter false ply).stats.clockReads <
        (s.enter false ply).stats.maxTimeMs := htime
  have h := SearchStats.checkTime_goes_on _ hstop0 htime0
  have hd0 : ¬ depth ≤ 0 := by omega
  have hc1 : ¬ ((s.enter false ply).stats.checkTime.1 = true) := by
    rw [h.1]
    simp
  have hprobe : ∀ d : Int, (s.tt (s.board.computeHash % s.ttLen)).probe s.board.computeHash
      d alpha beta = none := by
    intro d
    unfold TTEntry.probe
    rw [if_neg (fun hk => htt hk.1)]
  have hval : ∀ n, negamax (n + 1) s depth alpha beta ply =
      some ((-INFINITY_SCORE + ply, none),
        { s.enter false ply with stats := (s.enter false ply).stats.checkTime.2 }) := by
    intro n
    unfold negamax
    dsimp only
    rw [if_neg hc1, if_neg hd0]
    have hb : ({ s.enter false ply with stats := (s.enter false ply).stats.checkTime.2 } :
      Searcher).board = s.board := rfl
    have ht : ({ s.enter false ply with stats := (s.enter false ply).stats.checkTime.2 } :
      Searcher).tt = s.tt := rfl
    have hl : ({ s.enter false ply with stats := (s.enter false ply).stats.checkTime.2 } :
      Searcher).ttLen = s.ttLen := rfl
    rw [hb, ht, hl, hprobe]
    exact negamaxNull_mated _ _ _ alpha beta ply _ hcheck hnone
  refine ⟨_, hval fuel, ?_, rfl, rfl, h.2.1, ?_⟩
  · rw [hval fuel, hval 0]
  · show (s.enter false ply).stats.checkTime.2.nodes = s.stats.nodes + 1
    rw [h.2.2.1]
    rfl

theorem foolsMate_in_check :
    (Board.new.play foolsMateGame).isInCheck (Board.new.play foolsMateGame).sideToMove_ =
      true := by
  decide!

theorem foolsMate_no_moves : (Board.new.play foolsMateGame).generateMoves = [] := by
  decide!

theorem C32_mate_score_witness :
    ∃ s1, negamax (5 + 1) (Searcher.new (Board.new.play foolsMateGame) (fun _ => 0)) 3
          (-50) 50 4 = some ((-INFINITY_SCORE + 4, none), s1) ∧
      negamax 1 (Searcher.new (Board.new.play foolsMateGame) (fun _ => 0)) 3 (-50) 50 4 =
        negamax (5 + 1) (Searcher.new (Board.new.play foolsMateGame) (fun _ => 0)) 3
          (-50) 50 4 ∧
      s1.board = (Searcher.new (Board.new.play foolsMateGame) (fun _ => 0)).board ∧
      s1.tt = (Searcher.new (Board.new.play foolsMateGame) (fun _ => 0)).tt ∧
      s1.stats.stopSearch = false ∧
      s1.stats.nodes =
        (Searcher.new (Board.new.play foolsMateGame) (fun _ => 0)).stats.nodes + 1 :=
  C32_mate_score 5 (Searcher.new (Board.new.play foolsMateGame) (fun _ => 0)) 3 (-50) 50 4
    (by decide) foolsMate_in_check foolsMate_no_moves rfl (Or.inl rfl) (by decide!)

/-- C32, counterexample: `lateMatedSearcher` stands on the position after 1. f3 e5 2. g4
Qh4, in which White is in check and has no legal move; its stop flag is clear and the
table slot of the position is empty.  The call `negamax(1, -50, 50, 4)` counts node 2048,
reads the clock, finds the budget of 100 ms used up and returns its alpha, -50, with no
move, not the mate score -29996; the stop flag is set afterwards. -/
theorem C32_time_check_returns_alpha_when_mated :
    lateMatedSearcher.board.isInCheck lateMatedSearcher.board.sideToMove_ = true ∧
      lateMatedSearcher.board.generateMoves = [] ∧
      lateMatedSearcher.stats.stopSearch = false ∧
      (lateMatedSearcher.tt (lateMatedSearcher.board.computeHash % lateMatedSearcher.ttLen)).key
        ≠ lateMatedSearcher.board.computeHash ∧
      (negamax 1 lateMatedSearcher 1 (-50) 50 4).map Prod.fst = some (-50, none) ∧
      (negamax 1 lateMatedSearcher 1 (-50) 50 4).map (fun r => r.2.stats.stopSearch) =
        some true ∧
      -INFINITY_SCORE + 4 = -29996 := by
  refine ⟨foolsMate_in_check, foolsMate_no_moves, rfl, ?_, ?_, ?_, ?_⟩
  · decide!
  · decide!
  · decide!
  · decide

end Searcher

/-! ## The position key and the placement of the pieces -/

theorem foldl_xor_eq {α : Type} (g : α → Nat) (l : List α) (init : Nat) :
    l.foldl (fun h x => h ^^^ g x) init = init ^^^ xorAll (l.map g) := by
  induction l generalizing init with
  | nil => simp [xorAll]
  | cons x xs ih =>
    rw [List.foldl_cons, ih, List.map_cons]
    show init ^^^ g x ^^^ xorAll (xs.map g) = init ^^^ (g x ^^^ xorAll (xs.map g))
    rw [Nat.xor_assoc]

theorem xorAll_filter (p : Nat → Bool) (w : Nat → Nat) (l : List Nat) :
    xorAll ((l.filter p).map w) = xorAll (l.map (fun i => if p i then w i else 0)) := by
  induction l with
  | nil => rfl
  | cons x xs ih =>
    rw [List.filter_cons, List.map_cons]
    cases hp : p x
    · rw [if_neg (by simp), ih]
      show _ = (if false = true then w x else 0) ^^^ _
      rw [if_neg (by simp), Nat.zero_xor]
      rfl
    · rw [if_pos rfl, List.map_cons]
      show w x ^^^ xorAll ((xs.filter p).map w) = (if true = true then w x else 0) ^^^ _
      rw [if_pos rfl, ih]
      rfl

theorem xorAll_map_xor {α : Type} (f g : α → Nat) (l : List α) :
    xorAll (l.map (fun x => f x ^^^ g x)) = xorAll (l.map f) ^^^ xorAll (l.map g) := by
  induction l with
  | nil => simp [xorAll]
  | cons x xs ih =>
    show (f x ^^^ g x) ^^^ xorAll (xs.map (fun x => f x ^^^ g x)) =
      (f x ^^^ xorAll (xs.map f)) ^^^ (g x ^^^ xorAll (xs.map g))
    rw [ih]
    ac_rfl

theorem xorAll_single {α : Type} [DecidableEq α] (w : α → Nat) (a : α) (l : List α)
    (hl : l.Nodup) :
    xorAll (l.map (fun x => if x = a then w x else 0)) = if a ∈ l then w a else 0 := by
  induction l with
  | nil => rfl
  | cons x xs ih =>
    rw [List.nodup_cons] at hl
    show (if x = a then w x else 0) ^^^ xorAll (xs.map (fun x => if x = a then w x else 0)) = _
    rw [ih hl.2]
    by_cases hx : x = a
    · subst hx
      rw [if_pos rfl, if_neg hl.1, if_pos (List.mem_cons_self _ _), Nat.xor_zero]
    · rw [if_neg hx, Nat.zero_xor]
      have : a ∈ x :: xs ↔ a ∈ xs := by
        rw [List.mem_cons]
        constructor
        · rintro (h | h)
          · exact absurd h.symm hx
          · exact h
        · exact Or.inr
      simp only [this]

theorem bitmapWord_xor (cp : Color × PieceType) (bb m : Nat) :
    bitmapWord cp (bb ^^^ m) = bitmapWord cp bb ^^^ bitmapWord cp m := by
  unfold bitmapWord
  rw [← xorAll_map_xor]
  congr 1
  apply List.map_congr_left
  intro i _
  rw [Nat.testBit_xor]
  cases bb.testBit i <;> cases m.testBit i <;> simp

theorem bitmapWord_bit (cp : Color × PieceType) (s : Nat) (hs : s < 64) :
    bitmapWord cp (bit s) = pieceWord cp s := by
  unfold bitmapWord
  have h : (List.range 64).map (fun i => if (bit s).testBit i then pieceWord cp i else 0) =
      (List.range 64).map (fun i => if i = s then pieceWord cp i else 0) := by
    apply List.map_congr_left
    intro i hi
    rw [List.mem_range] at hi
    rw [testBit_bit]
    by_cases h : i = s
    · subst h
      simp [hi]
    · have h2 : ¬ s = i := fun e => h e.symm
      simp [h, h2]
  rw [h, xorAll_single (pieceWord cp) s _ (List.nodup_range 64),
    if_pos (List.mem_range.2 hs)]

theorem pieceWord_xor (cp : Color × PieceType) (s t : Nat) :
    pieceWord cp s ^^^ pieceWord cp t =
      ((s * 0xbf58476d1ce4e5b9) % 2 ^ 64) ^^^ ((t * 0xbf58476d1ce4e5b9) % 2 ^ 64) := by
  unfold pieceWord
  generalize ((cp.1.index * 6 + cp.2.index + 1) * 0x123456789abcdef0) % 2 ^ 64 = k
  generalize (s * 0xbf58476d1ce4e5b9) % 2 ^ 64 = a
  generalize (t * 0xbf58476d1ce4e5b9) % 2 ^ 64 = c
  have : (k ^^^ a) ^^^ (k ^^^ c) = (k ^^^ k) ^^^ (a ^^^ c) := by ac_rfl
  rw [this, Nat.xor_self, Nat.zero_xor]

/-- Exchanging two bits of a bitmap changes its word by the words of the two squares when
exactly one of the bits is set. -/
theorem bitmapWord_swapBits (cp : Color × PieceType) (s t bb : Nat) (hs : s < 64)
    (ht : t < 64) (v : Nat)
    (hv : v = ((s * 0xbf58476d1ce4e5b9) % 2 ^ 64) ^^^ ((t * 0xbf58476d1ce4e5b9) % 2 ^ 64)) :
    bitmapWord cp (swapBits s t bb) =
      bitmapWord cp bb ^^^
        ((if bb.testBit s then v else 0) ^^^ (if bb.testBit t then v else 0)) := by
  unfold swapBits
  by_cases h : bb.testBit s = bb.testBit t
  · rw [if_pos h, h]
    cases bb.testBit t <;> simp
  · rw [if_neg h, bitmapWord_xor, bitmapWord_xor, bitmapWord_bit cp s hs,
      bitmapWord_bit cp t ht, Nat.xor_assoc, pieceWord_xor, ← hv]
    revert h
    cases bb.testBit s <;> cases bb.testBit t <;> simp

namespace Board

/-- The key as one XOR: the seed, the words of the twelve bitmaps, the word of the side
to move. -/
theorem computeHash_eq (b : Board) :
    b.computeHash =
      (0x9e3779b97f4a7c15 ^^^
        xorAll (allKinds.map (fun cp => bitmapWord cp (b.pieces_.get cp.1 cp.2)))) ^^^
      ((b.sideToMove_.index * 0xabcdef0123456789) % 2 ^ 64) := by
  have h : (fun (hash : Nat) (cp : Color × PieceType) =>
      (squaresOf (b.pieces_.get cp.1 cp.2)).foldl (fun hash sq =>
        hash ^^^ ((((cp.1.index * 6 + cp.2.index + 1) * 0x123456789abcdef0) % 2 ^ 64) ^^^
          ((sq * 0xbf58476d1ce4e5b9) % 2 ^ 64))) hash) =
      (fun hash cp => hash ^^^ bitmapWord cp (b.pieces_.get cp.1 cp.2)) := by
    funext hash cp
    rw [foldl_xor_eq (fun sq =>
      (((cp.1.index * 6 + cp.2.index + 1) * 0x123456789abcdef0) % 2 ^ 64) ^^^
        ((sq * 0xbf58476d1ce4e5b9) % 2 ^ 64))]
    unfold squaresOf
    rw [xorAll_filter]
    rfl
  unfold computeHash
  dsimp only
  rw [h, foldl_xor_eq]

/-- Of the twelve bitmaps of a board with disjoint bitmaps exactly one holds an occupied
square. -/
theorem xorAll_occupied (b : Board) (hd : b.pieces_.Disjoint) (s : Nat)
    (hocc : (b.pieceAt s).isSome = true) (v : Nat) :
    xorAll (allKinds.map (fun cp =>
      if (b.pieces_.get cp.1 cp.2).testBit s then v else 0)) = v := by
  obtain ⟨pc, hpc⟩ := Option.isSome_iff_exists.1 hocc
  have hbit := (pieceAt_some b s pc hpc).2
  have h : allKinds.map (fun cp => if (b.pieces_.get cp.1 cp.2).testBit s then v else 0) =
      allKinds.map (fun cp => if cp = (pc.color, pc.type) then (fun _ => v) cp else 0) := by
    apply List.map_congr_left
    intro cp _
    by_cases hcp : cp = (pc.color, pc.type)
    · subst hcp
      rw [if_pos rfl]
      show (if (b.pieces_.get pc.color pc.type).testBit s = true then v else 0) = v
      rw [if_pos hbit]
    · rw [if_neg hcp]
      have : (b.pieces_.get cp.1 cp.2).testBit s ≠ true := by
        intro h1
        have := hd s cp.1 cp.2 pc.color pc.type h1 hbit
        exact hcp (Prod.ext this.1 this.2)
      rw [if_neg this]
  rw [h, xorAll_single (fun _ => v) (pc.color, pc.type) allKinds (by decide),
    if_pos (mem_allKinds _)]

end Board

theorem testBit_swapBits (s t bb i : Nat) (hi : i < 64) :
    (swapBits s t bb).testBit i =
      bb.testBit (if i = s then t else if i = t then s else i) := by
  unfold swapBits
  by_cases h : bb.testBit s = bb.testBit t
  · rw [if_pos h]
    by_cases h1 : i = s
    · subst h1
      rw [if_pos rfl]
      exact h
    · by_cases h2 : i = t
      · subst h2
        rw [if_neg h1, if_pos rfl]
        exact h.symm
      · rw [if_neg h1, if_neg h2]
  · have hst : s ≠ t := by
      rintro rfl
      exact h rfl
    rw [if_neg h, Nat.testBit_xor, Nat.testBit_xor, testBit_bit, testBit_bit]
    by_cases h1 : i = s
    · subst h1
      rw [if_pos rfl]
      have h3 : ¬ t = i := fun e => hst e.symm
      revert h
      cases bb.testBit i <;> cases bb.testBit t <;> simp [hi, h3]
    · by_cases h2 : i = t
      · subst h2
        rw [if_neg h1, if_pos rfl]
        have h3 : ¬ s = i := fun e => h1 e.symm
        revert h
        cases bb.testBit s <;> cases bb.testBit i <;> simp [hi, h3]
      · rw [if_neg h1, if_neg h2]
        have h3 : ¬ s = i := fun e => h1 e.symm
        have h4 : ¬ t = i := fun e => h2 e.symm
        simp [h3, h4]

namespace Board

/-- The board `exchanged s t` has on every square the piece the board had on the image
of the square under the exchange of `s` and `t`. -/
theorem pieceAt_exchanged (b : Board) (s t : Nat) (hs : s < 64) (ht : t < 64) (i : Nat) :
    (b.exchanged s t).pieceAt i =
      b.pieceAt (if i = s then t else if i = t then s else i) := by
  have hpcs : (b.exchanged s t).pieces_ = b.pieces_.map (swapBits s t) := rfl
  by_cases hi : i < 64
  · have hj : (if i = s then t else if i = t then s else i) < 64 := by
      split_ifs <;> assumption
    have hi1 : i ≠ SQ_NONE := by unfold SQ_NONE; omega
    have hj1 : (if i = s then t else if i = t then s else i) ≠ SQ_NONE := by
      unfold SQ_NONE; omega
    unfold pieceAt
    rw [if_neg hi1, if_neg hj1, hpcs]
    dsimp only
    congr 2
    funext cp
    rw [Pieces.get_map, anyBit_bit, anyBit_bit, testBit_swapBits s t _ i hi]
    simp [hi, hj]
  · have h1 : ¬ i = s := by omega
    have h2 : ¬ i = t := by omega
    rw [if_neg h1, if_neg h2]
    unfold pieceAt
    split_ifs
    · rfl
    · dsimp only
      congr 2
      funext cp
      rw [anyBit_bit, anyBit_bit]
      simp [hi]

/-- C39: on a board with pairwise disjoint bitmaps and two occupied squares `s` and `t`,
the board `exchanged s t`, which has on `s` the piece that stood on `t`, on `t` the piece
that stood on `s` and every other square as before, has the same `computeHash` value as
the board; and a board that differs only in castling rights, en-passant target,
halfmove clock and fullmove number has the same `computeHash` value. -/
theorem C39_hash_ignores_placement (b : Board) (s t : Nat)
    (hd : b.pieces_.Disjoint)
    (hs : (b.pieceAt s).isSome = true) (ht : (b.pieceAt t).isSome = true) :
    (b.exchanged s t).computeHash = b.computeHash ∧
      (b.exchanged s t).pieceAt s = b.pieceAt t ∧
      (b.exchanged s t).pieceAt t = b.pieceAt s ∧
      (∀ i, i ≠ s → i ≠ t → (b.exchanged s t).pieceAt i = b.pieceAt i) ∧
      (∀ (cr : CastlingRights) (ep : Nat) (hm fm : Int),
        ({ b with castlingRights_ := cr, enPassant_ := ep, halfmoveClock_ := hm,
                  fullmoveNumber_ := fm } : Board).computeHash = b.computeHash) := by
  obtain ⟨ps, hps⟩ := Option.isSome_iff_exists.1 hs
  obtain ⟨pt, hpt⟩ := Option.isSome_iff_exists.1 ht
  have hs64 := (pieceAt_some b s ps hps).1
  have ht64 := (pieceAt_some b t pt hpt).1
  refine ⟨?_, ?_, ?_, ?_, ?_⟩
  · have hside : (b.exchanged s t).sideToMove_ = b.sideToMove_ := rfl
    have hpcs : (b.exchanged s t).pieces_ = b.pieces_.map (swapBits s t) := rfl
    have hmap : allKinds.map (fun cp => bitmapWord cp ((b.pieces_.map (swapBits s t)).get cp.1 cp.2)) =
        allKinds.map (fun cp => bitmapWord cp (b.pieces_.get cp.1 cp.2) ^^^
          ((if (b.pieces_.get cp.1 cp.2).testBit s then
              ((s * 0xbf58476d1ce4e5b9) % 2 ^ 64) ^^^ ((t * 0xbf58476d1ce4e5b9) % 2 ^ 64)
            else 0) ^^^
           (if (b.pieces_.get cp.1 cp.2).testBit t then
              ((s * 0xbf58476d1ce4e5b9) % 2 ^ 64) ^^^ ((t * 0xbf58476d1ce4e5b9) % 2 ^ 64)
            else 0))) := by
      apply List.map_congr_left
      intro cp _
      rw [Pieces.get_map]
      exact bitmapWord_swapBits cp s t _ hs64 ht64 _ rfl
    rw [computeHash_eq, computeHash_eq b, hside, hpcs, hmap,
      xorAll_map_xor (fun (cp : Color × PieceType) => bitmapWord cp (b.pieces_.get cp.1 cp.2)),
      xorAll_map_xor
        (fun (cp : Color × PieceType) => if (b.pieces_.get cp.1 cp.2).testBit s then
              ((s * 0xbf58476d1ce4e5b9) % 2 ^ 64) ^^^ ((t * 0xbf58476d1ce4e5b9) % 2 ^ 64)
            else 0)
        (fun (cp : Color × PieceType) => if (b.pieces_.get cp.1 cp.2).testBit t then
              ((s * 0xbf58476d1ce4e5b9) % 2 ^ 64) ^^^ ((t * 0xbf58476d1ce4e5b9) % 2 ^ 64)
            else 0),
      xorAll_occupied b hd s hs, xorAll_occupied b hd t ht, Nat.xor_self, Nat.xor_zero]
  · have h := pieceAt_exchanged b s t hs64 ht64 s
    rw [if_pos rfl] at h
    exact h
  · have h := pieceAt_exchanged b s t hs64 ht64 t
    by_cases hst : t = s
    · rw [if_pos hst] at h
      rw [h, hst]
    · rw [if_neg hst, if_pos rfl] at h
      exact h
  · intro i h1 h2
    have h := pieceAt_exchanged b s t hs64 ht64 i
    rw [if_neg h1, if_neg h2] at h
    exact h
  · intro cr ep hm fm
    rfl

theorem C39_hash_ignores_placement_witness :
    (Board.new.exchanged 0 12).computeHash = Board.new.computeHash ∧
      (Board.new.exchanged 0 12).pieceAt 0 = Board.new.pieceAt 12 ∧
      (Board.new.exchanged 0 12).pieceAt 12 = Board.new.pieceAt 0 ∧
      (∀ i, i ≠ 0 → i ≠ 12 → (Board.new.exchanged 0 12).pieceAt i = Board.new.pieceAt i) ∧
      (∀ (cr : CastlingRights) (ep : Nat) (hm fm : Int),
        ({ Board.new with castlingRights_ := cr, enPassant_ := ep, halfmoveClock_ := hm,
                          fullmoveNumber_ := fm } : Board).computeHash =
          Board.new.computeHash) :=
  C39_hash_ignores_placement Board.new 0 12
    (Pieces.disjoint_of_disjointB _ (by decide)) (by decide) (by decide)

end Board

end Hunyadi
